import Mathlib

/-! # chiark-utils: prefork-interp / cgi-fcgi-interp

A shallow embedding of the C sources `cprogs/prefork.c`, `cprogs/prefork-interp.c`
and `cprogs/cgi-fcgi-interp.c`, and theorems about them.

Conventions of the embedding:

* a C string is the list of its bytes (natural numbers) without the terminating
  NUL; `NulFree` says that no byte of it is zero, which is what makes a byte
  list a C string;
* `die`/`diee` (prefork.h: `DEF_DIE`, estatus 127) become `Except.error` with a
  `Fatal` value carrying the exit status and the message;
* system calls are not executed: their results are inputs of the embedded
  function (an `Except Errno _` per call), or are computed from an explicit
  model of the run directory.
-/

namespace Prefork

/-! ## Basic types -/

/-- A C string, as the list of its bytes before the terminating NUL. -/
abbrev CStr := List Nat

/-- No byte of the string is NUL. -/
def NulFree (s : CStr) : Prop := ∀ b ∈ s, b ≠ 0

instance (s : CStr) : Decidable (NulFree s) := by
  unfold NulFree; exact inferInstance

/-- The errno values the sources test for, and a catch-all for the others. -/
inductive Errno where
  | ENOENT | ENOTDIR | EACCES | EPERM | EEXIST | EINTR | ECONNREFUSED | ECONNRESET
  | other (n : Nat)
  deriving DecidableEq, Repr

/-- Process termination through `die` or `diee`: `vmsgcore` prints the
message and calls `exit(estatus)`, with estatus 127 (prefork.h, `DEF_DIE`). -/
structure Fatal where
  status : Nat
  msg : String
  deriving DecidableEq, Repr

/-- Equality of results is decidable, so that concrete runs can be checked. -/
instance instDecidableEqExcept {ε α : Type} [DecidableEq ε] [DecidableEq α] :
    DecidableEq (Except ε α)
  | .ok a, .ok b => if h : a = b then isTrue (by rw [h]) else isFalse (by intro h1; cases h1; exact h rfl)
  | .error a, .error b =>
    if h : a = b then isTrue (by rw [h]) else isFalse (by intro h1; cases h1; exact h rfl)
  | .ok _, .error _ => isFalse (by intro h; cases h)
  | .error _, .ok _ => isFalse (by intro h; cases h)

/-- The function `die` of prefork.h. -/
def die (msg : String) : Fatal := ⟨127, msg⟩

/-- The function `diee` of prefork.h (the errno text is not modelled). -/
def diee (msg : String) : Fatal := ⟨127, msg⟩

/-! ## prefork-interp.c: the request message -/

/-- The constant `SIZE_MAX` for a 64-bit `size_t`. -/
def SIZE_MAX : Nat := 2 ^ 64 - 1

/-- The constant `UINT32_MAX`. -/
def UINT32_MAX : Nat := 2 ^ 32 - 1

/-- The two out-parameters of the `prepare_*` functions: `len` is `*len`
(`none` when the pointer `len` is null), `buf` is the bytes stored so far
through `*buf` (`none` when the pointer `buf` is null). -/
structure PrepState where
  len : Option Nat
  buf : Option (List Nat)
  deriving DecidableEq, Repr

/-- The function `die_data_overflow`. -/
def die_data_overflow : Fatal := die "cannot handle data with length >2^32"

/-- The function `prepare_data`: adds `dl` to `*len` (fatal when
`dl >= SIZE_MAX - *len`) and copies the data to `*buf`. -/
def prepare_data (st : PrepState) (data : List Nat) : Except Fatal PrepState :=
  let dl := data.length
  match st.len with
  | some l =>
    if dl ≥ SIZE_MAX - l then .error die_data_overflow
    else .ok { len := some (l + dl), buf := st.buf.map (· ++ data) }
  | none => .ok { len := none, buf := st.buf.map (· ++ data) }

/-- The four bytes of `htonl(x)` in memory order (most significant first). -/
def htonl_bytes (x : Nat) : List Nat :=
  [x / 2 ^ 24 % 256, x / 2 ^ 16 % 256, x / 2 ^ 8 % 256, x % 256]

/-- The function `prepare_length`. -/
def prepare_length (st : PrepState) (dl_sz : Nat) : Except Fatal PrepState :=
  if dl_sz > UINT32_MAX then .error die_data_overflow
  else prepare_data st (htonl_bytes dl_sz)

/-- The function `prepare_string`: the string and its terminating NUL. -/
def prepare_string (st : PrepState) (s : CStr) : Except Fatal PrepState :=
  prepare_data st (s ++ [0])

/-- The byte `'='`. -/
def ch_equals : Nat := 61

/-- First loop of `prepare_message`: every entry of `environ` that contains
`'='` (`strchr(s, '=')`) is added. -/
def prepare_environ : PrepState → List CStr → Except Fatal PrepState
  | st, [] => .ok st
  | st, s :: p =>
    if ch_equals ∈ s then
      match prepare_string st s with
      | .error e => .error e
      | .ok st1 => prepare_environ st1 p
    else prepare_environ st p

/-- Second loop of `prepare_message`: every entry of `executor_argv`. -/
def prepare_argv : PrepState → List CStr → Except Fatal PrepState
  | st, [] => .ok st
  | st, s :: p =>
    match prepare_string st s with
    | .error e => .error e
    | .ok st1 => prepare_argv st1 p

/-- The function `prepare_message`, on the vectors `environ` and
`executor_argv`. -/
def prepare_message (st : PrepState) (environ executor_argv : List CStr) :
    Except Fatal PrepState :=
  match prepare_environ st environ with
  | .error e => .error e
  | .ok st1 =>
    match prepare_string st1 [] with
    | .error e => .error e
    | .ok st2 => prepare_argv st2 executor_argv

/-- Reference decoder, first step: the NUL-terminated strings of a byte
sequence, in order (`cur` holds the bytes of the current string, reversed). -/
def split_nul_aux : List Nat → List Nat → List CStr
  | [], _ => []
  | b :: rest, cur =>
    if b = 0 then cur.reverse :: split_nul_aux rest []
    else split_nul_aux rest (b :: cur)

/-- Reference decoder, first step: split on NUL. -/
def split_nul (body : List Nat) : List CStr := split_nul_aux body []

/-- Reference decoder of the service request message (protocol comment,
part 4 step 7): the strings before the first empty string are the
environment, all the strings after it are the arguments. -/
def decode_message (body : List Nat) : List CStr × List CStr :=
  let strs := split_nul body
  (strs.takeWhile (fun s => !s.isEmpty), (strs.dropWhile (fun s => !s.isEmpty)).drop 1)

/-- Concatenation of the strings of a vector, each with its terminating NUL. -/
def nul_terminated : List CStr → List Nat
  | [] => []
  | s :: r => s ++ 0 :: nul_terminated r

/-! ## prefork.c: the lock file -/

/-- A `struct timespec`. -/
structure Timespec where
  tv_sec : Int
  tv_nsec : Int
  deriving DecidableEq, Repr

/-- The fields of `struct stat` that the sources read. -/
structure Stat where
  st_dev : Nat
  st_ino : Nat
  st_mode : Nat
  st_uid : Nat
  st_atime : Int
  st_mtim : Timespec
  deriving DecidableEq, Repr

/-- The function `stabs_same_inode`. -/
def stabs_same_inode (a b : Stat) : Bool :=
  a.st_dev == b.st_dev && a.st_ino == b.st_ino

/-- What the kernel answers in one iteration of the loop of `flock_file`:
the results of `open(lock_path, O_CREAT|O_RDWR, 0600)`, of
`flock(lockfd, LOCK_EX)`, of `fstat(lockfd)` and of `stat(lock_path)`.
A result that the iteration does not reach is not looked at. -/
structure LockAttempt where
  open_res : Except Errno Nat
  flock_res : Except Errno Unit
  fstat_res : Except Errno Stat
  stat_res : Except Errno Stat
  deriving DecidableEq, Repr

/-- How a call of `flock_file` stands after the iterations it has been given:
it has returned a descriptor, it has died, or it is still in its loop. -/
inductive LockResult where
  | returned (lockfd : Nat)
  | fatal (f : Fatal)
  | pending
  deriving DecidableEq, Repr

/-- A run of `flock_file`: its result and the descriptors it has closed, in
the order of the `close` calls. -/
structure LockRun where
  result : LockResult
  closed : List Nat
  deriving DecidableEq, Repr

/-- The loop `for (;;)` of `flock_file`. `lockfd` is the variable `lockfd`
(`none` for -1), `closed` the descriptors closed so far; the list holds the
kernel's answers for the iterations to come. -/
def flock_file_loop : Option Nat → List Nat → List LockAttempt → LockRun
  | _, closed, [] => ⟨.pending, closed⟩
  | lockfd, closed, a :: rest =>
    let closed1 := match lockfd with
      | some fd => closed ++ [fd]
      | none => closed
    match a.open_res with
    | .error _ => ⟨.fatal (diee "create lock (%s)"), closed1⟩
    | .ok fd =>
      match a.flock_res with
      | .error .EINTR => flock_file_loop (some fd) closed1 rest
      | .error _ => ⟨.fatal (diee "lock lock (%s)"), closed1⟩
      | .ok _ =>
        match a.fstat_res with
        | .error _ => ⟨.fatal (diee "fstat locked lock"), closed1⟩
        | .ok stab_fd =>
          match a.stat_res with
          | .ok stab_path =>
            if stabs_same_inode stab_path stab_fd then ⟨.returned fd, closed1⟩
            else flock_file_loop (some fd) closed1 rest
          | .error .ENOENT => flock_file_loop (some fd) closed1 rest
          | .error _ => ⟨.fatal (diee "re-stat locked lock (%s)"), closed1⟩

/-- The function `flock_file`: the loop entered with `lockfd = -1`. -/
def flock_file (attempts : List LockAttempt) : LockRun :=
  flock_file_loop none [] attempts

/-- An iteration of `flock_file` after which the loop goes round again:
`open` gave a descriptor and then either `flock` was interrupted (EINTR), or
the lock was taken, `fstat` succeeded and `stat` of the path found no file
(ENOENT) or a file with another device or inode. -/
def LockAttempt.retries (a : LockAttempt) : Bool :=
  match a.open_res, a.flock_res, a.fstat_res, a.stat_res with
  | .ok _, .error .EINTR, _, _ => true
  | .ok _, .ok _, .ok _, .error .ENOENT => true
  | .ok _, .ok _, .ok stab_fd, .ok stab_path => !stabs_same_inode stab_path stab_fd
  | _, _, _, _ => false

/-- An iteration of `flock_file` in which the process dies: `open` fails, or
`flock` fails otherwise than by EINTR, or `fstat` fails, or `stat` fails
otherwise than by ENOENT. -/
def LockAttempt.dies (a : LockAttempt) : Bool :=
  match a.open_res, a.flock_res, a.fstat_res, a.stat_res with
  | .error _, _, _, _ => true
  | .ok _, .error e, _, _ => e != .EINTR
  | .ok _, .ok _, .error _, _ => true
  | .ok _, .ok _, .ok _, .error e => e != .ENOENT
  | .ok _, .ok _, .ok _, .ok _ => false

/-- A run of `flock_file`: the first iteration finds the lock path replaced
by another inode, the second is interrupted in `flock`, the third finds the
path missing and the fourth gets the lock, on descriptor 6. -/
def sample_lock_attempts : List LockAttempt :=
  [⟨.ok 3, .ok (), .ok ⟨1, 10, 0, 0, 0, ⟨0, 0⟩⟩, .ok ⟨1, 11, 0, 0, 0, ⟨0, 0⟩⟩⟩,
   ⟨.ok 4, .error .EINTR, .error .ENOENT, .error .ENOENT⟩,
   ⟨.ok 5, .ok (), .ok ⟨1, 11, 0, 0, 0, ⟨0, 0⟩⟩, .error .ENOENT⟩,
   ⟨.ok 6, .ok (), .ok ⟨1, 12, 0, 0, 0, ⟨0, 0⟩⟩, .ok ⟨1, 12, 0, 0, 0, ⟨0, 0⟩⟩⟩]

/-! ## prefork-interp.c: the sweep of the run directory (`preclean`) -/

/-- A file of the run directory `run_base`: its name in the directory
(`d_name`) and its access time (`st_atime`, a `time_t`). -/
structure DirFile where
  name : CStr
  atime : Int
  deriving DecidableEq, Repr

/-- The run directory: its files, in the order in which `readdir` lists
them. -/
abbrev RunDir := List DirFile

/-- The byte `'l'`. -/
def ch_l : Nat := 108

/-- The byte `'s'`. -/
def ch_s : Nat := 115

/-- The call `lstat(path, &stab)` for the file `name` of the run directory. -/
def sys_lstat (dir : RunDir) (name : CStr) : Except Errno DirFile :=
  match dir.find? (fun f => f.name = name) with
  | some f => .ok f
  | none => .error .ENOENT

/-- The call `unlink(path)` for the file `name` of the run directory. -/
def sys_unlink (dir : RunDir) (name : CStr) : Except Errno RunDir :=
  if dir.any (fun f => f.name = name) then .ok (dir.filter (fun f => f.name ≠ name))
  else .error .ENOENT

/-- The directory once `flock_file` has returned for the path `name`: the
file exists (`open` with `O_CREAT` has made it if it was missing; the access
time of a lock file is never read). -/
def dir_with_lock (dir : RunDir) (name : CStr) : RunDir :=
  if dir.any (fun f => f.name = name) then dir else dir ++ [⟨name, 0⟩]

/-- The struct `PrecleanEntry`. -/
structure PrecleanEntry where
  name_hash : CStr
  atime : Int
  deriving DecidableEq, Repr

/-- The function `strcmp`, on the bytes as `unsigned char`: negative, zero
or positive. -/
def strcmp : CStr → CStr → Int
  | [], [] => 0
  | [], _ :: _ => -1
  | _ :: _, [] => 1
  | a :: s, b :: t => if a < b then -1 else if b < a then 1 else strcmp s t

/-- The function `preclean_entry_compar_name`. -/
def preclean_entry_compar_name (a b : PrecleanEntry) : Int :=
  strcmp a.name_hash b.name_hash

/-- The function `preclean_entry_compar_atime`. -/
def preclean_entry_compar_atime (ae be : PrecleanEntry) : Int :=
  let a := ae.atime
  let b := be.atime
  if a > b then 1 else if a < b then -1 else 0

/-- The library function `qsort` with the comparison function `compar`. C
leaves the order of elements that compare equal unspecified; this model keeps
them in their order (insertion sort). -/
def qsort {α : Type} (compar : α → α → Int) (l : List α) : List α :=
  l.insertionSort (fun a b => compar a b ≤ 0)

/-- The function `preclean_stat_atime`, on the result of its `lstat`. -/
def preclean_stat_atime (r : Except Errno DirFile) : Except Fatal Int :=
  match r with
  | .error .ENOENT => .ok 0
  | .error _ => .error (diee "pre-cleanup: stat socket (%s)")
  | .ok stab => .ok stab.atime

/-- Death by a failed `assert` (`abort`, SIGABRT; written as status 128+6). -/
def assert_failed (expr : String) : Fatal := ⟨134, expr⟩

/-- The value of `INT_MAX / 4 / sizeof(PrecleanEntry)` (a pointer and a
`time_t`, 16 bytes). -/
def preclean_avail_limit : Nat := 2147483647 / 4 / 16

/-- The `readdir` loop of `preclean`: `names` are the `d_name`s still to
come, `avail` is `avail_entries`, `entries` the entries stored so far
(`used_entries` is their number). -/
def preclean_scan (dir : RunDir) :
    List CStr → Nat → List PrecleanEntry → Except Fatal (List PrecleanEntry)
  | [], _, entries => .ok entries
  | [] :: names, avail, entries => preclean_scan dir names avail entries
  | (c0 :: name_hash) :: names, avail, entries =>
    if !(c0 = ch_l || c0 = ch_s) then preclean_scan dir names avail entries
    else
      match preclean_stat_atime (sys_lstat dir (ch_s :: name_hash)) with
      | .error e => .error e
      | .ok atime =>
        if avail = entries.length then
          if avail < preclean_avail_limit then
            preclean_scan dir names (avail * 2 + 10) (entries ++ [⟨name_hash, atime⟩])
          else .error (assert_failed "avail_entries < INT_MAX / 4 / sizeof(PrecleanEntry)")
        else preclean_scan dir names avail (entries ++ [⟨name_hash, atime⟩])

/-- The deduplication loop of `preclean` over the entries sorted by name:
`out` holds the entries kept so far (`entries .. q`), last one first. -/
def preclean_dedupe : List PrecleanEntry → List PrecleanEntry → List PrecleanEntry
  | [], out => out.reverse
  | p :: ps, [] => preclean_dedupe ps [p]
  | p :: ps, last :: out =>
    if strcmp p.name_hash last.name_hash = 0 then preclean_dedupe ps (last :: out)
    else preclean_dedupe ps (p :: last :: out)

/-- The other processes and the kernel, as `preclean` meets them:
`at_lock i dir` is what the other processes have made of the run directory
`dir` by the time `flock_file` returns for the `i`-th candidate,
`lock_attempts i` are the kernel's answers in that call of `flock_file`, and
`readdir_errno` is the value of `errno` when `readdir` returns null (`none`
for 0, the end of the directory). -/
structure PrecleanWorld where
  at_lock : Nat → RunDir → RunDir
  lock_attempts : Nat → List LockAttempt
  readdir_errno : Option Errno

/-- Why a process has stopped: it died, or it is still inside `flock_file`. -/
inductive Halt where
  | fatal (f : Fatal)
  | pending
  deriving DecidableEq, Repr

/-- The state of the sweep: the run directory, the names given to the
`unlink` calls that succeeded (oldest first), and whether the process has
stopped. -/
structure Sweep where
  dir : RunDir
  unlinked : List CStr
  halted : Option Halt
  deriving DecidableEq, Repr

/-- The body of the eviction loop of `preclean` for the `i`-th candidate
`p`. The `close(lock_fd)` and the `free`s that end the body change neither
the directory nor the flow and are left out. -/
def preclean_candidate (w : PrecleanWorld) (i : Nat) (p : PrecleanEntry) (st : Sweep) : Sweep :=
  let l_path := ch_l :: p.name_hash
  let s_path := ch_s :: p.name_hash
  match (flock_file (w.lock_attempts i)).result with
  | .pending => { st with halted := some .pending }
  | .fatal f => { st with halted := some (.fatal f) }
  | .returned _ =>
    let dir1 := dir_with_lock (w.at_lock i st.dir) l_path
    -- Recheck atime - we might have raced!
    match preclean_stat_atime (sys_lstat dir1 s_path) with
    | .error f => { st with dir := dir1, halted := some (.fatal f) }
    | .ok atime =>
      if atime ≠ p.atime then
        -- Raced.
        { st with dir := dir1 }
      else
        match (match sys_unlink dir1 s_path with
               | .ok dir2 => Except.ok (dir2, st.unlinked ++ [s_path])
               | .error .ENOENT => Except.ok (dir1, st.unlinked)
               | .error _ => Except.error (diee "preclean: delete stale (%s)")) with
        | .error f => { st with dir := dir1, halted := some (.fatal f) }
        | .ok (dir2, unlinked2) =>
          match sys_unlink dir2 l_path with
          | .error _ =>
            { dir := dir2, unlinked := unlinked2,
              halted := some (.fatal (diee "preclean: delete stale lock (%s)")) }
          | .ok dir3 => { dir := dir3, unlinked := unlinked2 ++ [l_path], halted := none }

/-- The eviction loop of `preclean`,
`for (p=entries; p < entries + max_sockets; p++)`, from the `i`-th
candidate on. -/
def preclean_evict (w : PrecleanWorld) : Nat → List PrecleanEntry → Sweep → Sweep
  | _, [], st => st
  | i, p :: rest, st =>
    let st1 := preclean_candidate w i p st
    if st1.halted.isSome then st1 else preclean_evict w (i + 1) rest st1

/-- The value of the variable `max_sockets`; no option changes it. -/
def max_sockets : Nat := 100

/-- The names that `readdir` gives for the run directory. -/
def sys_readdir (dir : RunDir) : List CStr :=
  [46] :: [46, 46] :: dir.map (fun f => f.name)

/-- The function `preclean` with `max_sockets = cap`; `opendir` is the
result of `opendir(run_base)`, the run directory when it can be opened. -/
def preclean_with (cap : Nat) (w : PrecleanWorld) (opendir : Except Errno RunDir) : Sweep :=
  match opendir with
  | .error .ENOENT => ⟨[], [], none⟩
  | .error _ => ⟨[], [], some (.fatal (diee "pre-cleanup: open run dir (%s)"))⟩
  | .ok dir =>
    match preclean_scan dir (sys_readdir dir) 0 [] with
    | .error f => ⟨dir, [], some (.fatal f)⟩
    | .ok scanned =>
      match w.readdir_errno with
      | some _ => ⟨dir, [], some (.fatal (diee "pre-cleanup: read run dir (%s)"))⟩
      | none =>
        -- First we dedupe (after sorting by path)
        let entries := preclean_dedupe (qsort preclean_entry_compar_name scanned) []
        -- Now maybe delete some things
        if entries.length > cap then
          preclean_evict w 0 ((qsort preclean_entry_compar_atime entries).take cap)
            ⟨dir, [], none⟩
        else ⟨dir, [], none⟩

/-- The function `preclean`. -/
def preclean (w : PrecleanWorld) (opendir : Except Errno RunDir) : Sweep :=
  preclean_with max_sockets w opendir

/-- A world without other processes: the directory is left alone and each
`flock_file` gets the lock at its first attempt (descriptor 3, the inode that
the path names). -/
def quiet_world : PrecleanWorld where
  at_lock := fun _ dir => dir
  lock_attempts := fun _ =>
    [⟨.ok 3, .ok (), .ok ⟨1, 1, 0, 0, 0, ⟨0, 0⟩⟩, .ok ⟨1, 1, 0, 0, 0, ⟨0, 0⟩⟩⟩]
  readdir_errno := none

/-- A run directory holding `n` sockets `s<k>` and their lock files `l<k>`,
for `k = 1 .. n`, the socket `s<k>` last used at time `k`. -/
def sample_dir (n : Nat) : RunDir :=
  (List.range n).flatMap fun k => [⟨[ch_s, k + 1], (k : Int) + 1⟩, ⟨[ch_l, k + 1], 0⟩]

/-- A world in which another process uses the socket `s<1>` (its access time
becomes 50) after the scan and before the sweep holds the lock of a
candidate; locks are got at the first attempt. -/
def touch_world : PrecleanWorld where
  at_lock := fun _ dir =>
    dir.map fun f => if f.name = [ch_s, 1] then { f with atime := 50 } else f
  lock_attempts := quiet_world.lock_attempts
  readdir_errno := none

/-! ## cgi-fcgi-interp.c: staleness of the socket (`check_garbage`) -/

/-- Modelled from the spec: the macro `timespeccmp(a, b, >)` of
`timespeccmp.h`, which is not among the sources. The times are compared on
seconds, then on nanoseconds. -/
def timespeccmp_gt (a b : Timespec) : Bool :=
  if a.tv_sec = b.tv_sec then decide (a.tv_nsec > b.tv_nsec) else decide (a.tv_sec > b.tv_sec)

/-- The function `stab_isnewer` (the branch for `st_mtime` defined as a
macro, with `st_mtim`); the debug output is left out. -/
def stab_isnewer (a b : Stat) : Bool :=
  timespeccmp_gt a.st_mtim b.st_mtim

/-- The macro `S_ISLNK` of `<sys/stat.h>`: `(mode & S_IFMT) == S_IFLNK`. -/
def S_ISLNK (mode : Nat) : Bool :=
  mode &&& 0o170000 == 0o120000

/-- The function `check_garbage_vs`, on the results of `lstat(script)` and
of `stat(script)`; the second is looked at only when the script is a
symbolic link that is not newer itself. -/
def check_garbage_vs (script_lstat script_stat : Except Errno Stat) (started : Stat) :
    Except Fatal Bool :=
  match script_lstat with
  | .error _ => .error (diee "lstat script (%s)")
  | .ok script_stab =>
    if stab_isnewer script_stab started then .ok true
    else if S_ISLNK script_stab.st_mode then
      match script_stat with
      | .error _ => .error (diee "stat script (%s0")
      | .ok script_stab2 =>
        if stab_isnewer script_stab2 started then .ok true else .ok false
    else .ok false

/-- The function `check_garbage`, on the result of `lstat(socket_path)` and
the two results for the script. -/
def check_garbage (sock_lstat script_lstat script_stat : Except Errno Stat) :
    Except Fatal Bool :=
  match sock_lstat with
  | .error .ENOENT => .ok false
  | .error _ => .error (diee "stat socket (%s)")
  | .ok sock_stab => check_garbage_vs script_lstat script_stat sock_stab

/-- The time `a` is strictly later than the time `b`: more seconds, or the
same seconds and more nanoseconds. -/
def Timespec.later (a b : Timespec) : Prop :=
  b.tv_sec < a.tv_sec ∨ (a.tv_sec = b.tv_sec ∧ b.tv_nsec < a.tv_nsec)

instance (a b : Timespec) : Decidable (a.later b) := by
  unfold Timespec.later; exact inferInstance

/-! ## prefork.c: the identity -/

/-- The hash context `identsc`, as the bytes given to `sha256_update` since
`sha256_init`, in order. -/
abbrev IdentCtx := List Nat

/-- The function `ident_add_key_byte`. -/
def ident_add_key_byte (identsc : IdentCtx) (key : Nat) : IdentCtx :=
  identsc ++ [key]

/-- The function `ident_addstring`: the key byte, then the `strlen(string)+1`
bytes of the string with its NUL. -/
def ident_addstring (identsc : IdentCtx) (key : Nat) (string : CStr) : IdentCtx :=
  ident_add_key_byte identsc key ++ (string ++ [0])

/-- The byte `'G'`. -/
def ch_G : Nat := 71

/-- The byte `'E'`. -/
def ch_E : Nat := 69

/-- The byte `'v'`. -/
def ch_v : Nat := 118

/-- The byte `'i'`. -/
def ch_i : Nat := 105

/-- The function `off_ident_addstring` (option `-G`). -/
def off_ident_addstring (identsc : IdentCtx) (string : CStr) : IdentCtx :=
  ident_addstring identsc ch_G string

/-- The function `off_ident_addenv` (option `-E`); `getenv` is the
environment. -/
def off_ident_addenv (getenv : CStr → Option CStr) (identsc : IdentCtx) (name : CStr) :
    IdentCtx :=
  let identsc1 := ident_addstring identsc ch_E name
  match getenv name with
  | some val => ident_addstring identsc1 ch_v val
  | none => ident_add_key_byte identsc1 0

/-- An option of the command line that adds to the identity. -/
inductive IdentOpt where
  | G (string : CStr)
  | E (name : CStr)
  deriving DecidableEq, Repr

/-- The calls that `myopt` makes for the options `-G` and `-E`, in the order
of the command line. -/
def ident_add_opts (getenv : CStr → Option CStr) : IdentCtx → List IdentOpt → IdentCtx
  | identsc, [] => identsc
  | identsc, .G string :: opts =>
    ident_add_opts getenv (off_ident_addstring identsc string) opts
  | identsc, .E name :: opts =>
    ident_add_opts getenv (off_ident_addenv getenv identsc name) opts

/-- The lines of `find_socket_path` that complete the hash input:
`ident_addstring('i', interp); if (script) ident_addstring('s', script);`. -/
def ident_add_interp_script (identsc : IdentCtx) (interp : CStr) (script : Option CStr) :
    IdentCtx :=
  let identsc1 := ident_addstring identsc ch_i interp
  match script with
  | some s => ident_addstring identsc1 ch_s s
  | none => identsc1

/-- The byte string that has been given to SHA-256 when `find_socket_path`
calls `sha256_digest`: the bytes `init` of `ident_addinit` (which depend on
the program and the machine only), then the options, the interpreter and the
script. -/
def ident_input (init : List Nat) (getenv : CStr → Option CStr) (opts : List IdentOpt)
    (interp : CStr) (script : Option CStr) : IdentCtx :=
  ident_add_interp_script (ident_add_opts getenv init opts) interp script

/-- What an option contributes to the identity: a `-G` string, or a `-E`
variable with its value or its absence. -/
inductive IdentFragment where
  | string (s : CStr)
  | env (name : CStr) (value : Option CStr)
  deriving DecidableEq, Repr

/-- The fragment that an option stands for in the environment `getenv`. -/
def IdentOpt.fragment (getenv : CStr → Option CStr) : IdentOpt → IdentFragment
  | .G s => .string s
  | .E name => .env name (getenv name)

/-- The strings of a fragment are C strings. -/
def IdentFragment.NulFree : IdentFragment → Prop
  | .string s => Prefork.NulFree s
  | .env name none => Prefork.NulFree name
  | .env name (some v) => Prefork.NulFree name ∧ Prefork.NulFree v

/-- The bytes of a fragment in the hash input (used to state lemmas). -/
def IdentFragment.bytes : IdentFragment → List Nat
  | .string s => ch_G :: (s ++ [0])
  | .env name none => ch_E :: (name ++ [0]) ++ [0]
  | .env name (some v) => ch_E :: (name ++ [0]) ++ ch_v :: (v ++ [0])

/-- The bytes of a list of fragments (used to state lemmas). -/
def fragments_bytes : List IdentFragment → List Nat
  | [] => []
  | f :: fs => f.bytes ++ fragments_bytes fs

/-- The bytes for the interpreter and the script (used to state lemmas). -/
def interp_script_bytes (interp : CStr) (script : Option CStr) : List Nat :=
  ch_i :: (interp ++ [0]) ++
    match script with
    | some s => ch_s :: (s ++ [0])
    | none => []

/-! ## prefork.c: the socket path (`find_socket_path`) -/

/-- The constant `MINHEXHASH` of prefork.h. -/
def MINHEXHASH : Int := 33

/-- Subtraction in `size_t` (64 bits, unsigned): the result wraps. -/
def size_t_sub (a b : Nat) : Nat :=
  (a % 2 ^ 64 + 2 ^ 64 - b % 2 ^ 64) % 2 ^ 64

/-- Conversion of a `size_t` to `int` (32 bits, two's complement), as in the
initialisation of an `int` from a `size_t` expression. -/
def size_t_to_int (x : Nat) : Int :=
  if x % 2 ^ 32 < 2 ^ 31 then (x % 2 ^ 32 : Nat) else ((x % 2 ^ 32 : Nat) : Int) - 2 ^ 32

/-- Conversion of an `int` to `size_t`, as the usual arithmetic conversions
do it to the `int` operand of a comparison with a `size_t`. -/
def int_to_size_t (x : Int) : Nat :=
  (x % 2 ^ 64).toNat

/-- The declaration
`int maxidentlen = sizeof(sun.sun_path) - strlen(run_base) - 10 - 2;`
where `sun_path_size` is `sizeof(sun.sun_path)`. -/
def maxidentlen (sun_path_size : Nat) (run_base : CStr) : Int :=
  size_t_to_int (size_t_sub (size_t_sub (size_t_sub sun_path_size run_base.length) 10) 2)

/-- A lowercase hexadecimal digit, as `%x` prints it. -/
def hex_digit (n : Nat) : Nat :=
  if n < 10 then 48 + n else 87 + n

/-- What `sprintf(p, "%02x", b)` stores for an `unsigned char` `b`: two
digits and a NUL. -/
def sprintf_02x (b : Nat) : List Nat :=
  [hex_digit (b / 16 % 16), hex_digit (b % 16), 0]

/-- Storing `data` at offset `off` of the buffer `buf`; `none` when the
bytes do not fit in the buffer. -/
def write_at (buf : List Nat) (off : Nat) (data : List Nat) : Option (List Nat) :=
  if off + data.length ≤ buf.length then
    some (buf.take off ++ data ++ buf.drop (off + data.length))
  else none

/-- The loop
`for (i=0; i<identlen; i += 2) sprintf(hexident+i, "%02x", bbuf[i/2]);`
from the index `i` on; the first argument bounds the number of iterations
(`identlen` is enough). -/
def hexident_loop (bbuf : List Nat) (identlen : Nat) : Nat → Nat → List Nat → Option (List Nat)
  | 0, _, hexident => some hexident
  | fuel + 1, i, hexident =>
    if i < identlen then
      match write_at hexident i (sprintf_02x (bbuf.getD (i / 2) 0)) with
      | none => none
      | some hexident1 => hexident_loop bbuf identlen fuel (i + 2) hexident1
    else some hexident

/-- The C string that starts a buffer: the bytes before the first NUL. -/
def c_string (buf : List Nat) : CStr :=
  buf.takeWhile (fun b => b ≠ 0)

/-- What `find_socket_path` is given: `sizeof(sun.sun_path)`, the directory
`run_base` found by `find_run_base_var_run` or `find_run_base_home` with
`run_base_mkdir_p`, the variables `ident` (option `-g`), `interp` and
`script`, the hash context, the function SHA-256 of nettle, the contents of
the memory that `xmalloc` returns, and the results of the calls of `mkdir`
(on `run_base`, on `run_base_mkdir_p`, and on `run_base` again). -/
structure FindSocketPath where
  sun_path_size : Nat
  run_base : CStr
  run_base_mkdir_p : Option CStr
  ident : Option CStr
  interp : CStr
  script : Option CStr
  identsc : IdentCtx
  sha256 : List Nat → List Nat
  heap : Nat → Nat
  mkdir_run_base : Except Errno Unit
  mkdir_parent : Except Errno Unit
  mkdir_run_base_again : Except Errno Unit

/-- A store outside an allocated buffer (undefined behaviour in C; written
as death by SIGSEGV, status 128+11). -/
def buffer_overrun : Fatal := ⟨139, "store outside the buffer"⟩

/-- The lowercase hexadecimal text of a sequence of bytes, two digits a
byte. -/
def hex_string : List Nat → List Nat
  | [] => []
  | b :: bs => hex_digit (b / 16 % 16) :: hex_digit (b % 16) :: hex_string bs

/-- The block `if (!ident) { ... }` of `find_socket_path`: the ident made
from the hash, or death. -/
def generated_ident (e : FindSocketPath) : Except Fatal CStr :=
  let maxidentlen := maxidentlen e.sun_path_size e.run_base
  if maxidentlen < MINHEXHASH then
    .error (die ("base directory `%s' leaves only %d characters for id hash" ++
      " which is too little (<%d)"))
  else
    let identlen := (if maxidentlen > 64 then 64 else maxidentlen).toNat
    let hexident := (List.range (identlen + 2)).map e.heap
    let bbuf := e.sha256 (ident_add_interp_script e.identsc e.interp e.script)
    match hexident_loop bbuf identlen identlen 0 hexident with
    | none => .error buffer_overrun
    | some hexident1 => .ok (c_string (hexident1.set identlen 0))

/-- The byte `'/'`. -/
def ch_slash : Nat := 47

/-- The values that `find_socket_path` leaves in `ident` and
`socket_path`. -/
structure SocketPath where
  ident : CStr
  socket_path : CStr
  deriving DecidableEq, Repr

/-- The function `find_socket_path`, from the declaration of `maxidentlen`
on. -/
def find_socket_path (e : FindSocketPath) : Except Fatal SocketPath :=
  let maxidentlen := maxidentlen e.sun_path_size e.run_base
  match (match e.ident with
         | none => generated_ident e
         | some ident => .ok ident) with
  | .error f => .error f
  | .ok ident =>
    if ident.length > int_to_size_t maxidentlen then
      .error (die ("base directory `%s' plus ident `%s' too long" ++
        " (with spare) for socket (max ident %d)\n"))
    else
      let r := match e.mkdir_run_base, e.run_base_mkdir_p with
        | .error .ENOENT, some _ =>
          match e.mkdir_parent with
          | .error _ => Except.error (diee "mkdir %s (since %s was ENOENT)")
          | .ok _ => Except.ok e.mkdir_run_base_again
        | r, _ => Except.ok r
      match r with
      | .error f => .error f
      | .ok (.error .EEXIST) | .ok (.ok _) =>
        .ok ⟨ident, e.run_base ++ [ch_slash, ch_s] ++ ident⟩
      | .ok (.error _) => .error (diee "mkdir %s")

/-- A stand-in for SHA-256 in examples: some function to 32 bytes. -/
def sample_sha256 (m : List Nat) : List Nat :=
  (List.range 32).map fun i => (i * 37 + m.length * 11 + 5) % 256

/-- An invocation of prefork-interp without `-g`, with `sizeof(sun_path)`
108 and the base directory `/var/run/user/1000/prefork-interp` (33 bytes,
which leaves 63 characters for the ident); the directory exists already. -/
def sample_find_generated : FindSocketPath where
  sun_path_size := 108
  run_base := [47, 118, 97, 114, 47, 114, 117, 110, 47, 117, 115, 101, 114, 47, 49, 48, 48,
    48, 47, 112, 114, 101, 102, 111, 114, 107, 45, 105, 110, 116, 101, 114, 112]
  run_base_mkdir_p := none
  ident := none
  interp := [112, 101, 114, 108]
  script := some [47, 120]
  identsc := [1]
  sha256 := sample_sha256
  heap := fun i => i % 7
  mkdir_run_base := .error .EEXIST
  mkdir_parent := .ok ()
  mkdir_run_base_again := .ok ()

/-- An invocation with `-g x`, with `sizeof(sun_path)` 108 and a base
directory of 100 bytes under the home directory (so that
`strlen(run_base) + strlen(ident) + 12` is 113); the directory exists
already. -/
def sample_find_long_base : FindSocketPath where
  sun_path_size := 108
  run_base := [47, 104, 111, 109, 101, 47] ++ List.replicate 72 97 ++
    [47, 46, 112, 114, 101, 102, 111, 114, 107, 45, 105, 110, 116, 101, 114, 112, 47,
      104, 111, 115, 116, 49]
  run_base_mkdir_p := some ([47, 104, 111, 109, 101, 47] ++ List.replicate 72 97 ++
    [47, 46, 112, 114, 101, 102, 111, 114, 107, 45, 105, 110, 116, 101, 114, 112])
  ident := some [120]
  interp := [112, 101, 114, 108]
  script := some [47, 120]
  identsc := [1]
  sha256 := sample_sha256
  heap := fun _ => 0
  mkdir_run_base := .error .EEXIST
  mkdir_parent := .ok ()
  mkdir_run_base_again := .ok ()

/-! ## prefork-interp.c: the greeting and `connect_existing` -/

/-- How a stream ends once the bytes of the peer are used up: end of file,
or a failing `read` with this errno. -/
inductive StreamEnd where
  | eof
  | error (e : Errno)
  deriving DecidableEq, Repr

/-- The call socket as the client reads it (an unbuffered `FILE`): the bytes
that the peer delivers from now on, and how the stream ends after them. -/
structure CallSock where
  data : List Nat
  ending : StreamEnd
  deriving DecidableEq, Repr

/-- The array `header_magic`, "PFI\n". -/
def header_magic : List Nat := [80, 70, 73, 10]

/-- The result of `protocol_read_maybe`: 0 with the bytes read, or -1. -/
inductive ReadMaybe where
  | got (bytes : List Nat)
  | eof
  deriving DecidableEq, Repr

/-- The function `was_eof` after a short `fread`: `feof(call_sock)` holds
when the stream ended with end of file, and `errno` is the one of the failed
`read` otherwise. -/
def was_eof (ending : StreamEnd) : Bool :=
  match ending with
  | .eof => true
  | .error e => e == .ECONNRESET

/-- The function `protocol_read_maybe`: reads `sz` bytes with
`fread(data, sz, 1, call_sock)`. -/
def protocol_read_maybe (sock : CallSock) (sz : Nat) : Except Fatal (ReadMaybe × CallSock) :=
  if sz = 0 then .ok (.got [], sock)
  else if sz ≤ sock.data.length then
    .ok (.got (sock.data.take sz), { sock with data := sock.data.drop sz })
  else if was_eof sock.ending then .ok (.eof, { sock with data := [] })
  else .error (diee "read() on monitor call socket (%zd)")

/-- The function `protocol_read`. -/
def protocol_read (sock : CallSock) (sz : Nat) : Except Fatal (List Nat × CallSock) :=
  match protocol_read_maybe sock sz with
  | .error f => .error f
  | .ok (.eof, _) => .error (die "monitor process quit unexpectedly")
  | .ok (.got bytes, sock1) => .ok (bytes, sock1)

/-- The value of a `uint32_t` whose four bytes in memory are `bytes`, on a
little-endian or a big-endian host. -/
def uint32_of_bytes (little_endian : Bool) (bytes : List Nat) : Nat :=
  let b := fun i => bytes.getD i 0
  if little_endian then b 0 + 256 * b 1 + 65536 * b 2 + 16777216 * b 3
  else 16777216 * b 0 + 65536 * b 1 + 256 * b 2 + b 3

/-- The function `read_greeting` on a host of the given byte order:
`none` for the return value 0 (OK), `some msg` for an error message (the
peer was garbage). -/
def read_greeting (little_endian : Bool) (sock : CallSock) :
    Except Fatal (Option String × CallSock) :=
  match protocol_read_maybe sock header_magic.length with
  | .error f => .error f
  | .ok (.eof, sock1) =>
    .ok (some ("initial monitor process quit" ++
      " (maybe script didn't call preform_initialisation_complete?)"), sock1)
  | .ok (.got got_magic, sock1) =>
    if got_magic ≠ header_magic then
      .error (die "got unexpected protocol magic 0x%02x%02x%02x%02x")
    else
      match protocol_read sock1 4 with
      | .error f => .error f
      | .ok (xdata_len_bytes, sock2) =>
        let xdata_len := uint32_of_bytes little_endian xdata_len_bytes
        match protocol_read sock2 xdata_len with
        | .error f => .error f
        | .ok (_, sock3) => .ok (none, sock3)

/-- The values of the variable `mode`. -/
inductive Mode where
  | MODE_NORMAL
  | MODE_KILL
  | MODE_FRESH
  deriving DecidableEq, Repr

/-- What the kernel and the C library answer in one call of
`connect_existing`: the results of `socket`, of `connect`, of `fdopen` and
`setvbuf` (in `call_sock_from_fd`), and what the peer sends on the
connection. -/
structure ConnectAnswers where
  socket_res : Except Errno Nat
  connect_res : Except Errno Unit
  fdopen_ok : Bool
  setvbuf_ok : Bool
  peer : CallSock
  deriving DecidableEq, Repr

/-- An open stream: its descriptor and what is still to be read from it. -/
structure OpenSock where
  fd : Nat
  sock : CallSock
  deriving DecidableEq, Repr

/-- The outcome of `connect_existing`: the return value (`none` for 0, "is
garbage"), the variable `call_sock` when the function returns, and the
descriptors that it has closed with `fclose` or `close`. -/
structure ConnectResult where
  returned : Option OpenSock
  call_sock : Option OpenSock
  closed : List Nat
  deriving DecidableEq, Repr

/-- The label `x_garbage` of `connect_existing`: `call_sock` is the
variable `call_sock`, `fd` the variable `fd` (`none` for -1). -/
def connect_existing_garbage (call_sock : Option OpenSock) (fd : Option Nat) : ConnectResult :=
  let closed1 := match call_sock with
    | some s => [s.fd]
    | none => []
  let closed2 := match fd with
    | some fd => closed1 ++ [fd]
    | none => closed1
  ⟨none, none, closed2⟩

/-- The function `connect_existing`; `call_sock` is the value of the
variable `call_sock` at entry. -/
def connect_existing (little_endian : Bool) (mode : Mode) (call_sock : Option OpenSock)
    (k : ConnectAnswers) : Except Fatal ConnectResult :=
  if mode ≠ .MODE_NORMAL then .ok ⟨none, call_sock, []⟩
  else
    match k.socket_res with
    | .error _ => .error (diee "socket() for client")
    | .ok fd =>
      match k.connect_res with
      | .error .ECONNREFUSED | .error .ENOENT => .ok (connect_existing_garbage call_sock (some fd))
      | .error _ => .error (diee "connect() %s")
      | .ok _ =>
        if !k.fdopen_ok then .error (diee "fdopen socket")
        else if !k.setvbuf_ok then .error (die "setvbuf socket")
        else
          match read_greeting little_endian k.peer with
          | .error f => .error f
          | .ok (some _, sock1) => .ok (connect_existing_garbage (some ⟨fd, sock1⟩) none)
          | .ok (none, sock1) => .ok ⟨some ⟨fd, sock1⟩, some ⟨fd, sock1⟩, []⟩

/-- The end of `connect_or_spawn`, for a freshly spawned server:
`emsg = read_greeting(); if (emsg) die("setup failed: %s", emsg);`, on the
stream made from `fake_pair[0]`. -/
def spawned_read_greeting (little_endian : Bool) (sock : CallSock) : Except Fatal CallSock :=
  match read_greeting little_endian sock with
  | .error f => .error f
  | .ok (some _, _) => .error (die "setup failed: %s")
  | .ok (none, sock1) => .ok sock1

/-! ## prefork-interp.c: the wait status (`propagate_exit_status`) -/

/-- The macro `WTERMSIG` of `<sys/wait.h>`: `status & 0x7f`. -/
def WTERMSIG (status : Nat) : Nat := status % 128

/-- The macro `WIFEXITED`: `WTERMSIG(status) == 0`. -/
def WIFEXITED (status : Nat) : Bool := WTERMSIG status == 0

/-- The macro `WEXITSTATUS`: `(status & 0xff00) >> 8`. -/
def WEXITSTATUS (status : Nat) : Nat := status / 256 % 256

/-- The macro `WIFSIGNALED`:
`((signed char) ((status & 0x7f) + 1) >> 1) > 0`. -/
def WIFSIGNALED (status : Nat) : Bool :=
  let x : Nat := status % 128 + 1
  let signed_char : Int := if x < 128 then (x : Int) else (x : Int) - 256
  decide (signed_char / 2 > 0)

/-- The macro `WCOREDUMP`: `status & 0x80`. -/
def WCOREDUMP (status : Nat) : Bool := status / 128 % 2 == 1

/-- The signal number `SIGHUP`. -/
def SIGHUP : Nat := 1

/-- The signal number `SIGINT`. -/
def SIGINT : Nat := 2

/-- The signal number `SIGKILL`. -/
def SIGKILL : Nat := 9

/-- The signal number `SIGPIPE`. -/
def SIGPIPE : Nat := 13

/-- The signal number `SIGTERM`. -/
def SIGTERM : Nat := 15

/-- The constant `INT_MAX`. -/
def INT_MAX : Nat := 2147483647

/-- How a process ends: `exit` or `_exit` with a status, death by a signal
it raised on itself, or `die`. -/
inductive ProcEnd where
  | exited (status : Nat)
  | signalled (sig : Nat)
  | fatal (f : Fatal)
  deriving DecidableEq, Repr

/-- The calls about signals that `propagate_exit_status` makes. -/
inductive SigCall where
  | sigaction_dfl (sig : Nat)
  | sigprocmask_unblock (sig : Nat)
  | raise (sig : Nat)
  deriving DecidableEq, Repr

/-- What the kernel answers to `propagate_exit_status`: the results of
`sigaction` and `sigprocmask`, and whether `raise` returns (the signal did
not end the process). -/
structure SignalAnswers where
  sigaction_res : Except Errno Unit
  sigprocmask_res : Except Errno Unit
  raise_returns : Bool
  deriving DecidableEq, Repr

/-- A run of `propagate_exit_status`, which never returns: the calls about
signals that it made, in order, and how the process ended. -/
structure Propagation where
  calls : List SigCall
  ending : ProcEnd
  deriving DecidableEq, Repr

/-- The function `propagate_exit_status`. -/
def propagate_exit_status (status : Nat) (k : SignalAnswers) : Propagation :=
  if WIFEXITED status then ⟨[], .exited (WEXITSTATUS status)⟩
  else if WIFSIGNALED status then
    let sig := WTERMSIG status
    if !WCOREDUMP status &&
        (sig == SIGINT || sig == SIGTERM || sig == SIGHUP || sig == SIGPIPE || sig == SIGKILL) then
      let after_raise (calls : List SigCall) : Propagation :=
        if k.raise_returns then
          ⟨calls, .fatal (die "unexpectedly kept running after raising (to propagate) %s")⟩
        else ⟨calls, .signalled sig⟩
      if sig != SIGKILL then
        match k.sigaction_res with
        | .error _ =>
          ⟨[.sigaction_dfl sig],
            .fatal (diee "failed to reset signal handler while propagating %s")⟩
        | .ok _ =>
          match k.sigprocmask_res with
          | .error _ =>
            ⟨[.sigaction_dfl sig, .sigprocmask_unblock sig],
              .fatal (diee "failed to reset signal block while propagating %s")⟩
          | .ok _ => after_raise [.sigaction_dfl sig, .sigprocmask_unblock sig, .raise sig]
      else after_raise [.raise sig]
    else ⟨[], .fatal (die "%s failed due to signal %d %s%s")⟩
  else ⟨[], .fatal (die "%s failed with weird wait status %d 0x%x")⟩

/-- The end of `main`: `protocol_read(&status, sizeof(status));
status = ntohl(status); if (status > INT_MAX) die(...);
propagate_exit_status(status, "invocation");`. -/
def main_read_status (sock : CallSock) (k : SignalAnswers) : Propagation :=
  match protocol_read sock 4 with
  | .error f => ⟨[], .fatal f⟩
  | .ok (bytes, _) =>
    let status := uint32_of_bytes false bytes
    if status > INT_MAX then ⟨[], .fatal (die "status 0x%lx does not fit in an int")⟩
    else propagate_exit_status status k

/-- Answers of a kernel for signals that behaves as usual: the calls succeed
and the raised signal ends the process. -/
def usual_signals : SignalAnswers := ⟨.ok (), .ok (), false⟩

/-! ## prefork-interp.c: the arguments of the executor and `send_request` -/

/-- The values of the variable `mediation`. -/
inductive Mediation where
  | MEDIATION_UNSPECIFIED
  | MEDIATION_UNLAUNDERED
  deriving DecidableEq, Repr

/-- The function `make_executor_argv`: the macro `EACH_NEW_ARG` goes over
`interp`, then `script` if there is one, then the arguments that
`process_opts` has left in `argv`. (A failing `calloc` is left out.) -/
def make_executor_argv (mediation : Mediation) (interp : CStr) (script : Option CStr)
    (argv : List CStr) : Except Fatal (List CStr) :=
  match mediation with
  | .MEDIATION_UNLAUNDERED =>
    .ok (interp :: ((match script with
      | some s => [s]
      | none => []) ++ argv))
  | .MEDIATION_UNSPECIFIED =>
    .error (die "need -U (specifying unlaundered argument handling)")

/-- What the client process does that other processes can see, in the order
in which it does it: system calls (recorded when they are made, whatever
their result) and the returns of `connect_existing` and `acquire_lock`.
`unlink name` and `preclean_unlink name` are `unlink` calls for the file
`name` of the run directory, the second kind made inside `preclean`. -/
inductive Event where
  | socket_client
  | connect
  | connected
  | no_server
  | preclean_unlink (name : CStr)
  | lock (lockfd : Nat)
  | unlink (name : CStr)
  | socket_listener
  | bind
  | stat_socket
  | listen
  | pipe
  | fork_watcher
  | socketpair
  | fork_setup
  | close (fd : Nat)
  | close_lockfd
  | waitpid
  | read_greeting
  | signal_call (c : SigCall)
  | write_ibyte
  | send_fd (payload_fd : Nat)
  | write_message (m : List Nat)
  | fflush
  | read_status
  | exit (status : Nat)
  deriving DecidableEq, Repr

/-- How a call of `send_fd` stands after the `sendmsg` results it has been
given. -/
inductive SendFdResult where
  | sent
  | fatal (f : Fatal)
  | pending
  deriving DecidableEq, Repr

/-- The loop of `send_fd` on the results of its `sendmsg` calls: EINTR goes
round again, another error dies, and the byte count must be 1. -/
def send_fd : List (Except Errno Nat) → SendFdResult
  | [] => .pending
  | .error .EINTR :: rest => send_fd rest
  | .error _ :: _ => .fatal (diee "send fd")
  | .ok r :: _ => if r = 1 then .sent else .fatal (assert_failed "r == 1")

/-- What the kernel and the C library answer to `send_request`: whether the
`fwrite` of the signalling byte wrote it, the results of the `sendmsg` calls
for each passed descriptor, whether `malloc` gave memory, and whether the
`fwrite` of the message and the `fflush` succeeded. -/
structure SendAnswers where
  ibyte_ok : Bool
  sendmsg : Nat → List (Except Errno Nat)
  xmalloc_ok : Bool
  fwrite_ok : Bool
  fflush_ok : Bool

/-- A run of a function that returns nothing: what it did, and whether the
process has stopped in it. -/
structure VoidRun where
  trace : List Event
  halted : Option Halt
  deriving DecidableEq, Repr

/-- The calls `send_fd(0); send_fd(1); send_fd(2);` of `send_request`, for
the descriptors still to send. -/
def send_fds (k : SendAnswers) : List Nat → List Event → VoidRun
  | [], t => ⟨t, none⟩
  | fd :: fds, t =>
    match send_fd (k.sendmsg fd) with
    | .sent => send_fds k fds (t ++ [.send_fd fd])
    | .fatal f => ⟨t ++ [.send_fd fd], some (.fatal f)⟩
    | .pending => ⟨t ++ [.send_fd fd], some .pending⟩

/-- The function `send_request`, with the vectors `environ` and
`executor_argv` that both passes of `prepare_message` read. -/
def send_request (environ executor_argv : List CStr) (k : SendAnswers) : VoidRun :=
  if !k.ibyte_ok then ⟨[.write_ibyte], some (.fatal (diee "write signalling byte"))⟩
  else
    let fds := send_fds k [0, 1, 2] [.write_ibyte]
    match fds.halted with
    | some h => ⟨fds.trace, some h⟩
    | none =>
      match prepare_message ⟨some 0, none⟩ environ executor_argv with
      | .error f => ⟨fds.trace, some (.fatal f)⟩
      | .ok sized =>
        let len := sized.len.getD 0
        let tlen := (len + 4) % 2 ^ 64
        if !k.xmalloc_ok then ⟨fds.trace, some (.fatal (diee "malloc"))⟩
        else
          match prepare_length ⟨none, some []⟩ len with
          | .error f => ⟨fds.trace, some (.fatal f)⟩
          | .ok st1 =>
            match prepare_message st1 environ executor_argv with
            | .error f => ⟨fds.trace, some (.fatal f)⟩
            | .ok st2 =>
              let m := st2.buf.getD []
              if m.length ≠ tlen then
                ⟨fds.trace, some (.fatal (assert_failed "p == m + tlen"))⟩
              else if !k.fwrite_ok then
                ⟨fds.trace ++ [.write_message m],
                  some (.fatal (diee "write request (buffer)"))⟩
              else if !k.fflush_ok then
                ⟨fds.trace ++ [.write_message m, .fflush],
                  some (.fatal (diee "write request"))⟩
              else ⟨fds.trace ++ [.write_message m, .fflush], none⟩

/-- The length of the message body: the sum, over the strings that are sent
(the entries of `environ` with `'='`, the empty string, the entries of
`executor_argv`), of `strlen + 1`. -/
def message_length (environ executor_argv : List CStr) : Nat :=
  ((environ.filter fun s => decide (ch_equals ∈ s)).map fun s => s.length + 1).sum + 1 +
    (executor_argv.map fun s => s.length + 1).sum

/-- The message body: the strings that are sent, each with its NUL. -/
def message_body (environ executor_argv : List CStr) : List Nat :=
  nul_terminated (environ.filter fun s => decide (ch_equals ∈ s)) ++
    0 :: nul_terminated executor_argv

/-- Answers with which `send_request` meets no failure: every call succeeds
at once. -/
def sample_send_answers : SendAnswers where
  ibyte_ok := true
  sendmsg := fun _ => [.ok 1]
  xmalloc_ok := true
  fwrite_ok := true
  fflush_ok := true

/-! ## prefork-interp.c: `connect_or_spawn` -/

/-- The system calls of `connect_existing` that reach the socket named by
`socket_path`: none outside normal mode (the function returns at once),
`socket` in normal mode, and `connect` when `socket` gave a descriptor. -/
def connect_existing_calls (mode : Mode) (k : ConnectAnswers) : List Event :=
  if mode ≠ .MODE_NORMAL then []
  else
    match k.socket_res with
    | .error _ => [.socket_client]
    | .ok _ => [.socket_client, .connect]

/-- What the kernel, the C library and the other processes answer in one run
of `connect_or_spawn`: to the first `connect_existing`, to `preclean`
(`world`, `opendir`), to `acquire_lock`, to the second `connect_existing`,
to the `unlink` of the socket path and (in kill mode) of the lock path, and
to the calls that make the new server, in the order of the source.
`waitpid_res` is the returned pid and the status; `greeting` is what arrives
on `fake_pair[0]`. A `fork` result 0 means that the process is the child. -/
structure SpawnAnswers where
  first : ConnectAnswers
  world : PrecleanWorld
  opendir : Except Errno RunDir
  lock_attempts : List LockAttempt
  second : ConnectAnswers
  unlink_socket : Except Errno Unit
  unlink_lock : Except Errno Unit
  socket_res : Except Errno Nat
  bind_res : Except Errno Unit
  stat_res : Except Errno Stat
  listen_res : Except Errno Unit
  pipe_stdin : Except Errno (Nat × Nat)
  pipe_stderr : Except Errno (Nat × Nat)
  fork_watcher : Except Errno Nat
  nonblock_ok : Bool
  socketpair_res : Except Errno (Nat × Nat)
  fork_setup : Except Errno Nat
  fdopen_ok : Bool
  setvbuf_ok : Bool
  waitpid_res : Except Errno (Nat × Nat)
  signals : SignalAnswers
  greeting : CallSock

/-- How a run of `connect_or_spawn` ends for this process: it returns with
`call_sock` set, the process ends, it stays inside `flock_file`, or it is a
child of `fork` and goes on as the watcher (`become_watcher`) or as the
setup process (`become_setup`, with its arguments and `initial_stab`). -/
inductive SpawnEnd where
  | returned (call_sock : OpenSock)
  | ended (e : ProcEnd)
  | pending
  | became_watcher
  | became_setup (sfd lockfd fake0 fake1 watcher_stdin watcher_stderr : Nat)
      (initial_stab : Stat)
  deriving DecidableEq, Repr

/-- A run of the client: what it did, in order, and how it ended. -/
structure Run where
  trace : List Event
  ending : SpawnEnd
  deriving DecidableEq, Repr

/-- The block `if (mode == MODE_KILL) { ... }` of `connect_or_spawn`; `t` is
what the process has done before. -/
def connect_or_spawn_kill (ident : CStr) (a : SpawnAnswers) (t : List Event) : Run :=
  let t1 := t ++ [.unlink (ch_s :: ident)]
  match (match a.unlink_socket with
         | .error .ENOENT | .ok _ => none
         | .error _ => some (diee "remove socket %s")) with
  | some f => ⟨t1, .ended (.fatal f)⟩
  | none =>
    let t2 := t1 ++ [.unlink (ch_l :: ident)]
    match a.unlink_lock with
    | .error _ => ⟨t2, .ended (.fatal (diee "rmeove lock %s"))⟩
    | .ok _ => ⟨t2 ++ [.exit 0], .ended (.exited 0)⟩

/-- The part of `connect_or_spawn` after the comment "We must start a fresh
one, and we hold the lock"; `t` is what the process has done before. -/
def connect_or_spawn_fresh (little_endian : Bool) (ident : CStr) (lockfd : Nat)
    (a : SpawnAnswers) (t : List Event) : Run :=
  let t := t ++ [.unlink (ch_s :: ident)]
  match (match a.unlink_socket with
         | .error .ENOENT | .ok _ => none
         | .error _ => some (diee "failed to remove stale socket %s")) with
  | some f => ⟨t, .ended (.fatal f)⟩
  | none =>
    let t := t ++ [.socket_listener]
    match a.socket_res with
    | .error _ => ⟨t, .ended (.fatal (diee "socket() for new listener"))⟩
    | .ok sfd =>
      let t := t ++ [.bind]
      match a.bind_res with
      | .error _ => ⟨t, .ended (.fatal (diee "bind() on new listener"))⟩
      | .ok _ =>
        let t := t ++ [.stat_socket]
        match a.stat_res with
        | .error _ => ⟨t, .ended (.fatal (diee "stat() fresh socket"))⟩
        | .ok initial_stab =>
          let t := t ++ [.listen]
          match a.listen_res with
          | .error _ => ⟨t, .ended (.fatal (diee "listen() for new listener"))⟩
          | .ok _ =>
            -- Fork watcher
            let t := t ++ [.pipe]
            match a.pipe_stdin with
            | .error _ => ⟨t, .ended (.fatal (diee "pipe() for socket inode watcher"))⟩
            | .ok watcher_stdin =>
              let t := t ++ [.pipe]
              match a.pipe_stderr with
              | .error _ => ⟨t, .ended (.fatal (diee "pipe() for socket inode watcher"))⟩
              | .ok watcher_stderr =>
                let t := t ++ [.fork_watcher]
                match a.fork_watcher with
                | .error _ => ⟨t, .ended (.fatal (diee "fork for watcher"))⟩
                | .ok 0 => ⟨t, .became_watcher⟩
                | .ok _ =>
                  let t := t ++ [.close watcher_stdin.1, .close watcher_stderr.2]
                  if !a.nonblock_ok then
                    ⟨t, .ended (.fatal (diee "nonblock fcntl F_GETFL"))⟩
                  else
                    -- Fork setup
                    let t := t ++ [.socketpair]
                    match a.socketpair_res with
                    | .error _ =>
                      ⟨t, .ended (.fatal (diee "socketpair() for fake initial connection"))⟩
                    | .ok fake_pair =>
                      let t := t ++ [.fork_setup]
                      match a.fork_setup with
                      | .error _ => ⟨t, .ended (.fatal (diee "fork for spawn setup"))⟩
                      | .ok 0 =>
                        ⟨t, .became_setup sfd lockfd fake_pair.1 fake_pair.2
                          watcher_stdin.2 watcher_stderr.1 initial_stab⟩
                      | .ok setup_pid =>
                        let t := t ++ [.close fake_pair.2, .close sfd]
                        if !a.fdopen_ok then ⟨t, .ended (.fatal (diee "fdopen socket"))⟩
                        else if !a.setvbuf_ok then
                          ⟨t, .ended (.fatal (die "setvbuf socket"))⟩
                        else
                          let t := t ++ [.waitpid]
                          match a.waitpid_res with
                          | .error _ => ⟨t, .ended (.fatal (diee "waitpid setup [%ld]"))⟩
                          | .ok (got, status) =>
                            if got ≠ setup_pid then
                              ⟨t, .ended (.fatal (diee "waitpid setup [%ld] gave [%ld]!"))⟩
                            else if status ≠ 0 then
                              let p := propagate_exit_status status a.signals
                              ⟨t ++ p.calls.map .signal_call, .ended p.ending⟩
                            else
                              let t := t ++ [.read_greeting]
                              match spawned_read_greeting little_endian a.greeting with
                              | .error f => ⟨t, .ended (.fatal f)⟩
                              | .ok sock1 =>
                                ⟨t ++ [.close_lockfd], .returned ⟨fake_pair.1, sock1⟩⟩

/-- The function `connect_or_spawn` for the identity `ident`, whose socket
and lock are the files `s<ident>` and `l<ident>` of the run directory. -/
def connect_or_spawn (little_endian : Bool) (mode : Mode) (ident : CStr) (a : SpawnAnswers) :
    Run :=
  let t := connect_existing_calls mode a.first
  match connect_existing little_endian mode none a.first with
  | .error f => ⟨t, .ended (.fatal f)⟩
  | .ok r1 =>
    match r1.returned with
    | some call_sock => ⟨t ++ [.connected], .returned call_sock⟩
    | none =>
      let t := t ++ [.no_server]
      -- We're going to make a new one, so clean out old ones
      let sweep := preclean a.world a.opendir
      let t := t ++ sweep.unlinked.map .preclean_unlink
      match sweep.halted with
      | some (.fatal f) => ⟨t, .ended (.fatal f)⟩
      | some .pending => ⟨t, .pending⟩
      | none =>
        match (flock_file a.lock_attempts).result with
        | .fatal f => ⟨t, .ended (.fatal f)⟩
        | .pending => ⟨t, .pending⟩
        | .returned lockfd =>
          let t := t ++ [.lock lockfd]
          if mode = .MODE_KILL then connect_or_spawn_kill ident a t
          else
            let t := t ++ connect_existing_calls mode a.second
            match connect_existing little_endian mode none a.second with
            | .error f => ⟨t, .ended (.fatal f)⟩
            | .ok r2 =>
              match r2.returned with
              | some call_sock => ⟨t ++ [.connected, .close_lockfd], .returned call_sock⟩
              | none => connect_or_spawn_fresh little_endian ident lockfd a (t ++ [.no_server])

/-- The function `main` of prefork-interp from the call of
`connect_or_spawn` on: `connect_or_spawn(); send_request();` and then the
reading and the propagation of the status. -/
def client_main (little_endian : Bool) (mode : Mode) (ident : CStr) (a : SpawnAnswers)
    (environ executor_argv : List CStr) (s : SendAnswers) (signals : SignalAnswers) : Run :=
  let r := connect_or_spawn little_endian mode ident a
  match r.ending with
  | .returned call_sock =>
    -- We're committed now, send the request (or bail out)
    let sent := send_request environ executor_argv s
    match sent.halted with
    | some (.fatal f) => ⟨r.trace ++ sent.trace, .ended (.fatal f)⟩
    | some .pending => ⟨r.trace ++ sent.trace, .pending⟩
    | none =>
      let p := main_read_status call_sock.sock signals
      ⟨r.trace ++ sent.trace ++ [.read_status] ++ p.calls.map .signal_call, .ended p.ending⟩
  | e => ⟨r.trace, e⟩

/-! ## cgi-fcgi-interp.c: `tidy_garbage` -/

/-- What the kernel answers in one call of `tidy_garbage`: to
`acquire_lock`, to the `lstat` and `stat` calls of `check_garbage`, to the
`unlink` of the socket path and to `close(lockfd)`. -/
structure TidyAnswers where
  lock_attempts : List LockAttempt
  sock_lstat : Except Errno Stat
  script_lstat : Except Errno Stat
  script_stat : Except Errno Stat
  unlink_socket : Except Errno Unit
  close_res : Except Errno Unit
  deriving DecidableEq, Repr

/-- The function `tidy_garbage` for the identity `ident`. -/
def tidy_garbage (ident : CStr) (k : TidyAnswers) : VoidRun :=
  match (flock_file k.lock_attempts).result with
  | .fatal f => ⟨[], some (.fatal f)⟩
  | .pending => ⟨[], some .pending⟩
  | .returned lockfd =>
    match check_garbage k.sock_lstat k.script_lstat k.script_stat with
    | .error f => ⟨[.lock lockfd], some (.fatal f)⟩
    | .ok true =>
      match k.unlink_socket with
      | .error .ENOENT | .ok _ =>
        match k.close_res with
        | .error _ =>
          ⟨[.lock lockfd, .unlink (ch_s :: ident), .close_lockfd],
            some (.fatal (diee "close lock (%s)"))⟩
        | .ok _ => ⟨[.lock lockfd, .unlink (ch_s :: ident), .close_lockfd], none⟩
      | .error _ =>
        ⟨[.lock lockfd, .unlink (ch_s :: ident)],
          some (.fatal (diee "remove out-of-date socket (%s)"))⟩
    | .ok false =>
      match k.close_res with
      | .error _ => ⟨[.lock lockfd, .close_lockfd], some (.fatal (diee "close lock (%s)"))⟩
      | .ok _ => ⟨[.lock lockfd, .close_lockfd], none⟩

/-- Answers of a run of `connect_or_spawn` in which every call succeeds:
nobody listens on the socket at first (`connect` is refused), the run
directory is `dir`, the lock is got at once on descriptor 4, and on the
second attempt a server answers with the greeting and a status word 0. The
answers for the making of a new server give the listener 5, the pipes 6, 7
and 8, 9, the socket pair 10, 11 and the children 101 and 102, and the new
server greets. -/
def sample_spawn (dir : RunDir) : SpawnAnswers where
  first := ⟨.ok 3, .error .ECONNREFUSED, true, true, ⟨[], .eof⟩⟩
  world := quiet_world
  opendir := .ok dir
  lock_attempts := [⟨.ok 4, .ok (), .ok ⟨1, 7, 0, 0, 0, ⟨0, 0⟩⟩, .ok ⟨1, 7, 0, 0, 0, ⟨0, 0⟩⟩⟩]
  second := ⟨.ok 3, .ok (), true, true, ⟨header_magic ++ [0, 0, 0, 0, 0, 0, 0, 0], .eof⟩⟩
  unlink_socket := .ok ()
  unlink_lock := .ok ()
  socket_res := .ok 5
  bind_res := .ok ()
  stat_res := .ok ⟨1, 8, 0o140600, 1000, 0, ⟨100, 0⟩⟩
  listen_res := .ok ()
  pipe_stdin := .ok (6, 7)
  pipe_stderr := .ok (8, 9)
  fork_watcher := .ok 101
  nonblock_ok := true
  socketpair_res := .ok (10, 11)
  fork_setup := .ok 102
  fdopen_ok := true
  setvbuf_ok := true
  waitpid_res := .ok (102, 0)
  signals := usual_signals
  greeting := ⟨header_magic ++ [0, 0, 0, 0, 0, 0, 0, 0], .eof⟩

/-- Answers of a run that finds a stale socket: as `sample_spawn dir`, but
nobody listens at the second attempt either (`connect` is refused again). -/
def sample_spawn_stale (dir : RunDir) : SpawnAnswers :=
  { sample_spawn dir with second := ⟨.ok 3, .error .ECONNREFUSED, true, true, ⟨[], .eof⟩⟩ }

/-- Answers of a run for the identity `1` in the run directory
`sample_dir 101`, with no other process about: the socket `s<1>` is stale at
first (`connect` is refused), `preclean` evicts it with its lock file, so
that the second `connect` and the `unlink` of the socket path find no file
(ENOENT). -/
def sample_spawn_evicted : SpawnAnswers :=
  { sample_spawn (sample_dir 101) with
    second := ⟨.ok 3, .error .ENOENT, true, true, ⟨[], .eof⟩⟩
    unlink_socket := .error .ENOENT }

/-- Answers of a call of `tidy_garbage` that finds the socket out of date:
the lock is got at once on descriptor 4, the script (a regular file) was
modified at time 200, after the socket (time 100), and `unlink` and `close`
succeed. -/
def sample_tidy : TidyAnswers where
  lock_attempts := [⟨.ok 4, .ok (), .ok ⟨1, 7, 0, 0, 0, ⟨0, 0⟩⟩, .ok ⟨1, 7, 0, 0, 0, ⟨0, 0⟩⟩⟩]
  sock_lstat := .ok ⟨1, 8, 0o140600, 1000, 0, ⟨100, 0⟩⟩
  script_lstat := .ok ⟨1, 9, 0o100644, 1000, 0, ⟨200, 0⟩⟩
  script_stat := .ok ⟨1, 9, 0o100644, 1000, 0, ⟨200, 0⟩⟩
  unlink_socket := .ok ()
  close_res := .ok ()

/-! ## prefork.c: the base directory (`find_run_base_var_run`, `find_run_base_home`) -/

/-- The bytes of a string literal of the source (ASCII). -/
def ascii (s : String) : CStr := s.toList.map Char.toNat

/-- The digits of `n` in base ten in front of `acc`; `fuel` bounds the
number of digits. -/
def decimal_aux : Nat → Nat → List Nat → List Nat
  | 0, _, acc => acc
  | fuel + 1, n, acc =>
    if n < 10 then (48 + n) :: acc
    else decimal_aux fuel (n / 10) ((48 + n % 10) :: acc)

/-- The text that `printf` writes for an unsigned conversion (`%lu`, and
`%d` of a value that is not negative): the decimal digits, most significant
first, without leading zeros. -/
def decimal (n : Nat) : List Nat := decimal_aux (n + 1) n []

/-- The macro `S_ISDIR` of `<sys/stat.h>`: `(mode & S_IFMT) == S_IFDIR`. -/
def S_ISDIR (mode : Nat) : Bool :=
  mode &&& 0o170000 == 0o040000

/-- The function `find_run_base_var_run`, on the result of
`lstat("/var/run/user/<us>")`: the value it leaves in `run_base` when it
returns 1, `none` when it returns 0. The warnings are left out. -/
def find_run_base_var_run (our_name : CStr) (us : Nat) (lstat_res : Except Errno Stat) :
    Except Fatal (Option CStr) :=
  let try_ := ascii "/var/run/user" ++ [ch_slash] ++ decimal us
  match lstat_res with
  | .error .ENOENT | .error .ENOTDIR | .error .EACCES | .error .EPERM => .ok none /- oh well -/
  | .error _ => .error (diee "stat /var/run/user/UID")
  | .ok stab =>
    if !S_ISDIR stab.st_mode then .ok none
    else if stab.st_uid ≠ us then .ok none
    else if stab.st_mode &&& 0o077 ≠ 0 then .ok none
    else .ok (some (try_ ++ [ch_slash] ++ our_name))

/-- The byte `'.'`. -/
def ch_dot : Nat := 46

/-- The values that the search for the base directory leaves in `run_base`
and `run_base_mkdir_p` (`none` for the null pointer). -/
structure RunBase where
  run_base : CStr
  run_base_mkdir_p : Option CStr
  deriving DecidableEq, Repr

/-- The function `find_run_base_home`: `pw_dir` is the home directory in the
result of `getpwuid(us)` (`none` for a null result), `uname_res` the field
`nodename` that `uname` fills in. The node name is cut at its first `'.'`
and after 32 characters (`sizeof(ut.nodename)` is 65). -/
def find_run_base_home (our_name : CStr) (pw_dir : Option CStr) (uname_res : Except Errno CStr) :
    Except Fatal RunBase :=
  match pw_dir with
  | none => .error (diee "getpwent(uid)")
  | some dir =>
    match uname_res with
    | .error _ => .error (diee "uname(2)")
    | .ok nodename =>
      let node := (nodename.takeWhile (· ≠ ch_dot)).take 32
      let run_base_mkdir_p := dir ++ [ch_slash, ch_dot] ++ our_name
      .ok ⟨run_base_mkdir_p ++ [ch_slash] ++ node, some run_base_mkdir_p⟩

/-- The beginning of `find_socket_path`: `us = getuid()` and
`find_run_base_var_run() || find_run_base_home() || (abort(),0)`. -/
def find_run_base (our_name : CStr) (getuid : Nat) (lstat_res : Except Errno Stat)
    (pw_dir : Option CStr) (uname_res : Except Errno CStr) : Except Fatal RunBase :=
  if getuid = 2 ^ 32 - 1 then .error (diee "getuid")
  else
    match find_run_base_var_run our_name getuid lstat_res with
    | .error f => .error f
    | .ok (some run_base) => .ok ⟨run_base, none⟩
    | .ok none => find_run_base_home our_name pw_dir uname_res

/-! ## prefork-interp.c: `become_setup` and the variable PREFORK_INTERP -/

/-- The byte `'-'`. -/
def ch_minus : Nat := 45

/-- The byte `' '`. -/
def ch_space : Nat := 32

/-- The byte `','`. -/
def ch_comma : Nat := 44

/-- The text that `printf` writes for the conversions `%d`, `%ld` and `%jd`
without flags: a minus sign for a negative value, and the decimal digits. -/
def printf_d (x : Int) : List Nat :=
  if x < 0 then ch_minus :: decimal x.natAbs else decimal x.natAbs

/-- Padding with `'0'` on the left up to the field width `w` (flag `0`). -/
def zero_pad (w : Nat) (digits : List Nat) : List Nat :=
  List.replicate (w - digits.length) 48 ++ digits

/-- The text that `printf` writes for the conversion `%09ld`: the digits
padded with zeros to nine characters, the sign counted in the width. -/
def printf_09ld (x : Int) : List Nat :=
  if x < 0 then ch_minus :: zero_pad 8 (decimal x.natAbs) else zero_pad 9 (decimal x.natAbs)

/-- The string built in `become_setup` by
`m_asprintf("PREFORK_INTERP=v1,%jd.%09ld %d,%d,%d,%d", ...)` with the
arguments `initial_stab.st_mtim.tv_sec`, `initial_stab.st_mtim.tv_nsec`,
`sfd`, `call_fd`, `watcher_stdin`, `watcher_stderr`. -/
def become_setup_env (sfd call_fd watcher_stdin watcher_stderr : Nat) (initial_stab : Stat) :
    CStr :=
  ascii "PREFORK_INTERP=v1," ++ printf_d initial_stab.st_mtim.tv_sec ++ [ch_dot] ++
    printf_09ld initial_stab.st_mtim.tv_nsec ++ [ch_space] ++
    printf_d sfd ++ [ch_comma] ++ printf_d call_fd ++ [ch_comma] ++
    printf_d watcher_stdin ++ [ch_comma] ++ printf_d watcher_stderr

/-- What the kernel answers in `become_setup`: the results of
`open("/dev/null")`, of `dup2(null_0, 0)` and of `dup2(2, 1)`, whether the
`fcntl` calls of `nonblock(sfd)` succeed, and the errno with which `execvp`
returns (`none` when the program is executed). -/
structure SetupAnswers where
  open_null : Except Errno Nat
  dup2_null : Int
  dup2_stderr : Int
  nonblock_ok : Bool
  execvp : Option Errno
  deriving DecidableEq, Repr

/-- How the setup process ends: it executes `executor_argv`, or it dies. -/
inductive SetupEnd where
  | executed (argv : List CStr)
  | fatal (f : Fatal)
  deriving DecidableEq, Repr

/-- A run of `become_setup`: the descriptors it has closed, the string it
has given to `putenv` (if it got that far), and its end. -/
structure SetupRun where
  closed : List Nat
  putenv : Option CStr
  ending : SetupEnd
  deriving DecidableEq, Repr

/-- The function `become_setup`; `fake0` and `fake1` are `fake_pair[0]` and
`fake_pair[1]`. -/
def become_setup (executor_argv : List CStr)
    (sfd lockfd fake0 fake1 watcher_stdin watcher_stderr : Nat) (initial_stab : Stat)
    (k : SetupAnswers) : SetupRun :=
  let call_fd := fake1
  match k.open_null with
  | .error _ => ⟨[lockfd, fake0], none, .fatal (diee "open null")⟩
  | .ok null_0 =>
    if k.dup2_null ≠ 0 then
      ⟨[lockfd, fake0], none, .fatal (diee "dup2 /dev/null onto stdin")⟩
    else if k.dup2_stderr ≠ 1 then
      ⟨[lockfd, fake0, null_0], none, .fatal (die "dup2 stderr onto stdout")⟩
    else if !k.nonblock_ok then
      ⟨[lockfd, fake0, null_0], none, .fatal (diee "nonblock fcntl F_GETFL")⟩
    else
      let env := become_setup_env sfd call_fd watcher_stdin watcher_stderr initial_stab
      match k.execvp with
      | none => ⟨[lockfd, fake0, null_0], some env, .executed executor_argv⟩
      | some _ => ⟨[lockfd, fake0, null_0], some env, .fatal (diee "execute %s")⟩

/-- The child of the second `fork` of `connect_or_spawn`:
`if (!setup_pid) become_setup(sfd, lockfd, fake_pair, watcher_stdin[1],
watcher_stderr[0]);`. The result is `none` when the run of the fresh stage
is not that of this child. -/
def setup_child (little_endian : Bool) (ident : CStr) (lockfd : Nat) (a : SpawnAnswers)
    (executor_argv : List CStr) (k : SetupAnswers) : Option SetupRun :=
  match (connect_or_spawn_fresh little_endian ident lockfd a []).ending with
  | .became_setup sfd lockfd fake0 fake1 watcher_stdin watcher_stderr initial_stab =>
    some (become_setup executor_argv sfd lockfd fake0 fake1 watcher_stdin watcher_stderr
      initial_stab k)
  | _ => none

/-- Reference reading of PREFORK_INTERP (protocol comment, part 2): the
pieces of a byte string between the occurrences of the byte `sep`. -/
def split_on (sep : Nat) : List Nat → List (List Nat)
  | [] => [[]]
  | b :: rest =>
    if b = sep then [] :: split_on sep rest
    else
      match split_on sep rest with
      | [] => [[b]]
      | w :: ws => (b :: w) :: ws

/-- Reference reading of a decimal number. -/
def of_decimal (digits : List Nat) : Nat :=
  digits.foldl (fun acc d => acc * 10 + (d - 48)) 0

/-- Answers with which `become_setup` meets no failure: `/dev/null` is
opened on descriptor 0 again (descriptor 12 here, then duplicated), and the
program is executed. -/
def sample_setup : SetupAnswers where
  open_null := .ok 12
  dup2_null := 0
  dup2_stderr := 1
  nonblock_ok := true
  execvp := none

/-- Answers of `connect_or_spawn` as seen by the setup child: as
`sample_spawn_stale dir`, with the second `fork` returning 0. -/
def sample_spawn_child (dir : RunDir) : SpawnAnswers :=
  { sample_spawn_stale dir with fork_setup := .ok 0 }

/-! ## cgi-fcgi-interp.c: the staleness timer of stage 2 (`alarm_handler`) -/

/-- What the file system answers when `check_garbage_vs` looks at the
script: the results of `lstat(script)` and of `stat(script)`. -/
structure ScriptLook where
  script_lstat : Except Errno Stat
  script_stat : Except Errno Stat
  deriving DecidableEq, Repr

/-- What one call of `alarm_handler` does: the process exits, it dies, or
the handler stores the new value of `out_of_date`, calls `queue_alarm()`,
that is `alarm(check_interval)` (the argument is an `unsigned`), and
returns. -/
inductive AlarmOutcome where
  | exited (status : Nat)
  | fatal (f : Fatal)
  | queue_alarm (seconds : Nat) (out_of_date : Bool)
  deriving DecidableEq, Repr

/-- The function `alarm_handler`: `out_of_date` is the variable
`out_of_date` at entry, `look` what the file system answers if the handler
looks at the script. -/
def alarm_handler (check_interval : Int) (baseline_time : Stat) (out_of_date : Bool)
    (look : ScriptLook) : AlarmOutcome :=
  if out_of_date then
    /- second timeout -/
    .exited 0
  else
    match check_garbage_vs look.script_lstat look.script_stat baseline_time with
    | .error f => .fatal f
    | .ok stale => .queue_alarm (check_interval % 2 ^ 32).toNat stale

/-- The calls of `alarm_handler` for a sequence of expiries of the alarm,
each with what the file system answers at that time, until the process
ends. -/
def alarm_expiries (check_interval : Int) (baseline_time : Stat) :
    Bool → List ScriptLook → List AlarmOutcome
  | _, [] => []
  | out_of_date, look :: rest =>
    match alarm_handler check_interval baseline_time out_of_date look with
    | .queue_alarm seconds flag =>
      .queue_alarm seconds flag :: alarm_expiries check_interval baseline_time flag rest
    | o => [o]

/-- The script as `lstat` shows it when it was last modified at the time
`sec`: a regular file. -/
def sample_look (sec : Int) : ScriptLook :=
  ⟨.ok ⟨1, 9, 0o100644, 1000, 0, ⟨sec, 0⟩⟩, .ok ⟨1, 9, 0o100644, 1000, 0, ⟨sec, 0⟩⟩⟩

/-- A baseline time of stage 2: the server started at the time 100. -/
def sample_baseline : Stat := ⟨0, 0, 0, 0, 0, ⟨100, 0⟩⟩

/-! ## prefork-interp.c: the watcher (`watcher_cb_sockpath`) -/

/-- How a call of the callback stands after the `stat` results it has been
given: the process has exited, it has died, the callback is still in its
loop, or the callback has returned to the event loop. -/
inductive WatcherCb where
  | exited (status : Nat)
  | fatal (f : Fatal)
  | pending
  | returned
  deriving DecidableEq, Repr

/-- The loop `for (;;) { ... }` of `watcher_cb_sockpath`, on the results of
its calls `stat(socket_path, &now_stab)`. -/
def watcher_cb_sockpath_loop (initial_stab : Stat) : List (Except Errno Stat) → WatcherCb
  | [] => .pending
  | .error .ENOENT :: _ => .exited 0
  | .error .EINTR :: rest => watcher_cb_sockpath_loop initial_stab rest
  | .error _ :: _ => .fatal (diee "stat socket: %s")
  | .ok now_stab :: rest =>
    if !stabs_same_inode now_stab initial_stab then .exited 0
    else watcher_cb_sockpath_loop initial_stab rest

/-- The function `watcher_cb_sockpath`, called by the event loop with
`status`. -/
def watcher_cb_sockpath (status : Int) (initial_stab : Stat)
    (stats : List (Except Errno Stat)) : WatcherCb :=
  if -status ≠ 0 then .fatal (diee "watcher: poll stdin")
  else watcher_cb_sockpath_loop initial_stab stats

/-! ## cgi-fcgi-interp.c: the stderr of the script (`errpipe_readable`) -/

/-- The static variables of `errpipe_readable`: the array `buf` (its length
is `sizeof(buf)`) and `pending`. -/
structure ErrpipeState where
  buf : List Nat
  pending : Int
  deriving DecidableEq, Repr

/-- The result of `memchr`: a pointer into the array (as an index), a null
pointer, or a read outside the array (undefined behaviour). -/
inductive Memchr where
  | found (index : Nat)
  | null
  | outside
  deriving DecidableEq, Repr

/-- The byte `'\n'`. -/
def ch_newline : Nat := 10

/-- The call `memchr(buf+scanned, '\n', pending-scanned)`: the count is the
`int` difference converted to `size_t`; the bytes are read in order up to
the first newline. -/
def memchr_newline (buf : List Nat) (scanned pending : Int) : Memchr :=
  if scanned < 0 ∨ scanned > buf.length then .outside
  else
    let start := scanned.toNat
    let n := ((pending - scanned) % 2 ^ 64).toNat
    let stop := min (start + n) buf.length
    match ((buf.take stop).drop start).findIdx? (· == ch_newline) with
    | some i => .found (start + i)
    | none => if start + n > buf.length then .outside else .null

/-- The text that `syslog` gets for `"%.*s"` with the precision `precision`
and the string `buf+start`: at most `precision` bytes, up to a NUL; a
negative precision counts as none. The result is `none` when bytes outside
the array are read. -/
def printf_precision_s (buf : List Nat) (precision start : Int) : Option (List Nat) :=
  if start < 0 ∨ start > buf.length then none
  else
    let s := buf.drop start.toNat
    if precision < 0 then
      if 0 ∈ s then some (s.takeWhile (· ≠ 0)) else none
    else
      let t := (s.take precision.toNat).takeWhile (· ≠ 0)
      if t.length < precision.toNat ∧ t.length = s.length then none else some t

/-- How the work on one chunk ends: the inner loop is left and the rest is
moved to the front, or bytes outside the array are read or written, or the
loop has not ended within the iterations looked at. -/
inductive ChunkEnd where
  | moved
  | outside
  | running
  deriving DecidableEq, Repr

/-- The values of `eaten`, `scanned` and `pending` at the top of an
iteration of the inner loop. -/
structure LineLoop where
  eaten : Int
  scanned : Int
  pending : Int
  deriving DecidableEq, Repr

/-- A run of `errpipe_readable` on one chunk: the texts given to `syslog`
(without the `stderr: ` in front), the variables at the top of each iteration
of the inner loop, the static variables afterwards, and how it ended. -/
structure ChunkRun where
  logged : List (List Nat)
  iterations : List LineLoop
  after : ErrpipeState
  ending : ChunkEnd
  deriving DecidableEq, Repr

/-- The inner loop `for (;;) { ... }` of `errpipe_readable` and the two
statements after it, for at most `fuel` iterations. -/
def errpipe_lines (buf : List Nat) (pending : Int) :
    Nat → Int → Int → List (List Nat) → List LineLoop → ChunkRun
  | 0, eaten, scanned, logged, its =>
    ⟨logged, its ++ [⟨eaten, scanned, pending⟩], ⟨buf, pending⟩, .running⟩
  | fuel + 1, eaten, scanned, logged, its =>
    let its := its ++ [⟨eaten, scanned, pending⟩]
    let step : Option (Option (Int × Int)) :=
      match memchr_newline buf scanned pending with
      | .outside => none
      | .found newline => some (some ((newline : Int), (newline : Int) + 1))
      | .null =>
        if eaten = 0 ∧ pending = buf.length then /- overflow -/ some (some (pending, pending))
        else some none
    match step with
    | none => ⟨logged, its, ⟨buf, pending⟩, .outside⟩
    | some none =>
      let pending1 := pending - eaten
      if eaten < 0 ∨ pending1 < 0 ∨ eaten + pending1 > buf.length then
        ⟨logged, its, ⟨buf, pending1⟩, .outside⟩
      else
        ⟨logged, its,
          ⟨(buf.drop eaten.toNat).take pending1.toNat ++ buf.drop pending1.toNat, pending1⟩,
          .moved⟩
    | some (some (printupto, eat)) =>
      match printf_precision_s buf (printupto - eaten) eaten with
      | none => ⟨logged, its, ⟨buf, pending⟩, .outside⟩
      | some line =>
        errpipe_lines buf pending fuel (eaten + eat) (eaten + eat) (logged ++ [line]) its

/-- The body of the outer loop of `errpipe_readable` after a `read` that
returned the bytes `chunk` (`got` is their number, at least 1 and at most
`avail`): they are stored at `buf+pending`, and the lines are logged. -/
def errpipe_chunk (st : ErrpipeState) (chunk : List Nat) : ChunkRun :=
  let start := st.pending.toNat
  let buf := st.buf.take start ++ chunk ++ st.buf.drop (start + chunk.length)
  let scanned := st.pending
  let pending := st.pending + chunk.length
  errpipe_lines buf pending (buf.length + 2) 0 scanned [] []

/-- The static variables when the program starts: 1024 zero bytes and
`pending = 0`. -/
def errpipe_initial : ErrpipeState := ⟨List.replicate 1024 0, 0⟩

/-! ## myopt.c: `myopt` -/

/-- The function `badusage`: the message and the usage text are printed and
the process ends with `exit(-1)`, status 255. -/
def badusage (msg : String) : Fatal := ⟨255, msg⟩

/-- An entry of the table `cmdinfos` (`struct cmdinfo`): the long name
(`none` for a null pointer), the short name (0 for none), `takesvalue`, and
what the entry does with its value: the call of `call`, or the assignment
through `sassignto` or `iassignto`, as a function on the state `σ` of the
program's variables (a call may end the process). -/
structure cmdinfo (σ : Type) where
  olong : Option CStr
  oshort : Nat
  takesvalue : Nat
  effect : Option CStr → σ → Except Fatal σ

/-- The entries that the loops of `myopt` look at: those before the first
entry with neither a long nor a short name (the terminator `{ 0 }`). -/
def cmdinfo_entries {σ : Type} (cmdinfos : List (cmdinfo σ)) : List (cmdinfo σ) :=
  cmdinfos.takeWhile fun cip => cip.olong.isSome || cip.oshort != 0

/-- The search for a long option in `myopt`: the first entry whose long name
is `p`, or is followed in `p` by `'='` (by `'-'` when `takesvalue` is 2) and
a value. -/
def find_long {σ : Type} : List (cmdinfo σ) → CStr → Option (cmdinfo σ × Option CStr)
  | [], _ => none
  | cip :: cmdinfos, p =>
    match cip.olong with
    | none => find_long cmdinfos p
    | some olong =>
      if p = olong then some (cip, none)
      else
        let l := olong.length
        if p.take l = olong ∧ p.get? l = some (if cip.takesvalue = 2 then ch_minus else ch_equals)
        then some (cip, some (p.drop (l + 1)))
        else find_long cmdinfos p

/-- The search for a short option in `myopt`: the first entry whose short
name is the character `c` (which is not NUL). -/
def find_short {σ : Type} (cmdinfos : List (cmdinfo σ)) (c : Nat) : Option (cmdinfo σ) :=
  cmdinfos.find? fun cip => cip.oshort == c

/-- The loop `while (*p) { ... }` of `myopt` over the characters of an
argument `-abc`. The second part of the result is set when the last option
of the argument takes its value from the next argument: the entry, and the
message of `badusage` in case there is none. -/
def myopt_short {σ : Type} (cmdinfos : List (cmdinfo σ)) :
    σ → CStr → Except Fatal (σ × Option (cmdinfo σ × String))
  | st, [] => .ok (st, none)
  | st, c :: p =>
    match find_short (cmdinfo_entries cmdinfos) c with
    | none => .error (badusage "unknown option -%c")
    | some cip =>
      if cip.takesvalue ≠ 0 then
        match p with
        | [] => .ok (st, some (cip, "-%c option takes a value"))
        | c1 :: p1 =>
          let value := if c1 = ch_equals then p1 else c1 :: p1
          match cip.effect (some value) st with
          | .error f => .error f
          | .ok st1 => .ok (st1, none)
      else if p.head? = some ch_equals then
        .error (badusage "-%c option does not take a value")
      else
        match cip.effect none st with
        | .error f => .error f
        | .ok st1 => myopt_short cmdinfos st1 p

/-- The loop `while ((p= **argvp) && *p == '-') { ... }` of `myopt`, on the
arguments from `*argvp` on; `pending` is set when the option before takes
the next argument as its value. The result is the state and the arguments
from `*argvp` on when `myopt` returns. -/
def myopt_loop {σ : Type} (cmdinfos : List (cmdinfo σ)) :
    σ → Option (cmdinfo σ × String) → List CStr → Except Fatal (σ × List CStr)
  | _, some (_, msg), [] => .error (badusage msg)
  | st, some (cip, _), value :: argv =>
    match cip.effect (some value) st with
    | .error f => .error f
    | .ok st1 => myopt_loop cmdinfos st1 none argv
  | st, none, [] => .ok (st, [])
  | st, none, p :: argv =>
    if p.head? ≠ some ch_minus then .ok (st, p :: argv)
    else if p = [ch_minus, ch_minus] then .ok (st, argv)
    else if p.tail.head? = some ch_minus then
      match find_long (cmdinfo_entries cmdinfos) (p.drop 2) with
      | none => .error (badusage "unknown option --%s")
      | some (cip, value) =>
        if cip.takesvalue ≠ 0 then
          match value with
          | none => myopt_loop cmdinfos st (some (cip, "--%s option takes a value")) argv
          | some v =>
            match cip.effect (some v) st with
            | .error f => .error f
            | .ok st1 => myopt_loop cmdinfos st1 none argv
        else
          match value with
          | some _ => .error (badusage "--%s option does not take a value")
          | none =>
            match cip.effect none st with
            | .error f => .error f
            | .ok st1 => myopt_loop cmdinfos st1 none argv
    else
      match myopt_short cmdinfos st p.tail with
      | .error f => .error f
      | .ok (st1, pending) => myopt_loop cmdinfos st1 pending argv

/-- A read of the vector `argv` past its terminating null pointer (undefined
behaviour in C; written as death by SIGSEGV, status 128+11). -/
def argv_overrun : Fatal := ⟨139, "read past the end of argv"⟩

/-- The function `myopt`: `++(*argvp)` and the loop. -/
def myopt {σ : Type} (cmdinfos : List (cmdinfo σ)) (st : σ) (argv : List CStr) :
    Except Fatal (σ × List CStr) :=
  match argv with
  | [] => .error argv_overrun
  | _ :: args => myopt_loop cmdinfos st none args

/-! ## prefork.c: `process_opts` -/

/-- The constant `MAX_OPTS` of prefork.h. -/
def MAX_OPTS : Nat := 5

/-- The function `shbang_opts`: `myopt`, and `interp` is the next argument.
The result is the state, `interp` and the arguments after it. -/
def shbang_opts {σ : Type} (cmdinfos : List (cmdinfo σ)) (st : σ) (argv : List CStr) :
    Except Fatal (σ × CStr × List CStr) :=
  match myopt cmdinfos st argv with
  | .error f => .error f
  | .ok (_, []) => .error (badusage "need interpreter argument")
  | .ok (st1, interp :: rest) => .ok (st1, interp, rest)

/-- The statement `split_args[i] = v`: `none` for a store outside the
array. -/
def store_arg (split_args : List (Option CStr)) (i : Nat) (v : Option CStr) :
    Option (List (Option CStr)) :=
  if i < split_args.length then some (split_args.set i v) else none

/-- The place of the delimiter in `smashedopt`:
`delim = strchr(smashedopt,' '); if (!delim) delim = strchr(smashedopt,',');`. -/
def find_delim (smashedopt : CStr) : Option Nat :=
  match smashedopt.findIdx? (· == ch_space) with
  | some i => some i
  | none => smashedopt.findIdx? (· == ch_comma)

/-- The loop `for (;;) { ... }` of `process_opts` over the combined
argument, for at most `fuel` iterations (`none` when they do not suffice).
The result is the array `split_args` and `split_argc`. The string stored in
the array is the one that the pointer names once `*delim = 0` has cut it. -/
def split_loop : Nat → List (Option CStr) → Nat → CStr →
    Option (Except Fatal (List (Option CStr) × Nat))
  | 0, _, _, _ => none
  | fuel + 1, split_args, split_argc, smashedopt =>
    if split_argc ≥ MAX_OPTS then some (.error (die "too many options in combined arg"))
    else if smashedopt.head? ≠ some ch_minus then /- never true on first iteration -/
      match store_arg split_args split_argc (some smashedopt) with
      | none => some (.error buffer_overrun)
      | some split_args1 => some (.ok (split_args1, split_argc + 1))
    else
      match find_delim smashedopt with
      | none =>
        match store_arg split_args split_argc (some smashedopt) with
        | none => some (.error buffer_overrun)
        | some _ => some (.error (badusage "combined arg lacks <interpreter>"))
      | some delim =>
        match store_arg split_args split_argc (some (smashedopt.take delim)) with
        | none => some (.error buffer_overrun)
        | some split_args1 =>
          split_loop fuel split_args1 (split_argc + 1) (smashedopt.drop (delim + 1))

/-- The values that `process_opts` leaves: the state of the option
variables, `interp`, `script` (`none` for null) and the arguments from
`*argv_io` on. -/
structure Parsed (σ : Type) where
  st : σ
  interp : CStr
  script : Option CStr
  argv : List CStr
  deriving DecidableEq

/-- The end of `process_opts`: `if (**argv_io) script = *(*argv_io)++;`. -/
def take_script {σ : Type} (st : σ) (interp : CStr) (argv : List CStr) : Parsed σ :=
  match argv with
  | [] => ⟨st, interp, none, []⟩
  | script :: rest => ⟨st, interp, some script, rest⟩

/-- The function `process_opts` on the vector `argv`; `st` is the state
after `sha256_init` and `ident_addinit`. The result is `none` when the
iterations given to the loop over the combined argument do not suffice
(they always do: `process_opts_total`). -/
def process_opts {σ : Type} (cmdinfos : List (cmdinfo σ)) (st : σ) (argv : List CStr) :
    Option (Except Fatal (Parsed σ)) :=
  match argv with
  | argv0 :: smashedopt :: rest =>
    if smashedopt.head? = some ch_minus ∧ (ch_space ∈ smashedopt ∨ ch_comma ∈ smashedopt) then
      /- single argument containg all the options and <interp> -/
      match store_arg (List.replicate (MAX_OPTS + 1) none) 0 rest.head? with
      | none => some (.error buffer_overrun)
      | some split_args0 =>
        match split_loop (MAX_OPTS + 1) split_args0 1 smashedopt with
        | none => none
        | some (.error f) => some (.error f)
        | some (.ok (split_args, split_argc)) =>
          if ¬ split_argc ≤ MAX_OPTS then
            some (.error (assert_failed "split_argc <= MAX_OPTS"))
          else
            match store_arg split_args split_argc none with
            | none => some (.error buffer_overrun)
            | some split_args1 =>
              let split_argv :=
                [] :: ((split_args1.drop 1).takeWhile Option.isSome).filterMap id
              match shbang_opts cmdinfos st split_argv with
              | .error f => some (.error f)
              | .ok (st1, interp, _) =>
                match rest with
                | [] =>
                  some (.error (badusage
                    "no script argument (expected after combined #! options)"))
                | script :: rest1 => some (.ok ⟨st1, interp, some script, rest1⟩)
    else
      match shbang_opts cmdinfos st (argv0 :: smashedopt :: rest) with
      | .error f => some (.error f)
      | .ok (st1, interp, rest1) => some (.ok (take_script st1 interp rest1))
  | argv =>
    match shbang_opts cmdinfos st argv with
    | .error f => some (.error f)
    | .ok (st1, interp, rest1) => some (.ok (take_script st1 interp rest1))

/-- The option variables of prefork-interp. -/
structure PreforkOpts where
  ident : Option CStr
  identsc : IdentCtx
  mediation : Mediation
  mode : Mode
  deriving DecidableEq, Repr

/-- The table `cmdinfos` of prefork-interp.c (`PREFORK_CMDINFOS` and the
three entries of the program), without the terminator; `getenv` is the
environment that `off_ident_addenv` reads. `of_help` prints the usage message
and ends the process with `exit(0)`. -/
def prefork_interp_cmdinfos (getenv : CStr → Option CStr) : List (cmdinfo PreforkOpts) :=
  [ ⟨some (ascii "help"), 0, 0, fun _ _ => .error ⟨0, "usage"⟩⟩,
    ⟨none, 103, 1, fun value st => .ok { st with ident := value }⟩,
    ⟨none, ch_G, 1, fun value st =>
      .ok { st with identsc := off_ident_addstring st.identsc (value.getD []) }⟩,
    ⟨none, ch_E, 1, fun value st =>
      .ok { st with identsc := off_ident_addenv getenv st.identsc (value.getD []) }⟩,
    ⟨none, 85, 0, fun _ st => .ok { st with mediation := .MEDIATION_UNLAUNDERED }⟩,
    ⟨some (ascii "kill"), 0, 0, fun _ st => .ok { st with mode := .MODE_KILL }⟩,
    ⟨none, 102, 0, fun _ st => .ok { st with mode := .MODE_FRESH }⟩ ]

/-- The option variables of prefork-interp when `process_opts` starts, after
`ident_addinit` has put `init` into the hash. -/
def prefork_opts_initial (init : List Nat) : PreforkOpts :=
  ⟨none, init, .MEDIATION_UNSPECIFIED, .MODE_NORMAL⟩

/-- The strings of a list, each followed by `sep`, and then `last`: a
combined argument made of tokens. -/
def join_tokens (sep : Nat) : List CStr → CStr → CStr
  | [], last => last
  | tok :: toks, last => tok ++ sep :: join_tokens sep toks last

/-- An option token of a combined argument: it begins with `'-'` and holds
neither a space nor a comma. -/
def option_token (t : CStr) : Prop :=
  t.head? = some ch_minus ∧ ch_space ∉ t ∧ ch_comma ∉ t

instance (t : CStr) : Decidable (option_token t) := by
  unfold option_token; exact inferInstance

/-! # Theorems -/

/-! ## The request message (prefork-interp.c) -/

theorem prepare_data_fill (b d : List Nat) :
    prepare_data ⟨none, some b⟩ d = .ok ⟨none, some (b ++ d)⟩ := rfl

theorem prepare_string_fill (b : List Nat) (s : CStr) :
    prepare_string ⟨none, some b⟩ s = .ok ⟨none, some (b ++ (s ++ [0]))⟩ := rfl

theorem prepare_environ_fill (env : List CStr) (b : List Nat) :
    prepare_environ ⟨none, some b⟩ env
      = .ok ⟨none, some (b ++ nul_terminated (env.filter (fun s => decide (ch_equals ∈ s))))⟩ := by
  induction env generalizing b with
  | nil => simp [prepare_environ, nul_terminated]
  | cons s p ih =>
    by_cases h : ch_equals ∈ s
    · simp [prepare_environ, h, prepare_string_fill, ih, nul_terminated]
    · simp [prepare_environ, h, ih]

theorem prepare_argv_fill (args : List CStr) (b : List Nat) :
    prepare_argv ⟨none, some b⟩ args = .ok ⟨none, some (b ++ nul_terminated args)⟩ := by
  induction args generalizing b with
  | nil => simp [prepare_argv, nul_terminated]
  | cons s p ih => simp [prepare_argv, prepare_string_fill, ih, nul_terminated]

theorem prepare_message_fill (env args : List CStr) (b : List Nat) :
    prepare_message ⟨none, some b⟩ env args
      = .ok ⟨none, some (b ++ (nul_terminated (env.filter (fun s => decide (ch_equals ∈ s)))
          ++ 0 :: nul_terminated args))⟩ := by
  simp [prepare_message, prepare_environ_fill, prepare_string_fill, prepare_argv_fill]

theorem split_nul_aux_string (s : CStr) (hs : NulFree s) (rest cur : List Nat) :
    split_nul_aux (s ++ 0 :: rest) cur = (cur.reverse ++ s) :: split_nul_aux rest [] := by
  induction s generalizing cur with
  | nil => simp [split_nul_aux]
  | cons b t ih =>
    have hb : b ≠ 0 := hs b (List.mem_cons_self _ _)
    have ht : NulFree t := fun c hc => hs c (List.mem_cons_of_mem _ hc)
    simp [split_nul_aux, hb, ih ht]

theorem split_nul_aux_terminated (l : List CStr) (hl : ∀ s ∈ l, NulFree s) (rest : List Nat) :
    split_nul_aux (nul_terminated l ++ rest) [] = l ++ split_nul_aux rest [] := by
  induction l with
  | nil => simp [nul_terminated]
  | cons s r ih =>
    have hs : NulFree s := hl s (List.mem_cons_self _ _)
    have hr : ∀ t ∈ r, NulFree t := fun t ht => hl t (List.mem_cons_of_mem _ ht)
    have := split_nul_aux_string s hs (nul_terminated r ++ rest) []
    simp [nul_terminated, List.append_assoc] at this ⊢
    rw [this, ih hr]

theorem split_nul_message (env args : List CStr)
    (henv : ∀ s ∈ env, NulFree s) (hargs : ∀ s ∈ args, NulFree s) :
    split_nul (nul_terminated env ++ 0 :: nul_terminated args) = env ++ [] :: args := by
  unfold split_nul
  rw [split_nul_aux_terminated env henv]
  have h0 : split_nul_aux (0 :: nul_terminated args) [] = [] :: split_nul_aux (nul_terminated args) [] := by
    simp [split_nul_aux]
  rw [h0]
  have := split_nul_aux_terminated args hargs []
  simp [split_nul_aux] at this
  rw [this]

/-- C1: round trip of the request message. For every environment list whose
entries are C strings containing `'='` and every argument list of C strings
(the empty string included), `prepare_message` in its filling pass writes a
body which the reference decoder splits into exactly that environment list
and that argument list. -/
theorem prepare_message_roundtrip (env args : List CStr)
    (henv : ∀ s ∈ env, NulFree s ∧ ch_equals ∈ s) (hargs : ∀ s ∈ args, NulFree s) :
    ∃ body, prepare_message ⟨none, some []⟩ env args = .ok ⟨none, some body⟩ ∧
      decode_message body = (env, args) := by
  have hfilter : env.filter (fun s => decide (ch_equals ∈ s)) = env := by
    apply List.filter_eq_self.mpr
    intro s hs
    simpa using (henv s hs).2
  refine ⟨nul_terminated env ++ 0 :: nul_terminated args, ?_, ?_⟩
  · rw [prepare_message_fill, hfilter]; simp
  · have hne : ∀ s ∈ env, (!s.isEmpty) = true := by
      intro s hs
      have := (henv s hs).2
      cases s with
      | nil => simp at this
      | cons a t => simp
    unfold decode_message
    rw [split_nul_message env args (fun s hs => (henv s hs).1) hargs]
    have htw : List.takeWhile (fun s => !s.isEmpty) (env ++ ([] : CStr) :: args) = env := by
      rw [List.takeWhile_append_of_pos hne]; simp
    have hdw : List.dropWhile (fun s => !s.isEmpty) (env ++ ([] : CStr) :: args) = [] :: args := by
      rw [List.dropWhile_append_of_pos hne]; simp
    simp only [htw, hdw, List.drop_one, List.tail_cons]

theorem prepare_message_roundtrip_witness :
    (∀ s ∈ [[65, 61, 49], [66, 61]], NulFree s ∧ ch_equals ∈ s) ∧
    (∀ s ∈ [[], [120], []], NulFree s) ∧
    ∃ body, prepare_message ⟨none, some []⟩ [[65, 61, 49], [66, 61]] [[], [120], []]
        = .ok ⟨none, some body⟩ ∧
      decode_message body = ([[65, 61, 49], [66, 61]], [[], [120], []]) :=
  ⟨by decide, by decide,
   prepare_message_roundtrip [[65, 61, 49], [66, 61]] [[], [120], []] (by decide) (by decide)⟩

/-! ## The lock file (prefork.c) -/

theorem flock_file_loop_retry (lockfd : Option Nat) (closed : List Nat) (a : LockAttempt)
    (rest : List LockAttempt) (h : a.retries = true) :
    ∃ fd, a.open_res = .ok fd ∧
      flock_file_loop lockfd closed (a :: rest)
        = flock_file_loop (some fd) (flock_file_loop lockfd closed [a]).closed rest := by
  obtain ⟨o, f, fs, s⟩ := a
  cases o with
  | error e => simp [LockAttempt.retries] at h
  | ok fd =>
    refine ⟨fd, rfl, ?_⟩
    cases f with
    | error e => cases e <;> simp_all [LockAttempt.retries, flock_file_loop]
    | ok u =>
      cases fs with
      | error e => simp [LockAttempt.retries] at h
      | ok sf =>
        cases s with
        | error e => cases e <;> simp_all [LockAttempt.retries, flock_file_loop]
        | ok sp =>
          simp only [LockAttempt.retries, Bool.not_eq_true', Bool.not_eq_eq_eq_not, Bool.not_true] at h
          simp [flock_file_loop, h]

theorem flock_file_loop_not_retry (lockfd : Option Nat) (closed : List Nat) (a : LockAttempt)
    (rest : List LockAttempt) (h : a.retries = false) :
    flock_file_loop lockfd closed (a :: rest) = flock_file_loop lockfd closed [a] ∧
    ∀ fd, (flock_file_loop lockfd closed [a]).result = .returned fd ↔
      ∃ stab_fd stab_path, a.open_res = .ok fd ∧ a.flock_res = .ok () ∧
        a.fstat_res = .ok stab_fd ∧ a.stat_res = .ok stab_path ∧
        stabs_same_inode stab_path stab_fd = true := by
  obtain ⟨o, f, fs, s⟩ := a
  cases o with
  | error e => simp [flock_file_loop]
  | ok fd =>
    cases f with
    | error e => cases e <;> simp_all [LockAttempt.retries, flock_file_loop]
    | ok u =>
      cases fs with
      | error e => simp [flock_file_loop]
      | ok sf =>
        cases s with
        | error e => cases e <;> simp_all [LockAttempt.retries, flock_file_loop]
        | ok sp =>
          simp only [LockAttempt.retries, Bool.not_eq_false', Bool.not_eq_eq_eq_not, Bool.not_false] at h
          simp [flock_file_loop, h]

theorem flock_file_loop_returned (attempts : List LockAttempt) (fd : Nat) :
    ∀ (lockfd : Option Nat) (closed : List Nat),
    (flock_file_loop lockfd closed attempts).result = .returned fd ↔
      ∃ pre a post stab_fd stab_path, attempts = pre ++ a :: post ∧
        (∀ b ∈ pre, b.retries = true) ∧
        a.open_res = .ok fd ∧ a.flock_res = .ok () ∧
        a.fstat_res = .ok stab_fd ∧ a.stat_res = .ok stab_path ∧
        stabs_same_inode stab_path stab_fd = true := by
  induction attempts with
  | nil => intro lockfd closed; simp [flock_file_loop]
  | cons a rest ih =>
    intro lockfd closed
    cases hr : a.retries with
    | true =>
      obtain ⟨fd1, ho, hstep⟩ := flock_file_loop_retry lockfd closed a rest hr
      rw [hstep, ih]
      constructor
      · rintro ⟨pre, b, post, sf, sp, hsplit, hpre, hb⟩
        refine ⟨a :: pre, b, post, sf, sp, by simp [hsplit], ?_, hb⟩
        intro c hc
        rcases List.mem_cons.mp hc with rfl | hc
        · exact hr
        · exact hpre c hc
      · rintro ⟨pre, b, post, sf, sp, hsplit, hpre, hb⟩
        cases pre with
        | nil =>
          simp only [List.nil_append, List.cons.injEq] at hsplit
          obtain ⟨rfl, -⟩ := hsplit
          obtain ⟨h1, h2, h3, h4, h5⟩ := hb
          simp [LockAttempt.retries, h1, h2, h3, h4, h5] at hr
        | cons c pre' =>
          simp only [List.cons_append, List.cons.injEq] at hsplit
          obtain ⟨rfl, hrest⟩ := hsplit
          exact ⟨pre', b, post, sf, sp, hrest, fun d hd => hpre d (List.mem_cons_of_mem _ hd), hb⟩
    | false =>
      obtain ⟨hstep, hchar⟩ := flock_file_loop_not_retry lockfd closed a rest hr
      rw [hstep, hchar]
      constructor
      · rintro ⟨sf, sp, hb⟩
        exact ⟨[], a, rest, sf, sp, rfl, by simp, hb⟩
      · rintro ⟨pre, b, post, sf, sp, hsplit, hpre, hb⟩
        cases pre with
        | nil =>
          simp only [List.nil_append, List.cons.injEq] at hsplit
          obtain ⟨rfl, -⟩ := hsplit
          exact ⟨sf, sp, hb⟩
        | cons c pre' =>
          simp only [List.cons_append, List.cons.injEq] at hsplit
          obtain ⟨rfl, -⟩ := hsplit
          have := hpre a (List.mem_cons_self _ _)
          rw [hr] at this
          cases this

theorem flock_file_loop_closed_mono (attempts : List LockAttempt) :
    ∀ (lockfd : Option Nat) (closed : List Nat) (fd : Nat),
      fd ∈ closed → fd ∈ (flock_file_loop lockfd closed attempts).closed := by
  induction attempts with
  | nil => intro lockfd closed fd h; simpa [flock_file_loop] using h
  | cons a rest ih =>
    intro lockfd closed fd h
    have h1 : fd ∈ (match lockfd with
        | some fd0 => closed ++ [fd0]
        | none => closed) := by
      cases lockfd <;> simp [h]
    obtain ⟨o, f, fs, s⟩ := a
    cases o with
    | error e => simpa [flock_file_loop] using h1
    | ok fd1 =>
      cases f with
      | error e =>
        cases e <;> first
          | (simp only [flock_file_loop]; exact ih _ _ _ h1)
          | simpa [flock_file_loop] using h1
      | ok u =>
        cases fs with
        | error e => simpa [flock_file_loop] using h1
        | ok sf =>
          cases s with
          | error e =>
            cases e <;> first
              | (simp only [flock_file_loop]; exact ih _ _ _ h1)
              | simpa [flock_file_loop] using h1
          | ok sp =>
            simp only [flock_file_loop]
            split
            · exact h1
            · exact ih _ _ _ h1

theorem flock_file_loop_closes (a : LockAttempt) (rest : List LockAttempt) (fd : Nat)
    (closed : List Nat) :
    fd ∈ (flock_file_loop (some fd) closed (a :: rest)).closed := by
  have h := flock_file_loop_closed_mono rest
  obtain ⟨o, f, fs, s⟩ := a
  cases o with
  | error e => simp [flock_file_loop]
  | ok fd1 =>
    cases f with
    | error e =>
      cases e <;> first
        | (simp only [flock_file_loop]; exact h _ _ _ (by simp))
        | simp [flock_file_loop]
    | ok u =>
      cases fs with
      | error e => simp [flock_file_loop]
      | ok sf =>
        cases s with
        | error e =>
          cases e <;> first
            | (simp only [flock_file_loop]; exact h _ _ _ (by simp))
            | simp [flock_file_loop]
        | ok sp =>
          simp only [flock_file_loop]
          split
          · simp
          · exact h _ _ _ (by simp)

theorem flock_file_loop_dies (lockfd : Option Nat) (closed : List Nat) (a : LockAttempt)
    (rest : List LockAttempt) (h : a.dies = true) :
    ∃ f, (flock_file_loop lockfd closed (a :: rest)).result = .fatal f ∧ f.status = 127 := by
  obtain ⟨o, f, fs, s⟩ := a
  cases o with
  | error e => simp [flock_file_loop, diee]
  | ok fd1 =>
    cases f with
    | error e => cases e <;> simp_all [LockAttempt.dies, flock_file_loop, diee]
    | ok u =>
      cases fs with
      | error e => simp [flock_file_loop, diee]
      | ok sf =>
        cases s with
        | error e => cases e <;> simp_all [LockAttempt.dies, flock_file_loop, diee]
        | ok sp => simp [LockAttempt.dies] at h

theorem retries_iff (a : LockAttempt) :
    a.retries = true ↔
      ∃ fd, a.open_res = .ok fd ∧
        (a.flock_res = .error .EINTR ∨
          (a.flock_res = .ok () ∧ ∃ stab_fd, a.fstat_res = .ok stab_fd ∧
            (a.stat_res = .error .ENOENT ∨
              ∃ stab_path, a.stat_res = .ok stab_path ∧
                ¬ (stab_path.st_dev = stab_fd.st_dev ∧ stab_path.st_ino = stab_fd.st_ino)))) := by
  obtain ⟨o, f, fs, s⟩ := a
  cases o with
  | error e => simp [LockAttempt.retries]
  | ok fd =>
    cases f with
    | error e => cases e <;> simp [LockAttempt.retries]
    | ok u =>
      cases fs with
      | error e => simp [LockAttempt.retries]
      | ok sf =>
        cases s with
        | error e => cases e <;> simp [LockAttempt.retries]
        | ok sp =>
          simp only [LockAttempt.retries, stabs_same_inode, Bool.not_eq_true',
            Bool.and_eq_false_iff, beq_eq_false_iff_ne, ne_eq, Except.ok.injEq,
            exists_eq_left', reduceCtorEq, false_or, true_and, exists_eq_left, not_and]
          constructor
          · rintro (h | h)
            · exact fun hd => absurd hd h
            · exact fun _ => h
          · intro h
            by_cases hd : sp.st_dev = sf.st_dev
            · exact Or.inr (h hd)
            · exact Or.inl hd

/-- C5: lock acquisition postcondition. `flock_file` returns the descriptor
`fd` exactly when the kernel's answers are some iterations that all go round
again, followed by an iteration in which `open` gave `fd`, the exclusive
`flock` succeeded, and `fstat` of the descriptor and a fresh `stat` of the
path succeeded with the same device and inode. The iterations that go round
again are those in which `flock` was interrupted (EINTR), or the lock was
taken and the path is missing (ENOENT) or names another inode; such an
iteration closes its descriptor at the top of the next one, which runs the
whole sequence again. Every other failure of `open`, `flock`, `fstat` or
`stat` ends the process with status 127. -/
theorem flock_file_postcondition (attempts : List LockAttempt) :
    (∀ fd, (flock_file attempts).result = .returned fd ↔
      ∃ pre a post stab_fd stab_path, attempts = pre ++ a :: post ∧
        (∀ b ∈ pre, b.retries = true) ∧
        a.open_res = .ok fd ∧ a.flock_res = .ok () ∧
        a.fstat_res = .ok stab_fd ∧ a.stat_res = .ok stab_path ∧
        stab_path.st_dev = stab_fd.st_dev ∧ stab_path.st_ino = stab_fd.st_ino) ∧
    (∀ a : LockAttempt, a.retries = true ↔
      ∃ fd, a.open_res = .ok fd ∧
        (a.flock_res = .error .EINTR ∨
          (a.flock_res = .ok () ∧ ∃ stab_fd, a.fstat_res = .ok stab_fd ∧
            (a.stat_res = .error .ENOENT ∨
              ∃ stab_path, a.stat_res = .ok stab_path ∧
                ¬ (stab_path.st_dev = stab_fd.st_dev ∧
                  stab_path.st_ino = stab_fd.st_ino))))) ∧
    (∀ (lockfd : Option Nat) (closed : List Nat) (a next : LockAttempt)
        (rest : List LockAttempt) (fd : Nat),
      a.retries = true → a.open_res = .ok fd →
      (∃ closed1, flock_file_loop lockfd closed (a :: next :: rest)
          = flock_file_loop (some fd) closed1 (next :: rest)) ∧
      fd ∈ (flock_file_loop lockfd closed (a :: next :: rest)).closed) ∧
    (∀ (lockfd : Option Nat) (closed : List Nat) (a : LockAttempt) (rest : List LockAttempt),
      ((∃ e, a.open_res = .error e) ∨
        (∃ fd, a.open_res = .ok fd ∧
          ((∃ e, a.flock_res = .error e ∧ e ≠ .EINTR) ∨
            (a.flock_res = .ok () ∧
              ((∃ e, a.fstat_res = .error e) ∨
                (∃ stab_fd e, a.fstat_res = .ok stab_fd ∧
                  a.stat_res = .error e ∧ e ≠ .ENOENT)))))) →
      ∃ f, (flock_file_loop lockfd closed (a :: rest)).result = .fatal f ∧ f.status = 127) := by
  refine ⟨?_, retries_iff, ?_, ?_⟩
  · intro fd
    unfold flock_file
    rw [flock_file_loop_returned]
    simp only [stabs_same_inode, Bool.and_eq_true, beq_iff_eq]
  · intro lockfd closed a next rest fd hr ho
    obtain ⟨fd1, ho1, hstep⟩ := flock_file_loop_retry lockfd closed a (next :: rest) hr
    have hfd : fd1 = fd := by rw [ho] at ho1; cases ho1; rfl
    subst hfd
    refine ⟨⟨_, hstep⟩, ?_⟩
    rw [hstep]
    exact flock_file_loop_closes next rest fd1 _
  · intro lockfd closed a rest hcase
    apply flock_file_loop_dies
    obtain ⟨o, f, fs, s⟩ := a
    simp only at hcase
    rcases hcase with ⟨e, h⟩ | ⟨fd, h, hcase⟩
    · subst h; simp [LockAttempt.dies]
    · subst h
      rcases hcase with ⟨e, h, hne⟩ | ⟨h, hcase⟩
      · subst h; simpa [LockAttempt.dies] using hne
      · subst h
        rcases hcase with ⟨e, h⟩ | ⟨sf, e, h1, h2, hne⟩
        · subst h; simp [LockAttempt.dies]
        · subst h1; subst h2; simpa [LockAttempt.dies] using hne

/-- The run `sample_lock_attempts` ends with descriptor 6 after closing 3, 4
and 5, and splits as C5 says. -/
theorem flock_file_postcondition_witness :
    flock_file sample_lock_attempts = ⟨.returned 6, [3, 4, 5]⟩ ∧
    ∃ (pre : List LockAttempt) (a : LockAttempt) (post : List LockAttempt)
      (stab_fd stab_path : Stat),
      sample_lock_attempts = pre ++ a :: post ∧
      (∀ b ∈ pre, b.retries = true) ∧
      a.open_res = .ok 6 ∧ a.flock_res = .ok () ∧
      a.fstat_res = .ok stab_fd ∧ a.stat_res = .ok stab_path ∧
      stab_path.st_dev = stab_fd.st_dev ∧ stab_path.st_ino = stab_fd.st_ino :=
  ⟨by decide, ((flock_file_postcondition sample_lock_attempts).1 6).mp (by decide)⟩

/-! ## The sweep of the run directory (prefork-interp.c) -/

/-- C3: the race re-check of the sweep. For every eviction candidate `p`,
the body of the loop passes names to `unlink` only if `flock_file` returned
and the access time of the socket, read again while the lock is held, equals
the one recorded in the scan. If it differs, nothing is unlinked, the
directory is left as it was found, the process goes on, and the loop
continues with the next candidate. -/
theorem preclean_recheck (w : PrecleanWorld) (i : Nat) (p : PrecleanEntry)
    (rest : List PrecleanEntry) (st : Sweep) (hlive : st.halted = none) :
    (∃ new, (preclean_candidate w i p st).unlinked = st.unlinked ++ new ∧
      (∀ name ∈ new, name = ch_s :: p.name_hash ∨ name = ch_l :: p.name_hash) ∧
      (new ≠ [] →
        (∃ fd, (flock_file (w.lock_attempts i)).result = .returned fd) ∧
        preclean_stat_atime
            (sys_lstat (dir_with_lock (w.at_lock i st.dir) (ch_l :: p.name_hash))
              (ch_s :: p.name_hash))
          = .ok p.atime)) ∧
    (∀ fd atime, (flock_file (w.lock_attempts i)).result = .returned fd →
      preclean_stat_atime
          (sys_lstat (dir_with_lock (w.at_lock i st.dir) (ch_l :: p.name_hash))
            (ch_s :: p.name_hash))
        = .ok atime →
      atime ≠ p.atime →
      preclean_candidate w i p st
        = { dir := dir_with_lock (w.at_lock i st.dir) (ch_l :: p.name_hash),
            unlinked := st.unlinked, halted := none } ∧
      preclean_evict w i (p :: rest) st
        = preclean_evict w (i + 1) rest
            { dir := dir_with_lock (w.at_lock i st.dir) (ch_l :: p.name_hash),
              unlinked := st.unlinked, halted := none }) := by
  constructor
  · unfold preclean_candidate
    cases hl : (flock_file (w.lock_attempts i)).result with
    | pending => exact ⟨[], by simp, by simp, by simp⟩
    | fatal f => exact ⟨[], by simp, by simp, by simp⟩
    | returned fd =>
      simp only
      cases hs : preclean_stat_atime
          (sys_lstat (dir_with_lock (w.at_lock i st.dir) (ch_l :: p.name_hash))
            (ch_s :: p.name_hash)) with
      | error f => exact ⟨[], by simp, by simp, by simp⟩
      | ok atime =>
        simp only
        by_cases ha : atime = p.atime
        · subst ha
          simp only [ne_eq, not_true_eq_false, ↓reduceIte]
          cases hu : sys_unlink (dir_with_lock (w.at_lock i st.dir) (ch_l :: p.name_hash))
              (ch_s :: p.name_hash) with
          | error e =>
            cases e with
            | ENOENT =>
              simp only
              split
              · exact ⟨[], by simp, by simp, by simp⟩
              · exact ⟨[ch_l :: p.name_hash], by simp, by simp, by simp⟩
            | _ => exact ⟨[], by simp, by simp, by simp⟩
          | ok dir2 =>
            simp only
            split
            · exact ⟨[ch_s :: p.name_hash], by simp, by simp, by simp⟩
            · exact ⟨[ch_s :: p.name_hash, ch_l :: p.name_hash], by simp, by simp, by simp⟩
        · simp only [ne_eq, ha, not_false_eq_true, ↓reduceIte]
          exact ⟨[], by simp, by simp, by simp⟩
  · intro fd atime hl hs hne
    have hstep : preclean_candidate w i p st
        = { dir := dir_with_lock (w.at_lock i st.dir) (ch_l :: p.name_hash),
            unlinked := st.unlinked, halted := none } := by
      unfold preclean_candidate
      simp only [hl, hs, ne_eq, hne, not_false_eq_true, ↓reduceIte, hlive]
    refine ⟨hstep, ?_⟩
    simp [preclean_evict, hstep]

/-- The race of C3 on a directory of three sockets with `max_sockets = 2`:
the socket `s<1>`, touched after the scan, is left in place with its lock
file, the loop goes on, and the next candidate `s<2>` is removed. -/
theorem preclean_recheck_witness :
    (preclean_candidate touch_world 0 ⟨[1], 1⟩ ⟨sample_dir 3, [], none⟩
        = { dir := dir_with_lock (touch_world.at_lock 0 (sample_dir 3)) (ch_l :: [1]),
            unlinked := [], halted := none } ∧
      preclean_evict touch_world 0 (⟨[1], 1⟩ :: [⟨[2], 2⟩]) ⟨sample_dir 3, [], none⟩
        = preclean_evict touch_world (0 + 1) [⟨[2], 2⟩]
            { dir := dir_with_lock (touch_world.at_lock 0 (sample_dir 3)) (ch_l :: [1]),
              unlinked := [], halted := none }) ∧
    preclean_with 2 touch_world (.ok (sample_dir 3))
      = { dir := [⟨[ch_s, 1], 50⟩, ⟨[ch_l, 1], 0⟩, ⟨[ch_s, 3], 3⟩, ⟨[ch_l, 3], 0⟩],
          unlinked := [[ch_s, 2], [ch_l, 2]], halted := none } :=
  ⟨(preclean_recheck touch_world 0 ⟨[1], 1⟩ [⟨[2], 2⟩] ⟨sample_dir 3, [], none⟩ rfl).2 3 50
      (by decide) (by decide) (by decide),
   by decide⟩

set_option maxRecDepth 100000 in
theorem preclean_sample_dir_101 :
    preclean quiet_world (.ok (sample_dir 101)) =
      { dir := [⟨[ch_s, 101], 101⟩, ⟨[ch_l, 101], 0⟩],
        unlinked := (List.range 100).flatMap (fun k => [[ch_s, k + 1], [ch_l, k + 1]]),
        halted := none } := by
  decide

/-- C2 (the code at the failing input): the run directory holds 101
identities, the sockets `s<1>` .. `s<101>` last used at the times 1 .. 101,
each with its lock file, `max_sockets` is 100 and no other process is
about. The eviction loop runs over the first `max_sockets` entries of the
array sorted by access time, so `preclean` unlinks the 100 oldest sockets
and their lock files and leaves one identity, where 101 - 100 = 1 entry is
beyond the cap. -/
theorem preclean_evicts_max_sockets_entries :
    preclean quiet_world (.ok (sample_dir 101)) =
      { dir := [⟨[ch_s, 101], 101⟩, ⟨[ch_l, 101], 0⟩],
        unlinked := (List.range 100).flatMap (fun k => [[ch_s, k + 1], [ch_l, k + 1]]),
        halted := none } :=
  preclean_sample_dir_101

/-! ## Staleness of the socket (cgi-fcgi-interp.c) -/

theorem stab_isnewer_iff (a b : Stat) :
    stab_isnewer a b = true ↔ a.st_mtim.later b.st_mtim := by
  unfold stab_isnewer timespeccmp_gt Timespec.later
  by_cases h : a.st_mtim.tv_sec = b.st_mtim.tv_sec
  · simp [h]
  · simp only [h, ↓reduceIte, gt_iff_lt, decide_eq_true_eq, false_and, or_false]

/-- C4: the staleness verdict. `check_garbage` returns true exactly when
`lstat` finds the socket, `lstat` of the script succeeds, and the script's
own modification time is strictly later than the socket's, or the script is a
symbolic link and `stat` gives a target whose modification time is strictly
later. A script that is not later (and whose target, for a link, is not
later) is judged fresh, and so is everything when the socket is missing. -/
theorem check_garbage_verdict (sock_lstat script_lstat script_stat : Except Errno Stat) :
    (check_garbage sock_lstat script_lstat script_stat = .ok true ↔
      ∃ sock scr, sock_lstat = .ok sock ∧ script_lstat = .ok scr ∧
        (scr.st_mtim.later sock.st_mtim ∨
          (S_ISLNK scr.st_mode = true ∧
            ∃ target, script_stat = .ok target ∧ target.st_mtim.later sock.st_mtim))) ∧
    (∀ sock scr, sock_lstat = .ok sock → script_lstat = .ok scr →
      ¬ scr.st_mtim.later sock.st_mtim →
      (S_ISLNK scr.st_mode = false ∨
        ∃ target, script_stat = .ok target ∧ ¬ target.st_mtim.later sock.st_mtim) →
      check_garbage sock_lstat script_lstat script_stat = .ok false) ∧
    (sock_lstat = .error .ENOENT →
      check_garbage sock_lstat script_lstat script_stat = .ok false) := by
  refine ⟨?_, ?_, ?_⟩
  · cases sock_lstat with
    | error e => cases e <;> simp [check_garbage]
    | ok sock =>
      cases script_lstat with
      | error e => simp [check_garbage, check_garbage_vs]
      | ok scr =>
        simp only [check_garbage, check_garbage_vs, Except.ok.injEq, exists_and_left,
          exists_eq_left']
        by_cases h1 : stab_isnewer scr sock = true
        · simp [h1, (stab_isnewer_iff scr sock).mp h1]
        · have h1' : ¬ scr.st_mtim.later sock.st_mtim := fun h => h1 ((stab_isnewer_iff _ _).mpr h)
          simp only [h1, Bool.false_eq_true, ↓reduceIte, h1', false_or]
          by_cases h2 : S_ISLNK scr.st_mode = true
          · simp only [h2, ↓reduceIte, true_and]
            cases script_stat with
            | error e => simp
            | ok target =>
              by_cases h3 : stab_isnewer target sock = true
              · simp [h3, (stab_isnewer_iff target sock).mp h3]
              · have h3' : ¬ target.st_mtim.later sock.st_mtim :=
                  fun h => h3 ((stab_isnewer_iff _ _).mpr h)
                simp [h3, h3']
          · simp [h2]
  · intro sock scr hs hl hn hcase
    subst hs; subst hl
    have h1 : stab_isnewer scr sock = false := by
      cases h : stab_isnewer scr sock with
      | false => rfl
      | true => exact absurd ((stab_isnewer_iff _ _).mp h) hn
    rcases hcase with h2 | ⟨target, ht, hnt⟩
    · simp [check_garbage, check_garbage_vs, h1, h2]
    · subst ht
      have h3 : stab_isnewer target sock = false := by
        cases h : stab_isnewer target sock with
        | false => rfl
        | true => exact absurd ((stab_isnewer_iff _ _).mp h) hnt
      simp [check_garbage, check_garbage_vs, h1, h3]
  · intro h
    subst h
    rfl

/-- Runs of `check_garbage` for C4, with a socket of modification time `T`
= 100 s and 500 ns: a script one nanosecond later is stale, a script of the
same time or one second earlier is fresh, a link older than the socket to a
target that is newer is stale, and nothing is stale without a socket. -/
theorem check_garbage_verdict_witness :
    check_garbage (.ok ⟨1, 2, 0o140600, 0, 0, ⟨100, 500⟩⟩)
        (.ok ⟨1, 3, 0o100644, 0, 0, ⟨100, 501⟩⟩) (.error .ENOENT) = .ok true ∧
    check_garbage (.ok ⟨1, 2, 0o140600, 0, 0, ⟨100, 500⟩⟩)
        (.ok ⟨1, 3, 0o100644, 0, 0, ⟨100, 500⟩⟩) (.error .ENOENT) = .ok false ∧
    check_garbage (.ok ⟨1, 2, 0o140600, 0, 0, ⟨100, 500⟩⟩)
        (.ok ⟨1, 3, 0o100644, 0, 0, ⟨99, 999999999⟩⟩) (.error .ENOENT) = .ok false ∧
    check_garbage (.ok ⟨1, 2, 0o140600, 0, 0, ⟨100, 500⟩⟩)
        (.ok ⟨1, 3, 0o120777, 0, 0, ⟨50, 0⟩⟩) (.ok ⟨1, 4, 0o100644, 0, 0, ⟨101, 0⟩⟩)
      = .ok true ∧
    check_garbage (.error .ENOENT)
        (.ok ⟨1, 3, 0o100644, 0, 0, ⟨100, 501⟩⟩) (.error .ENOENT) = .ok false :=
  ⟨((check_garbage_verdict _ _ _).1.mpr
      ⟨⟨1, 2, 0o140600, 0, 0, ⟨100, 500⟩⟩, ⟨1, 3, 0o100644, 0, 0, ⟨100, 501⟩⟩, rfl, rfl,
        Or.inl (by decide)⟩),
   by decide, by decide, by decide, by decide⟩

/-! ## The identity (prefork.c) -/

theorem nulfree_append_zero_inj (a b : CStr) (ha : NulFree a) (hb : NulFree b)
    (x y : List Nat) (h : a ++ 0 :: x = b ++ 0 :: y) : a = b ∧ x = y := by
  induction a generalizing b with
  | nil =>
    cases b with
    | nil => simpa using h
    | cons c t =>
      simp only [List.nil_append, List.cons_append, List.cons.injEq] at h
      exact absurd h.1.symm (hb c (List.mem_cons_self _ _))
  | cons c s ih =>
    cases b with
    | nil =>
      simp only [List.nil_append, List.cons_append, List.cons.injEq] at h
      exact absurd h.1 (ha c (List.mem_cons_self _ _))
    | cons d t =>
      simp only [List.cons_append, List.cons.injEq] at h
      obtain ⟨h1, h2⟩ := ih t (fun e he => ha e (List.mem_cons_of_mem _ he))
        (fun e he => hb e (List.mem_cons_of_mem _ he)) h.2
      exact ⟨by rw [h.1, h1], h2⟩

theorem ident_add_opts_bytes (getenv : CStr → Option CStr) (opts : List IdentOpt)
    (identsc : IdentCtx) :
    ident_add_opts getenv identsc opts
      = identsc ++ fragments_bytes (opts.map (IdentOpt.fragment getenv)) := by
  induction opts generalizing identsc with
  | nil => simp [ident_add_opts, fragments_bytes]
  | cons o opts ih =>
    cases o with
    | G s =>
      simp [ident_add_opts, ih, fragments_bytes, IdentOpt.fragment, IdentFragment.bytes,
        off_ident_addstring, ident_addstring, ident_add_key_byte]
    | E name =>
      cases hv : getenv name <;>
      simp [ident_add_opts, ih, fragments_bytes, IdentOpt.fragment, IdentFragment.bytes,
        off_ident_addenv, ident_addstring, ident_add_key_byte, hv]

theorem ident_input_bytes (init : List Nat) (getenv : CStr → Option CStr)
    (opts : List IdentOpt) (interp : CStr) (script : Option CStr) :
    ident_input init getenv opts interp script
      = init ++ (fragments_bytes (opts.map (IdentOpt.fragment getenv))
          ++ interp_script_bytes interp script) := by
  unfold ident_input ident_add_interp_script
  rw [ident_add_opts_bytes]
  cases script <;> simp [interp_script_bytes, ident_addstring, ident_add_key_byte]

theorem interp_script_bytes_inj (interp1 interp2 : CStr) (script1 script2 : Option CStr)
    (hi1 : NulFree interp1) (hi2 : NulFree interp2)
    (hs1 : ∀ s, script1 = some s → NulFree s) (hs2 : ∀ s, script2 = some s → NulFree s)
    (h : interp_script_bytes interp1 script1 = interp_script_bytes interp2 script2) :
    interp1 = interp2 ∧ script1 = script2 := by
  unfold interp_script_bytes at h
  simp only [List.cons_append, List.append_assoc, List.singleton_append, List.cons.injEq,
    true_and] at h
  obtain ⟨h1, h2⟩ := nulfree_append_zero_inj _ _ hi1 hi2 _ _ h
  refine ⟨h1, ?_⟩
  cases script1 with
  | none =>
    cases script2 with
    | none => rfl
    | some t => simp at h2
  | some s =>
    cases script2 with
    | none => simp at h2
    | some t =>
      simp only [List.cons.injEq, true_and] at h2
      have h3 : s ++ 0 :: [] = t ++ 0 :: [] := by simpa using h2
      rw [(nulfree_append_zero_inj s t (hs1 s rfl) (hs2 t rfl) _ _ h3).1]

theorem fragments_bytes_inj (fs1 : List IdentFragment) :
    ∀ (fs2 : List IdentFragment) (interp1 interp2 : CStr) (script1 script2 : Option CStr),
    (∀ f ∈ fs1, f.NulFree) → (∀ f ∈ fs2, f.NulFree) →
    fragments_bytes fs1 ++ interp_script_bytes interp1 script1
      = fragments_bytes fs2 ++ interp_script_bytes interp2 script2 →
    fs1 = fs2 ∧
      interp_script_bytes interp1 script1 = interp_script_bytes interp2 script2 := by
  induction fs1 with
  | nil =>
    intro fs2 interp1 interp2 script1 script2 _ h2 h
    cases fs2 with
    | nil => exact ⟨rfl, by simpa [fragments_bytes] using h⟩
    | cons f fs =>
      exfalso
      cases f with
      | string s =>
        simp [fragments_bytes, IdentFragment.bytes, interp_script_bytes, ch_i, ch_G] at h
      | env name v =>
        cases v <;>
        simp [fragments_bytes, IdentFragment.bytes, interp_script_bytes, ch_i, ch_E] at h
  | cons f1 fs1 ih =>
    intro fs2 interp1 interp2 script1 script2 h1 h2 h
    have hf1 := h1 f1 (List.mem_cons_self _ _)
    have hr1 : ∀ f ∈ fs1, f.NulFree := fun f hf => h1 f (List.mem_cons_of_mem _ hf)
    cases fs2 with
    | nil =>
      exfalso
      cases f1 with
      | string s =>
        simp [fragments_bytes, IdentFragment.bytes, interp_script_bytes, ch_i, ch_G] at h
      | env name v =>
        cases v <;>
        simp [fragments_bytes, IdentFragment.bytes, interp_script_bytes, ch_i, ch_E] at h
    | cons f2 fs2 =>
      have hf2 := h2 f2 (List.mem_cons_self _ _)
      have hr2 : ∀ f ∈ fs2, f.NulFree := fun f hf => h2 f (List.mem_cons_of_mem _ hf)
      cases f1 with
      | string s1 =>
        cases f2 with
        | string s2 =>
          simp only [fragments_bytes, IdentFragment.bytes, List.cons_append, List.append_assoc,
            List.singleton_append, List.nil_append, List.cons.injEq, true_and] at h
          obtain ⟨e1, e2⟩ := nulfree_append_zero_inj s1 s2 hf1 hf2 _ _ h
          obtain ⟨e3, e4⟩ := ih fs2 interp1 interp2 script1 script2 hr1 hr2 e2
          exact ⟨by rw [e1, e3], e4⟩
        | env name v =>
          exfalso
          cases v <;> simp [fragments_bytes, IdentFragment.bytes, ch_G, ch_E] at h
      | env n1 v1 =>
        cases f2 with
        | string s2 =>
          exfalso
          cases v1 <;> simp [fragments_bytes, IdentFragment.bytes, ch_G, ch_E] at h
        | env n2 v2 =>
          cases v1 with
          | none =>
            cases v2 with
            | none =>
              simp only [fragments_bytes, IdentFragment.bytes, List.cons_append,
                List.append_assoc, List.singleton_append, List.nil_append, List.cons.injEq, true_and] at h
              obtain ⟨e1, e2⟩ := nulfree_append_zero_inj n1 n2 hf1 hf2 _ _ h
              simp only [List.nil_append, List.cons.injEq, true_and] at e2
              obtain ⟨e3, e4⟩ := ih fs2 interp1 interp2 script1 script2 hr1 hr2 e2
              exact ⟨by rw [e1, e3], e4⟩
            | some w2 =>
              exfalso
              simp only [fragments_bytes, IdentFragment.bytes, List.cons_append,
                List.append_assoc, List.singleton_append, List.nil_append, List.cons.injEq, true_and] at h
              obtain ⟨e1, e2⟩ := nulfree_append_zero_inj n1 n2 hf1 hf2.1 _ _ h
              simp [ch_v] at e2
          | some w1 =>
            cases v2 with
            | none =>
              exfalso
              simp only [fragments_bytes, IdentFragment.bytes, List.cons_append,
                List.append_assoc, List.singleton_append, List.nil_append, List.cons.injEq, true_and] at h
              obtain ⟨e1, e2⟩ := nulfree_append_zero_inj n1 n2 hf1.1 hf2 _ _ h
              simp [ch_v] at e2
            | some w2 =>
              simp only [fragments_bytes, IdentFragment.bytes, List.cons_append,
                List.append_assoc, List.singleton_append, List.nil_append, List.cons.injEq, true_and] at h
              obtain ⟨e1, e2⟩ := nulfree_append_zero_inj n1 n2 hf1.1 hf2.1 _ _ h
              simp only [List.nil_append, List.cons.injEq, true_and] at e2
              obtain ⟨e5, e6⟩ := nulfree_append_zero_inj w1 w2 hf1.2 hf2.2 _ _ e2
              obtain ⟨e3, e4⟩ := ih fs2 interp1 interp2 script1 script2 hr1 hr2 e6
              exact ⟨by rw [e1, e3, e5], e4⟩

theorem ident_input_inj (init : List Nat) (getenv1 getenv2 : CStr → Option CStr)
    (opts1 opts2 : List IdentOpt) (interp1 interp2 : CStr) (script1 script2 : Option CStr)
    (ho1 : ∀ o ∈ opts1, (o.fragment getenv1).NulFree)
    (ho2 : ∀ o ∈ opts2, (o.fragment getenv2).NulFree)
    (hi1 : NulFree interp1) (hi2 : NulFree interp2)
    (hs1 : ∀ s, script1 = some s → NulFree s) (hs2 : ∀ s, script2 = some s → NulFree s)
    (h : ident_input init getenv1 opts1 interp1 script1
      = ident_input init getenv2 opts2 interp2 script2) :
    opts1.map (IdentOpt.fragment getenv1) = opts2.map (IdentOpt.fragment getenv2) ∧
      interp1 = interp2 ∧ script1 = script2 := by
  rw [ident_input_bytes, ident_input_bytes] at h
  have h' := List.append_cancel_left h
  have hf1 : ∀ f ∈ opts1.map (IdentOpt.fragment getenv1), f.NulFree := by
    intro f hf
    obtain ⟨o, ho, rfl⟩ := List.mem_map.mp hf
    exact ho1 o ho
  have hf2 : ∀ f ∈ opts2.map (IdentOpt.fragment getenv2), f.NulFree := by
    intro f hf
    obtain ⟨o, ho, rfl⟩ := List.mem_map.mp hf
    exact ho2 o ho
  obtain ⟨e1, e2⟩ := fragments_bytes_inj _ _ interp1 interp2 script1 script2 hf1 hf2 h'
  exact ⟨e1, interp_script_bytes_inj interp1 interp2 script1 script2 hi1 hi2 hs1 hs2 e2⟩

/-- C6: the identity input is injective and order-sensitive. With the same
bytes from `ident_addinit`, two invocations whose strings are C strings give
the same byte string to SHA-256 only if they have the same ordered list of
fragments (`-G` strings, and `-E` variables each with its value or its
absence), the same interpreter and the same script or absence of script. -/
theorem ident_input_injective (init : List Nat) (getenv1 getenv2 : CStr → Option CStr)
    (opts1 opts2 : List IdentOpt) (interp1 interp2 : CStr) (script1 script2 : Option CStr)
    (ho1 : ∀ o ∈ opts1, (o.fragment getenv1).NulFree)
    (ho2 : ∀ o ∈ opts2, (o.fragment getenv2).NulFree)
    (hi1 : NulFree interp1) (hi2 : NulFree interp2)
    (hs1 : ∀ s, script1 = some s → NulFree s) (hs2 : ∀ s, script2 = some s → NulFree s)
    (h : ident_input init getenv1 opts1 interp1 script1
      = ident_input init getenv2 opts2 interp2 script2) :
    opts1.map (IdentOpt.fragment getenv1) = opts2.map (IdentOpt.fragment getenv2) ∧
      interp1 = interp2 ∧ script1 = script2 :=
  ident_input_inj init getenv1 getenv2 opts1 opts2 interp1 interp2 script1 script2
    ho1 ho2 hi1 hi2 hs1 hs2 h

/-- C6 at concrete inputs: with the interpreter `perl` and no script, the
options `-E X` with `X` unset and with `X` set to the empty string give
different byte strings, and so do `-G a -G b` and `-G b -G a`. -/
theorem ident_input_injective_witness :
    ident_input [1] (fun _ => none) [.E [88]] [112, 101, 114, 108] none
      ≠ ident_input [1] (fun _ => some []) [.E [88]] [112, 101, 114, 108] none ∧
    ident_input [1] (fun _ => none) [.G [97], .G [98]] [112, 101, 114, 108] none
      ≠ ident_input [1] (fun _ => none) [.G [98], .G [97]] [112, 101, 114, 108] none :=
  ⟨fun h => absurd
      (ident_input_injective [1] (fun _ => none) (fun _ => some []) [.E [88]] [.E [88]]
        [112, 101, 114, 108] [112, 101, 114, 108] none none
        (by simp [IdentOpt.fragment, IdentFragment.NulFree, NulFree])
        (by simp [IdentOpt.fragment, IdentFragment.NulFree, NulFree])
        (by decide) (by decide) (by simp) (by simp) h).1
      (by simp [IdentOpt.fragment]),
   by decide⟩

/-- Swapping two neighbouring options whose fragments differ changes the
byte string given to SHA-256. -/
theorem ident_input_swap (init : List Nat) (getenv : CStr → Option CStr)
    (pre post : List IdentOpt) (o1 o2 : IdentOpt) (interp : CStr) (script : Option CStr)
    (ho : ∀ o ∈ pre ++ o1 :: o2 :: post, (o.fragment getenv).NulFree)
    (hi : NulFree interp) (hs : ∀ s, script = some s → NulFree s)
    (hne : o1.fragment getenv ≠ o2.fragment getenv) :
    ident_input init getenv (pre ++ o1 :: o2 :: post) interp script
      ≠ ident_input init getenv (pre ++ o2 :: o1 :: post) interp script := by
  intro h
  have ho' : ∀ o ∈ pre ++ o2 :: o1 :: post, (o.fragment getenv).NulFree := by
    intro o hmem
    apply ho
    simp only [List.mem_append, List.mem_cons] at hmem ⊢
    tauto
  have := (ident_input_inj init getenv getenv _ _ interp interp script script
    ho ho' hi hi hs hs h).1
  simp only [List.map_append, List.map_cons, List.append_cancel_left_eq, List.cons.injEq] at this
  exact hne this.1

/-- Changing a `-E` variable from unset to set to the empty string changes
the byte string given to SHA-256. -/
theorem ident_input_unset_vs_empty (init : List Nat) (getenv1 getenv2 : CStr → Option CStr)
    (opts : List IdentOpt) (name : CStr) (interp : CStr) (script : Option CStr)
    (hmem : IdentOpt.E name ∈ opts)
    (ho1 : ∀ o ∈ opts, (o.fragment getenv1).NulFree)
    (ho2 : ∀ o ∈ opts, (o.fragment getenv2).NulFree)
    (hi : NulFree interp) (hs : ∀ s, script = some s → NulFree s)
    (h1 : getenv1 name = none) (h2 : getenv2 name = some []) :
    ident_input init getenv1 opts interp script
      ≠ ident_input init getenv2 opts interp script := by
  intro h
  have := (ident_input_inj init getenv1 getenv2 _ _ interp interp script script
    ho1 ho2 hi hi hs hs h).1
  have h3 := List.map_inj_left.mp this (IdentOpt.E name) hmem
  simp [IdentOpt.fragment, h1, h2] at h3

/-! ## The socket path (prefork.c) -/

theorem maxidentlen_eq (sun_path_size : Nat) (run_base : CStr)
    (hsize : sun_path_size < 2 ^ 31) (hbase : run_base.length + 12 < 2 ^ 31) :
    maxidentlen sun_path_size run_base
      = (sun_path_size : Int) - (run_base.length : Int) - 12 := by
  unfold maxidentlen size_t_to_int size_t_sub
  split <;> omega

theorem hex_digit_ne_zero (n : Nat) : hex_digit n ≠ 0 := by
  unfold hex_digit; split <;> omega

theorem hex_string_length (l : List Nat) : (hex_string l).length = 2 * l.length := by
  induction l with
  | nil => rfl
  | cons b bs ih => simp [hex_string, ih]; omega

theorem hex_string_nulfree (l : List Nat) : NulFree (hex_string l) := by
  induction l with
  | nil => intro b hb; simp [hex_string] at hb
  | cons b bs ih =>
    intro c hc
    simp only [hex_string, List.mem_cons] at hc
    rcases hc with rfl | rfl | hc
    · exact hex_digit_ne_zero _
    · exact hex_digit_ne_zero _
    · exact ih c hc

theorem hex_string_append (l1 l2 : List Nat) :
    hex_string (l1 ++ l2) = hex_string l1 ++ hex_string l2 := by
  induction l1 with
  | nil => rfl
  | cons b bs ih => simp [hex_string, ih]

theorem hex_string_take (l : List Nat) (k : Nat) :
    hex_string (l.take k) = (hex_string l).take (2 * k) := by
  induction l generalizing k with
  | nil => simp [hex_string]
  | cons b bs ih =>
    cases k with
    | zero => simp [hex_string]
    | succ k =>
      have : 2 * (k + 1) = (2 * k + 1) + 1 := by omega
      simp [hex_string, ih, this]

theorem hexident_exit (bbuf buf : List Nat) (L k : Nat) (hk : L ≤ 2 * k)
    (hinv : buf.take (2 * k) = hex_string (bbuf.take k)) :
    buf.take L = (hex_string bbuf).take L := by
  have h1 : buf.take L = (buf.take (2 * k)).take L := by
    rw [List.take_take, Nat.min_eq_left hk]
  rw [h1, hinv, hex_string_take, List.take_take, Nat.min_eq_left hk]

theorem hexident_step (bbuf buf : List Nat) (L k : Nat) (hlen : buf.length = L + 2)
    (hk : 2 * k < L) (hbb : L ≤ 2 * bbuf.length)
    (hinv : buf.take (2 * k) = hex_string (bbuf.take k)) :
    ∃ buf1, write_at buf (2 * k) (sprintf_02x (bbuf.getD (2 * k / 2) 0)) = some buf1 ∧
      buf1.length = L + 2 ∧ buf1.take (2 * (k + 1)) = hex_string (bbuf.take (k + 1)) := by
  have hkb : k < bbuf.length := by omega
  have hidx : 2 * k / 2 = k := by omega
  have hfit : 2 * k + (sprintf_02x (bbuf.getD (2 * k / 2) 0)).length ≤ buf.length := by
    simp [sprintf_02x]; omega
  refine ⟨_, by rw [write_at, if_pos hfit], ?_, ?_⟩
  · simp [sprintf_02x, hlen]; omega
  · have htk : (buf.take (2 * k)).length = 2 * k := by simp [hlen]; omega
    have hsucc : bbuf.take (k + 1) = bbuf.take k ++ [bbuf.getD k 0] := by
      rw [List.take_succ]
      simp [List.getD_eq_getElem?_getD, List.getElem?_eq_getElem hkb]
    rw [hsucc, hex_string_append, ← hinv, hidx]
    have h2 : 2 * (k + 1) = (buf.take (2 * k)).length + 2 := by omega
    rw [h2, List.append_assoc, List.take_append]
    simp [sprintf_02x, hex_string]

theorem hexident_loop_spec (bbuf : List Nat) (L : Nat) (hbb : L ≤ 2 * bbuf.length) :
    ∀ (fuel k : Nat) (buf : List Nat), buf.length = L + 2 →
      buf.take (2 * k) = hex_string (bbuf.take k) → L ≤ 2 * k + fuel →
      ∃ buf1, hexident_loop bbuf L fuel (2 * k) buf = some buf1 ∧
        buf1.length = L + 2 ∧ buf1.take L = (hex_string bbuf).take L := by
  intro fuel
  induction fuel with
  | zero =>
    intro k buf hlen hinv hfuel
    exact ⟨buf, rfl, hlen, hexident_exit bbuf buf L k (by omega) hinv⟩
  | succ fuel ih =>
    intro k buf hlen hinv hfuel
    by_cases hk : 2 * k < L
    · obtain ⟨buf1, hw, hlen1, hinv1⟩ := hexident_step bbuf buf L k hlen hk hbb hinv
      obtain ⟨buf2, hloop, hlen2, hres⟩ := ih (k + 1) buf1 hlen1 hinv1 (by omega)
      refine ⟨buf2, ?_, hlen2, hres⟩
      rw [hexident_loop, if_pos hk, hw]
      simpa [Nat.mul_add] using hloop
    · refine ⟨buf, ?_, hlen, hexident_exit bbuf buf L k (by omega) hinv⟩
      rw [hexident_loop, if_neg hk]

theorem c_string_prefix (x y : List Nat) (hx : NulFree x) :
    c_string (x ++ 0 :: y) = x := by
  induction x with
  | nil => simp [c_string]
  | cons b t ih =>
    have hb : b ≠ 0 := hx b (List.mem_cons_self _ _)
    have ht : NulFree t := fun c hc => hx c (List.mem_cons_of_mem _ hc)
    have := ih ht
    simp [c_string, List.takeWhile, hb] at this ⊢
    exact this

theorem c_string_set (buf : List Nat) (L : Nat) (hlen : L < buf.length)
    (hfree : NulFree (buf.take L)) :
    c_string (buf.set L 0) = buf.take L := by
  have h : buf.set L 0 = buf.take L ++ 0 :: buf.drop (L + 1) := by
    rw [List.set_eq_take_append_cons_drop, if_pos hlen]
  rw [h, c_string_prefix _ _ hfree]

theorem generated_ident_eq (e : FindSocketPath)
    (hsize : e.sun_path_size < 2 ^ 31) (hbase : e.run_base.length + 12 < 2 ^ 31)
    (hsha : ∀ m, (e.sha256 m).length = 32)
    (hm : (33 : Int) ≤ (e.sun_path_size : Int) - (e.run_base.length : Int) - 12) :
    generated_ident e
      = .ok ((hex_string (e.sha256 (ident_add_interp_script e.identsc e.interp e.script))).take
          (min 64 (e.sun_path_size - e.run_base.length - 12))) := by
  unfold generated_ident
  rw [maxidentlen_eq e.sun_path_size e.run_base hsize hbase]
  simp only [MINHEXHASH]
  rw [if_neg (by omega)]
  have hL : (if (e.sun_path_size : Int) - (e.run_base.length : Int) - 12 > 64 then (64 : Int)
      else (e.sun_path_size : Int) - (e.run_base.length : Int) - 12).toNat
      = min 64 (e.sun_path_size - e.run_base.length - 12) := by
    split <;> omega
  rw [hL]
  generalize hLdef : min 64 (e.sun_path_size - e.run_base.length - 12) = L
  have hL64 : L ≤ 64 := by omega
  obtain ⟨buf1, hloop, hlen1, htake⟩ :=
    hexident_loop_spec (e.sha256 (ident_add_interp_script e.identsc e.interp e.script)) L
      (by rw [hsha]; omega) L 0 ((List.range (L + 2)).map e.heap) (by simp)
      (by simp [hex_string]) (by omega)
  simp only [Nat.mul_zero] at hloop
  rw [hloop]
  simp only
  have hfree : NulFree (buf1.take L) := by
    rw [htake]
    intro b hb
    exact hex_string_nulfree _ b (List.mem_of_mem_take hb)
  rw [c_string_set buf1 L (by omega) hfree, htake]

/-- C7: the length of the generated ident. Without `-g`, for a base
directory and a `sizeof(sun_path)` within the range of `int`, and with
`m = sizeof(sun_path) - strlen(run_base) - 12`: if `m < 33` the function
`find_socket_path` dies with status 127; otherwise the ident is the first
`min(64, m)` characters of the lowercase hexadecimal text of the 32-byte
digest, whatever the memory held before, also when that length is odd; every
socket path that the function returns has an ident of at least 33 characters
and at most `sizeof(sun_path) - 10` bytes in all, and the function does
return when `mkdir` succeeds or finds the directory. -/
theorem find_socket_path_generated_ident (e : FindSocketPath) (hident : e.ident = none)
    (hsize : e.sun_path_size < 2 ^ 31) (hbase : e.run_base.length + 12 < 2 ^ 31)
    (hsha : ∀ m, (e.sha256 m).length = 32) :
    ((e.sun_path_size : Int) - (e.run_base.length : Int) - 12 < 33 →
      ∃ f, find_socket_path e = .error f ∧ f.status = 127) ∧
    ((33 : Int) ≤ (e.sun_path_size : Int) - (e.run_base.length : Int) - 12 →
      generated_ident e
        = .ok ((hex_string (e.sha256 (ident_add_interp_script e.identsc e.interp e.script))).take
            (min 64 (e.sun_path_size - e.run_base.length - 12))) ∧
      (∀ r, find_socket_path e = .ok r →
        r.ident
          = (hex_string (e.sha256 (ident_add_interp_script e.identsc e.interp e.script))).take
              (min 64 (e.sun_path_size - e.run_base.length - 12)) ∧
        33 ≤ r.ident.length ∧
        r.socket_path = e.run_base ++ [ch_slash, ch_s] ++ r.ident ∧
        r.socket_path.length ≤ e.sun_path_size - 10) ∧
      (e.mkdir_run_base = .ok () ∨ e.mkdir_run_base = .error .EEXIST →
        ∃ r, find_socket_path e = .ok r)) := by
  constructor
  · intro hm
    have hgen : generated_ident e = .error (die ("base directory `%s' leaves only %d characters for id hash" ++
        " which is too little (<%d)")) := by
      unfold generated_ident
      rw [maxidentlen_eq e.sun_path_size e.run_base hsize hbase]
      simp only [MINHEXHASH]
      rw [if_pos hm]
    refine ⟨die ("base directory `%s' leaves only %d characters for id hash" ++
        " which is too little (<%d)"), ?_, rfl⟩
    unfold find_socket_path
    simp only [hident, hgen]
  · intro hm
    have hgen := generated_ident_eq e hsize hbase hsha hm
    have hlen : ((hex_string (e.sha256 (ident_add_interp_script e.identsc e.interp
        e.script))).take (min 64 (e.sun_path_size - e.run_base.length - 12))).length
        = min 64 (e.sun_path_size - e.run_base.length - 12) := by
      rw [List.length_take, hex_string_length, hsha]; omega
    have hcmp : ¬ (min 64 (e.sun_path_size - e.run_base.length - 12)
        > int_to_size_t ((e.sun_path_size : Int) - (e.run_base.length : Int) - 12)) := by
      unfold int_to_size_t; omega
    refine ⟨hgen, ?_, ?_⟩
    · intro r hr
      unfold find_socket_path at hr
      rw [maxidentlen_eq e.sun_path_size e.run_base hsize hbase] at hr
      simp only [hident, hgen, hlen, hcmp, ↓reduceIte] at hr
      have hr' : r = ⟨(hex_string (e.sha256 (ident_add_interp_script e.identsc e.interp
          e.script))).take (min 64 (e.sun_path_size - e.run_base.length - 12)),
          e.run_base ++ [ch_slash, ch_s] ++ (hex_string (e.sha256 (ident_add_interp_script
            e.identsc e.interp e.script))).take
              (min 64 (e.sun_path_size - e.run_base.length - 12))⟩ := by
        split at hr
        · cases hr
        · cases hr; rfl
        · cases hr; rfl
        · cases hr
      subst hr'
      refine ⟨rfl, ?_, rfl, ?_⟩
      · rw [hlen]; omega
      · simp only [List.length_append, hlen, List.length_cons, List.length_nil]; omega
    · intro hmk
      unfold find_socket_path
      rw [maxidentlen_eq e.sun_path_size e.run_base hsize hbase]
      simp only [hident, hgen, hlen, hcmp, ↓reduceIte]
      rcases hmk with h | h <;> rw [h] <;> exact ⟨_, rfl⟩

/-- C7 at `sample_find_generated`, where `m` is 63, an odd number: the
function returns, and the ident of what it returns has 63 characters. -/
theorem find_socket_path_generated_ident_witness :
    (∃ r, find_socket_path sample_find_generated = .ok r) ∧
    ∀ r, find_socket_path sample_find_generated = .ok r →
      r.ident
        = (hex_string (sample_find_generated.sha256 (ident_add_interp_script
            sample_find_generated.identsc sample_find_generated.interp
            sample_find_generated.script))).take
            (min 64 (sample_find_generated.sun_path_size
              - sample_find_generated.run_base.length - 12)) ∧
      33 ≤ r.ident.length ∧
      r.socket_path = sample_find_generated.run_base ++ [ch_slash, ch_s] ++ r.ident ∧
      r.socket_path.length ≤ sample_find_generated.sun_path_size - 10 :=
  ⟨((find_socket_path_generated_ident sample_find_generated rfl (by decide) (by decide)
      (fun m => by simp [sample_find_generated, sample_sha256])).2 (by decide)).2.2
      (Or.inr rfl),
   ((find_socket_path_generated_ident sample_find_generated rfl (by decide) (by decide)
      (fun m => by simp [sample_find_generated, sample_sha256])).2 (by decide)).2.1⟩

/-- C8 (the code at the failing input): with `-g x` and a base directory of
100 bytes, `strlen(run_base) + strlen(ident) + 12` is 113, more than
`sizeof(sun_path)` = 108, and `maxidentlen` is -4; the comparison
`strlen(ident) > maxidentlen` is made in `size_t`, where -4 is
18446744073709551612, so `find_socket_path` does not die and returns a
socket path of 103 bytes. -/
theorem find_socket_path_long_base_accepted :
    sample_find_long_base.run_base.length + 1 + 12 = 113 ∧
    maxidentlen 108 sample_find_long_base.run_base = -4 ∧
    int_to_size_t (maxidentlen 108 sample_find_long_base.run_base) = 18446744073709551612 ∧
    find_socket_path sample_find_long_base
      = .ok ⟨[120], sample_find_long_base.run_base ++ [ch_slash, ch_s, 120]⟩ ∧
    (sample_find_long_base.run_base ++ [ch_slash, ch_s, 120]).length = 103 := by
  decide

/-- With `-g`, an ident longer than a budget that is not negative is
refused: `find_socket_path` dies with status 127 and truncates nothing. -/
theorem find_socket_path_ident_too_long (e : FindSocketPath) (ident : CStr)
    (hident : e.ident = some ident)
    (hsize : e.sun_path_size < 2 ^ 31) (hbase : e.run_base.length + 12 < 2 ^ 31)
    (hm : e.run_base.length + 12 ≤ e.sun_path_size)
    (hlong : e.run_base.length + ident.length + 12 > e.sun_path_size) :
    ∃ f, find_socket_path e = .error f ∧ f.status = 127 := by
  refine ⟨die ("base directory `%s' plus ident `%s' too long" ++
        " (with spare) for socket (max ident %d)\n"), ?_, rfl⟩
  unfold find_socket_path
  rw [maxidentlen_eq e.sun_path_size e.run_base hsize hbase]
  have hcmp : ident.length
      > int_to_size_t ((e.sun_path_size : Int) - (e.run_base.length : Int) - 12) := by
    unfold int_to_size_t; omega
  simp only [hident, hcmp, ↓reduceIte]

/-! ## The greeting and `connect_existing` (prefork-interp.c) -/

theorem protocol_read_maybe_magic (magic rest : List Nat) (ending : StreamEnd)
    (hlen : magic.length = 4) :
    protocol_read_maybe ⟨magic ++ rest, ending⟩ header_magic.length
      = .ok (.got magic, ⟨rest, ending⟩) := by
  have h4 : header_magic.length = 4 := rfl
  have hle : 4 ≤ (magic ++ rest).length := by simp [hlen]
  have ht : (magic ++ rest).take 4 = magic := by
    rw [← hlen]; simp
  have hd : (magic ++ rest).drop 4 = rest := by
    rw [← hlen]; simp
  unfold protocol_read_maybe
  rw [h4, if_neg (by decide), if_pos hle, ht, hd]

theorem read_greeting_bad_magic_dies (little_endian : Bool) (magic rest : List Nat)
    (ending : StreamEnd) (hlen : magic.length = 4) (hbad : magic ≠ header_magic) :
    read_greeting little_endian ⟨magic ++ rest, ending⟩
      = .error (die "got unexpected protocol magic 0x%02x%02x%02x%02x") := by
  unfold read_greeting
  rw [protocol_read_maybe_magic magic rest ending hlen]
  simp [hbad]

/-- C10: a bad magic is always fatal. For every four bytes received as the
magic that differ from "PFI\n", whatever follows them, `read_greeting` ends
the client with status 127: it does not return an error message. So
`connect_existing` on an existing socket dies too instead of returning "is
garbage", and so does the client that reads the greeting of the server it
has just spawned. -/
theorem read_greeting_bad_magic (little_endian : Bool) (magic rest : List Nat)
    (ending : StreamEnd) (hlen : magic.length = 4) (hbad : magic ≠ header_magic) :
    (∃ f, read_greeting little_endian ⟨magic ++ rest, ending⟩ = .error f ∧ f.status = 127) ∧
    (∀ (k : ConnectAnswers) (fd : Nat) (call_sock : Option OpenSock),
      k.socket_res = .ok fd → k.connect_res = .ok () → k.fdopen_ok = true →
      k.setvbuf_ok = true → k.peer = ⟨magic ++ rest, ending⟩ →
      ∃ f, connect_existing little_endian .MODE_NORMAL call_sock k = .error f ∧
        f.status = 127) ∧
    (∃ f, spawned_read_greeting little_endian ⟨magic ++ rest, ending⟩ = .error f ∧
      f.status = 127) := by
  have h := read_greeting_bad_magic_dies little_endian magic rest ending hlen hbad
  refine ⟨⟨_, h, rfl⟩, ?_, ⟨die "got unexpected protocol magic 0x%02x%02x%02x%02x", ?_, rfl⟩⟩
  · intro k fd call_sock hs hc hf hv hp
    refine ⟨die "got unexpected protocol magic 0x%02x%02x%02x%02x", ?_, rfl⟩
    unfold connect_existing
    simp [hs, hc, hf, hv, hp, h]
  · unfold spawned_read_greeting
    simp [h]

/-- C10 at a concrete input: the peer sends "PFJ\n" and then a well-formed
rest; the client dies with status 127. -/
theorem read_greeting_bad_magic_witness :
    ([80, 70, 74, 10] : List Nat).length = 4 ∧ [80, 70, 74, 10] ≠ header_magic ∧
    (∃ f, read_greeting true ⟨[80, 70, 74, 10] ++ [0, 0, 0, 0], .eof⟩ = .error f ∧
      f.status = 127) ∧
    connect_existing true .MODE_NORMAL none
        ⟨.ok 3, .ok (), true, true, ⟨[80, 70, 74, 10, 0, 0, 0, 0], .eof⟩⟩
      = .error ⟨127, "got unexpected protocol magic 0x%02x%02x%02x%02x"⟩ :=
  ⟨by decide, by decide,
   (read_greeting_bad_magic true [80, 70, 74, 10] [0, 0, 0, 0] .eof (by decide) (by decide)).1,
   by decide⟩

theorem protocol_read_not_eof (sock : CallSock) (sz : Nat) (bytes : List Nat)
    (sock1 : CallSock) (h : protocol_read sock sz = .ok (bytes, sock1)) :
    protocol_read_maybe sock sz = .ok (.got bytes, sock1) := by
  unfold protocol_read at h
  split at h
  · cases h
  · cases h
  · cases h; assumption

theorem read_greeting_garbage_iff (little_endian : Bool) (sock : CallSock) :
    (∃ msg sock1, read_greeting little_endian sock = .ok (some msg, sock1)) ↔
      sock.data.length < 4 ∧ was_eof sock.ending = true := by
  have h4 : header_magic.length = 4 := rfl
  unfold read_greeting
  rw [h4]
  by_cases hle : 4 ≤ sock.data.length
  · have h1 : protocol_read_maybe sock 4
        = .ok (.got (sock.data.take 4), { sock with data := sock.data.drop 4 }) := by
      unfold protocol_read_maybe
      rw [if_neg (by decide), if_pos hle]
    rw [h1]
    simp only
    constructor
    · rintro ⟨msg, sock1, h⟩
      exfalso
      split at h
      · cases h
      · split at h
        · cases h
        · split at h
          · cases h
          · cases h
    · rintro ⟨hlt, -⟩
      omega
  · have hlt : sock.data.length < 4 := by omega
    by_cases he : was_eof sock.ending = true
    · have h1 : protocol_read_maybe sock 4 = .ok (.eof, { sock with data := [] }) := by
        unfold protocol_read_maybe
        rw [if_neg (by decide), if_neg hle, if_pos he]
      rw [h1]
      simp [hlt, he]
    · have h1 : protocol_read_maybe sock 4
          = .error (diee "read() on monitor call socket (%zd)") := by
        unfold protocol_read_maybe
        rw [if_neg (by decide), if_neg hle, if_neg he]
      rw [h1]
      simp [he]

theorem was_eof_iff (ending : StreamEnd) :
    was_eof ending = true ↔ ending = .eof ∨ ending = .error .ECONNRESET := by
  cases ending with
  | eof => simp [was_eof]
  | error e => cases e <;> simp [was_eof]

/-- C9: the expected absences in `connect_existing` (normal mode, the
variable `call_sock` unset at entry as at both calls, `socket` has given the
descriptor `fd`). The function returns 0 ("no server") without ending the
client exactly when `connect` fails with ECONNREFUSED or ENOENT, or when the
connection is made and the peer's stream ends by end of file or ECONNRESET
before four bytes of magic have come. Every other failure of `connect` ends
the client with status 127. When 0 is returned the descriptor has been
closed and `call_sock` is unset. -/
theorem connect_existing_no_server (little_endian : Bool) (k : ConnectAnswers) (fd : Nat)
    (hsock : k.socket_res = .ok fd) :
    ((∃ r, connect_existing little_endian .MODE_NORMAL none k = .ok r ∧ r.returned = none) ↔
      (k.connect_res = .error .ECONNREFUSED ∨ k.connect_res = .error .ENOENT ∨
        (k.connect_res = .ok () ∧ k.fdopen_ok = true ∧ k.setvbuf_ok = true ∧
          k.peer.data.length < 4 ∧
          (k.peer.ending = .eof ∨ k.peer.ending = .error .ECONNRESET)))) ∧
    (∀ e, k.connect_res = .error e → e ≠ .ECONNREFUSED → e ≠ .ENOENT →
      ∃ f, connect_existing little_endian .MODE_NORMAL none k = .error f ∧ f.status = 127) ∧
    (∀ r, connect_existing little_endian .MODE_NORMAL none k = .ok r → r.returned = none →
      r.call_sock = none ∧ r.closed = [fd]) := by
  obtain ⟨sres, cres, fo, sv, peer⟩ := k
  simp only at hsock
  subst hsock
  have hg := read_greeting_garbage_iff little_endian peer
  rw [was_eof_iff] at hg
  refine ⟨?_, ?_, ?_⟩
  · cases cres with
    | error e => cases e <;> simp [connect_existing, connect_existing_garbage, diee]
    | ok u =>
      cases fo <;> cases sv <;> simp only [connect_existing, ne_eq, not_true_eq_false,
        ↓reduceIte, Bool.not_false, Bool.not_true, Bool.false_eq_true, reduceCtorEq,
        false_and, exists_false, and_false, or_false, false_or, true_and, and_self]
      rw [← hg]
      constructor
      · rintro ⟨r, h, hr⟩
        split at h
        · cases h
        · rename_i msg sock1 heq
          exact ⟨_, _, heq⟩
        · cases h; cases hr
      · rintro ⟨msg, sock1, heq⟩
        rw [heq]
        exact ⟨_, rfl, rfl⟩
  · intro e he h1 h2
    simp only at he
    subst he
    refine ⟨diee "connect() %s", ?_, rfl⟩
    cases e <;> simp_all [connect_existing]
  · intro r h hr
    cases cres with
    | error e =>
      cases e <;> simp [connect_existing, connect_existing_garbage] at h <;>
        (subst h; exact ⟨rfl, rfl⟩)
    | ok u =>
      cases fo <;> cases sv <;> simp only [connect_existing, ne_eq, not_true_eq_false,
        ↓reduceIte, Bool.not_false, Bool.not_true, Bool.false_eq_true, reduceCtorEq] at h
      split at h
      · cases h
      · cases h; exact ⟨rfl, rfl⟩
      · cases h; cases hr

/-- C9 at concrete inputs: a peer that closes after two bytes of magic gives
"no server" with descriptor 3 closed, and so does a refused connection; a
connection that fails with EACCES ends the client with status 127. -/
theorem connect_existing_no_server_witness :
    (∃ r, connect_existing true .MODE_NORMAL none
        ⟨.ok 3, .ok (), true, true, ⟨[80, 70], .eof⟩⟩ = .ok r ∧ r.returned = none) ∧
    connect_existing true .MODE_NORMAL none ⟨.ok 3, .ok (), true, true, ⟨[80, 70], .eof⟩⟩
      = .ok ⟨none, none, [3]⟩ ∧
    connect_existing true .MODE_NORMAL none
        ⟨.ok 3, .error .ECONNREFUSED, true, true, ⟨[], .eof⟩⟩
      = .ok ⟨none, none, [3]⟩ ∧
    connect_existing true .MODE_NORMAL none ⟨.ok 3, .error .EACCES, true, true, ⟨[], .eof⟩⟩
      = .error ⟨127, "connect() %s"⟩ :=
  ⟨(connect_existing_no_server true ⟨.ok 3, .ok (), true, true, ⟨[80, 70], .eof⟩⟩ 3 rfl).1.mpr
      (Or.inr (Or.inr ⟨rfl, rfl, rfl, by decide, Or.inl rfl⟩)),
   by decide, by decide, by decide⟩

/-! ## The wait status (prefork-interp.c) -/

theorem wexitstatus_bits (s : Nat) : WEXITSTATUS s = (s >>> 8) &&& 0xff := by
  unfold WEXITSTATUS
  rw [Nat.shiftRight_eq_div_pow]
  have h := Nat.and_pow_two_sub_one_eq_mod (s / 2 ^ 8) 8
  norm_num at h ⊢
  exact h.symm

theorem protocol_read_four (b0 b1 b2 b3 : Nat) (rest : List Nat) (ending : StreamEnd) :
    protocol_read ⟨b0 :: b1 :: b2 :: b3 :: rest, ending⟩ 4
      = .ok ([b0, b1, b2, b3], ⟨rest, ending⟩) := by
  simp [protocol_read, protocol_read_maybe]

theorem main_read_status_eq (b0 b1 b2 b3 : Nat) (rest : List Nat) (ending : StreamEnd)
    (k : SignalAnswers) :
    main_read_status ⟨b0 :: b1 :: b2 :: b3 :: rest, ending⟩ k
      = if 16777216 * b0 + 65536 * b1 + 256 * b2 + b3 > INT_MAX then
          ⟨[], .fatal (die "status 0x%lx does not fit in an int")⟩
        else propagate_exit_status (16777216 * b0 + 65536 * b1 + 256 * b2 + b3) k := by
  unfold main_read_status
  rw [protocol_read_four]
  simp [uint32_of_bytes]

/-- C12: propagation of a normal exit status. The client reads the four
status bytes `b0 b1 b2 b3` and takes them as the big-endian 32-bit value
`s`. If
`s > INT_MAX` it dies with status 127. Otherwise, if the low 7 bits of `s`
are zero (`WIFEXITED`), it makes no call about signals and exits with
exactly `(s >> 8) & 0xff`. -/
theorem main_read_status_exited (b0 b1 b2 b3 : Nat) (rest : List Nat) (ending : StreamEnd)
    (k : SignalAnswers) :
    (16777216 * b0 + 65536 * b1 + 256 * b2 + b3 > INT_MAX →
      ∃ f, main_read_status ⟨b0 :: b1 :: b2 :: b3 :: rest, ending⟩ k = ⟨[], .fatal f⟩ ∧
        f.status = 127) ∧
    (16777216 * b0 + 65536 * b1 + 256 * b2 + b3 ≤ INT_MAX →
      (16777216 * b0 + 65536 * b1 + 256 * b2 + b3) % 128 = 0 →
      main_read_status ⟨b0 :: b1 :: b2 :: b3 :: rest, ending⟩ k
        = ⟨[], .exited (((16777216 * b0 + 65536 * b1 + 256 * b2 + b3) >>> 8) &&& 0xff)⟩) := by
  rw [main_read_status_eq]
  constructor
  · intro h
    exact ⟨die "status 0x%lx does not fit in an int", by rw [if_pos h], rfl⟩
  · intro h hex
    rw [if_neg (by omega)]
    unfold propagate_exit_status
    have : WIFEXITED (16777216 * b0 + 65536 * b1 + 256 * b2 + b3) = true := by
      simp [WIFEXITED, WTERMSIG, hex]
    rw [if_pos this, wexitstatus_bits]

/-- C12 at concrete inputs: the status bytes 00 00 03 00 make the client
exit with status 3, and the bytes 80 00 03 00 (more than `INT_MAX`) make it
die with status 127. -/
theorem main_read_status_exited_witness :
    main_read_status ⟨0 :: 0 :: 3 :: 0 :: [], .eof⟩ usual_signals
      = ⟨[], .exited (((16777216 * 0 + 65536 * 0 + 256 * 3 + 0) >>> 8) &&& 0xff)⟩ ∧
    (((16777216 * 0 + 65536 * 0 + 256 * 3 + 0) >>> 8) &&& 0xff) = 3 ∧
    main_read_status ⟨128 :: 0 :: 3 :: 0 :: [], .eof⟩ usual_signals
      = ⟨[], .fatal ⟨127, "status 0x%lx does not fit in an int"⟩⟩ :=
  ⟨(main_read_status_exited 0 0 3 0 [] .eof usual_signals).2 (by decide) (by decide),
   by decide, by decide⟩

theorem wifsignaled_iff (status : Nat) :
    WIFSIGNALED status = true ↔ 1 ≤ status % 128 ∧ status % 128 ≤ 126 := by
  unfold WIFSIGNALED
  simp only [decide_eq_true_eq]
  split <;> omega

/-- C13: the allow-list of signal propagation. For a wait status that
reports termination by the signal `sig`, where `sigaction` and
`sigprocmask` succeed (as they do for these signals):
`propagate_exit_status` raises `sig` on the client exactly when the core-dump
flag is clear and `sig` is SIGINT, SIGTERM, SIGHUP, SIGPIPE or SIGKILL, after
resetting the disposition and unblocking the signal, two steps that are left
out for SIGKILL, and the client then dies of the signal. For every other
signalled status, and for every status that is neither exited nor signalled,
no call about signals is made and the client ends with status 127. -/
theorem propagate_exit_status_allow_list (status : Nat) (k : SignalAnswers)
    (hsa : k.sigaction_res = .ok ()) (hsp : k.sigprocmask_res = .ok ()) :
    (WIFSIGNALED status = true →
      ((.raise (WTERMSIG status) ∈ (propagate_exit_status status k).calls ↔
          WCOREDUMP status = false ∧
            (WTERMSIG status = SIGINT ∨ WTERMSIG status = SIGTERM ∨ WTERMSIG status = SIGHUP ∨
              WTERMSIG status = SIGPIPE ∨ WTERMSIG status = SIGKILL)) ∧
        (WCOREDUMP status = false →
          (WTERMSIG status = SIGINT ∨ WTERMSIG status = SIGTERM ∨ WTERMSIG status = SIGHUP ∨
            WTERMSIG status = SIGPIPE) →
          (propagate_exit_status status k).calls
            = [.sigaction_dfl (WTERMSIG status), .sigprocmask_unblock (WTERMSIG status),
                .raise (WTERMSIG status)] ∧
          (k.raise_returns = false →
            (propagate_exit_status status k).ending = .signalled (WTERMSIG status))) ∧
        (WCOREDUMP status = false → WTERMSIG status = SIGKILL →
          (propagate_exit_status status k).calls = [.raise SIGKILL] ∧
          (k.raise_returns = false →
            (propagate_exit_status status k).ending = .signalled SIGKILL)) ∧
        (¬ (WCOREDUMP status = false ∧
            (WTERMSIG status = SIGINT ∨ WTERMSIG status = SIGTERM ∨ WTERMSIG status = SIGHUP ∨
              WTERMSIG status = SIGPIPE ∨ WTERMSIG status = SIGKILL)) →
          ∃ f, propagate_exit_status status k = ⟨[], .fatal f⟩ ∧ f.status = 127))) ∧
    (WIFEXITED status = false → WIFSIGNALED status = false →
      ∃ f, propagate_exit_status status k = ⟨[], .fatal f⟩ ∧ f.status = 127) := by
  obtain ⟨sa, sp, rr⟩ := k
  simp only at hsa hsp
  subst hsa; subst hsp
  constructor
  · intro hsig
    have hne : WIFEXITED status = false := by
      have := (wifsignaled_iff status).mp hsig
      simp [WIFEXITED, WTERMSIG]; omega
    by_cases hcore : WCOREDUMP status = true
    · have hprop : propagate_exit_status status ⟨.ok (), .ok (), rr⟩
          = ⟨[], .fatal (die "%s failed due to signal %d %s%s")⟩ := by
        simp [propagate_exit_status, hne, hsig, hcore]
      rw [hprop]
      simp [hcore, die]
    · have hcore' : WCOREDUMP status = false := by simpa using hcore
      by_cases hkill : WTERMSIG status = SIGKILL
      · have hprop : propagate_exit_status status ⟨.ok (), .ok (), rr⟩
            = if rr = true then
                ⟨[.raise SIGKILL],
                  .fatal (die "unexpectedly kept running after raising (to propagate) %s")⟩
              else ⟨[.raise SIGKILL], .signalled SIGKILL⟩ := by
          simp [propagate_exit_status, hne, hsig, hcore', hkill]
        rw [hprop, hkill]
        cases rr <;> simp [hcore', SIGKILL, SIGINT, SIGTERM, SIGHUP, SIGPIPE]
      · by_cases hallow : WTERMSIG status = SIGINT ∨ WTERMSIG status = SIGTERM ∨
            WTERMSIG status = SIGHUP ∨ WTERMSIG status = SIGPIPE
        · have hprop : propagate_exit_status status ⟨.ok (), .ok (), rr⟩
              = if rr = true then
                  ⟨[.sigaction_dfl (WTERMSIG status), .sigprocmask_unblock (WTERMSIG status),
                      .raise (WTERMSIG status)],
                    .fatal (die "unexpectedly kept running after raising (to propagate) %s")⟩
                else
                  ⟨[.sigaction_dfl (WTERMSIG status), .sigprocmask_unblock (WTERMSIG status),
                      .raise (WTERMSIG status)], .signalled (WTERMSIG status)⟩ := by
            have hb : (WTERMSIG status == SIGINT || WTERMSIG status == SIGTERM ||
                WTERMSIG status == SIGHUP || WTERMSIG status == SIGPIPE ||
                WTERMSIG status == SIGKILL) = true := by
              simp only [Bool.or_eq_true, beq_iff_eq]
              tauto
            simp [propagate_exit_status, hne, hsig, hcore', hkill, hb]
          rw [hprop]
          cases rr <;> simp [hcore', hkill, hallow]
        · have hb : (WTERMSIG status == SIGINT || WTERMSIG status == SIGTERM ||
              WTERMSIG status == SIGHUP || WTERMSIG status == SIGPIPE ||
              WTERMSIG status == SIGKILL) = false := by
            simp only [Bool.or_eq_false_iff, beq_eq_false_iff_ne, ne_eq]
            tauto
          have hprop : propagate_exit_status status ⟨.ok (), .ok (), rr⟩
              = ⟨[], .fatal (die "%s failed due to signal %d %s%s")⟩ := by
            simp [propagate_exit_status, hne, hsig, hcore', hb]
          rw [hprop]
          simp [hcore', hkill, die]
          tauto
  · intro hne hns
    exact ⟨die "%s failed with weird wait status %d 0x%x",
      by simp [propagate_exit_status, hne, hns], rfl⟩

/-- C13 at concrete inputs: a program killed by SIGINT (status 2) makes the
client reset, unblock and raise signal 2 and die of it; SIGKILL (status 9)
is raised at once; SIGSEGV (status 11), SIGINT with a core dump (status 130)
and a stopped status (0x137f) end the client with status 127. -/
theorem propagate_exit_status_allow_list_witness :
    ((propagate_exit_status 2 usual_signals).calls
        = [.sigaction_dfl (WTERMSIG 2), .sigprocmask_unblock (WTERMSIG 2), .raise (WTERMSIG 2)] ∧
      (usual_signals.raise_returns = false →
        (propagate_exit_status 2 usual_signals).ending = .signalled (WTERMSIG 2))) ∧
    propagate_exit_status 9 usual_signals = ⟨[.raise 9], .signalled 9⟩ ∧
    propagate_exit_status 11 usual_signals
      = ⟨[], .fatal ⟨127, "%s failed due to signal %d %s%s"⟩⟩ ∧
    propagate_exit_status 130 usual_signals
      = ⟨[], .fatal ⟨127, "%s failed due to signal %d %s%s"⟩⟩ ∧
    propagate_exit_status 0x137f usual_signals
      = ⟨[], .fatal ⟨127, "%s failed with weird wait status %d 0x%x"⟩⟩ :=
  ⟨((propagate_exit_status_allow_list 2 usual_signals rfl rfl).1 (by decide)).2.1 (by decide)
      (Or.inl (by decide)),
   by decide, by decide, by decide, by decide⟩

/-! ## The extension data of the greeting (prefork-interp.c) -/

theorem uint32_of_htonl_bytes (L : Nat) (hL : L < 2 ^ 32) :
    uint32_of_bytes false (htonl_bytes L) = L := by
  simp [uint32_of_bytes, htonl_bytes]
  omega

theorem protocol_read_prefix (data rest : List Nat) (ending : StreamEnd) :
    protocol_read ⟨data ++ rest, ending⟩ data.length = .ok (data, ⟨rest, ending⟩) := by
  unfold protocol_read protocol_read_maybe
  by_cases h0 : data.length = 0
  · have : data = [] := List.length_eq_zero.mp h0
    subst this
    simp
  · simp [h0]

/-- On a big-endian host `read_greeting` consumes the magic, the length
`L` and `L` bytes of extension data, and leaves the stream at the byte after
them. -/
theorem read_greeting_big_endian_host (L : Nat) (hL : L < 2 ^ 32) (ext rest : List Nat)
    (hext : ext.length = L) (ending : StreamEnd) :
    read_greeting false ⟨header_magic ++ (htonl_bytes L ++ (ext ++ rest)), ending⟩
      = .ok (none, ⟨rest, ending⟩) := by
  unfold read_greeting
  rw [protocol_read_maybe_magic header_magic _ ending rfl]
  simp only [ne_eq, not_true_eq_false, ↓reduceIte]
  have h4 : (htonl_bytes L).length = 4 := rfl
  have h1 := protocol_read_prefix (htonl_bytes L) (ext ++ rest) ending
  rw [h4] at h1
  rw [h1]
  simp only
  rw [uint32_of_htonl_bytes L hL, ← hext, protocol_read_prefix]

/-- C11 (the code at the failing input): on a little-endian host the call
socket delivers the magic, the big-endian length 1 (bytes 00 00 00 01), one
byte of extension data and the four bytes of the status word. The function
`read_greeting` takes the four length bytes as they lie in memory, without
`ntohl`, so that `xdata_len` is 16777216; it finds the stream too short and
dies with "monitor process quit unexpectedly", where 8 + 1 bytes should
have been consumed. The same bytes are read as meant on a big-endian
host. -/
theorem read_greeting_extension_host_order :
    uint32_of_bytes true [0, 0, 0, 1] = 16777216 ∧
    read_greeting true ⟨header_magic ++ [0, 0, 0, 1] ++ [88] ++ [0, 0, 0, 0], .eof⟩
      = .error ⟨127, "monitor process quit unexpectedly"⟩ ∧
    read_greeting false ⟨header_magic ++ [0, 0, 0, 1] ++ [88] ++ [0, 0, 0, 0], .eof⟩
      = .ok (none, ⟨[0, 0, 0, 0], .eof⟩) := by
  decide

/-! ## The arguments in the request message (prefork-interp.c) -/

/-- The strings after the terminator in the request message are the whole
of `executor_argv`: the interpreter, the script if there is one, and then
the caller's arguments. -/
theorem request_arguments_eq (environ argv : List CStr) (interp : CStr)
    (script : Option CStr)
    (henv : ∀ s ∈ environ, NulFree s) (hargv : ∀ s ∈ argv, NulFree s)
    (hinterp : NulFree interp) (hscript : ∀ s, script = some s → NulFree s) :
    ∃ executor_argv body,
      make_executor_argv .MEDIATION_UNLAUNDERED interp script argv = .ok executor_argv ∧
      prepare_message ⟨none, some []⟩ environ executor_argv = .ok ⟨none, some body⟩ ∧
      (decode_message body).2 = interp :: (script.toList ++ argv) := by
  have hex : ∀ s ∈ interp :: (script.toList ++ argv), NulFree s := by
    intro s hs
    simp only [List.mem_cons, List.mem_append, Option.mem_toList, Option.mem_def] at hs
    rcases hs with rfl | hs | hs
    · exact hinterp
    · exact hscript s hs
    · exact hargv s hs
  have hfil : ∀ s ∈ environ.filter (fun s => decide (ch_equals ∈ s)), NulFree s :=
    fun s hs => henv s (List.mem_of_mem_filter hs)
  have hne : ∀ s ∈ environ.filter (fun s => decide (ch_equals ∈ s)),
      (!s.isEmpty) = true := by
    intro s hs
    have := (List.mem_filter.mp hs).2
    cases s with
    | nil => simp at this
    | cons a t => simp
  refine ⟨interp :: (script.toList ++ argv), _, ?_, prepare_message_fill _ _ _, ?_⟩
  · cases script <;> simp [make_executor_argv]
  · unfold decode_message
    rw [List.nil_append, split_nul_message _ _ hfil hex]
    simp only
    rw [List.dropWhile_append_of_pos hne]
    simp

/-- C14 (the code at the failing input): the caller runs
`prefork-interp -U perl /x a` with `A=1` in the environment. The vector
`executor_argv` is `perl`, `/x`, `a`, and `prepare_message` sends all of it:
the strings after the empty string in the message are `perl`, `/x`, `a`,
where only `a` is an argument after the script. -/
theorem request_arguments_include_interp_and_script :
    make_executor_argv .MEDIATION_UNLAUNDERED [112, 101, 114, 108] (some [47, 120]) [[97]]
      = .ok [[112, 101, 114, 108], [47, 120], [97]] ∧
    prepare_message ⟨none, some []⟩ [[65, 61, 49]] [[112, 101, 114, 108], [47, 120], [97]]
      = .ok ⟨none, some [65, 61, 49, 0, 0, 112, 101, 114, 108, 0, 47, 120, 0, 97, 0]⟩ ∧
    decode_message [65, 61, 49, 0, 0, 112, 101, 114, 108, 0, 47, 120, 0, 97, 0]
      = ([[65, 61, 49]], [[112, 101, 114, 108], [47, 120], [97]]) := by
  decide

/-! ## The length prefix of the request message (prefork-interp.c) -/

theorem prepare_data_size (l : Nat) (d : List Nat) :
    prepare_data ⟨some l, none⟩ d
      = if l + d.length ≥ SIZE_MAX then .error die_data_overflow
        else .ok ⟨some (l + d.length), none⟩ := by
  unfold prepare_data
  simp only [Option.map_none']
  by_cases h : l + d.length ≥ SIZE_MAX
  · rw [if_pos h, if_pos (by omega)]
  · rw [if_neg h, if_neg (by omega)]

theorem prepare_argv_size (args : List CStr) (l : Nat) (hl : l < SIZE_MAX) :
    prepare_argv ⟨some l, none⟩ args
      = if l + (args.map fun s => s.length + 1).sum ≥ SIZE_MAX then .error die_data_overflow
        else .ok ⟨some (l + (args.map fun s => s.length + 1).sum), none⟩ := by
  induction args generalizing l with
  | nil =>
    simp only [prepare_argv, List.map_nil, List.sum_nil, Nat.add_zero]
    rw [if_neg (by omega)]
  | cons s p ih =>
    simp only [prepare_argv, prepare_string, prepare_data_size, List.length_append,
      List.length_singleton, List.map_cons, List.sum_cons]
    by_cases h : l + (s.length + 1) ≥ SIZE_MAX
    · rw [if_pos h, if_pos (by omega)]
    · rw [if_neg h]
      simp only
      rw [ih _ (by omega)]
      simp only [Nat.add_assoc]

theorem prepare_environ_size (env : List CStr) (l : Nat) (hl : l < SIZE_MAX) :
    prepare_environ ⟨some l, none⟩ env
      = if l + ((env.filter fun s => decide (ch_equals ∈ s)).map fun s => s.length + 1).sum
            ≥ SIZE_MAX then .error die_data_overflow
        else .ok ⟨some (l + ((env.filter fun s => decide (ch_equals ∈ s)).map
            fun s => s.length + 1).sum), none⟩ := by
  induction env generalizing l with
  | nil =>
    simp only [prepare_environ, List.filter_nil, List.map_nil, List.sum_nil, Nat.add_zero]
    rw [if_neg (by omega)]
  | cons s p ih =>
    by_cases hs : ch_equals ∈ s
    · simp only [prepare_environ, hs, ↓reduceIte, prepare_string, prepare_data_size,
        List.length_append, List.length_singleton, decide_True, List.filter_cons_of_pos,
        List.map_cons, List.sum_cons]
      by_cases h : l + (s.length + 1) ≥ SIZE_MAX
      · rw [if_pos h, if_pos (by omega)]
      · rw [if_neg h]
        simp only
        rw [ih _ (by omega)]
        simp only [Nat.add_assoc]
    · simp only [prepare_environ, hs, ↓reduceIte, decide_False, Bool.false_eq_true,
        not_false_eq_true, List.filter_cons_of_neg]
      exact ih l hl

theorem prepare_message_size (environ executor_argv : List CStr) :
    prepare_message ⟨some 0, none⟩ environ executor_argv
      = if message_length environ executor_argv ≥ SIZE_MAX then .error die_data_overflow
        else .ok ⟨some (message_length environ executor_argv), none⟩ := by
  unfold prepare_message message_length
  rw [prepare_environ_size environ 0 (by decide)]
  simp only [Nat.zero_add]
  generalize ((environ.filter fun s => decide (ch_equals ∈ s)).map
    fun s => s.length + 1).sum = a
  generalize hb : (executor_argv.map fun s => s.length + 1).sum = b
  by_cases h1 : a ≥ SIZE_MAX
  · rw [if_pos h1, if_pos (by omega)]
  · rw [if_neg h1]
    simp only [prepare_string, prepare_data_size, List.nil_append, List.length_singleton]
    by_cases h2 : a + 1 ≥ SIZE_MAX
    · rw [if_pos h2, if_pos (by omega)]
    · rw [if_neg h2]
      simp only
      rw [prepare_argv_size _ _ (by omega), hb]

theorem nul_terminated_length (l : List CStr) :
    (nul_terminated l).length = (l.map fun s => s.length + 1).sum := by
  induction l with
  | nil => rfl
  | cons s r ih =>
    simp only [nul_terminated, List.length_append, List.length_cons, ih, List.map_cons,
      List.sum_cons]
    omega

theorem message_body_length (environ executor_argv : List CStr) :
    (message_body environ executor_argv).length = message_length environ executor_argv := by
  simp only [message_body, message_length, List.length_append, List.length_cons,
    nul_terminated_length]
  omega

theorem send_fds_sent (k : SendAnswers) (hfd : ∀ fd, send_fd (k.sendmsg fd) = .sent)
    (fds : List Nat) (t : List Event) :
    send_fds k fds t = ⟨t ++ fds.map .send_fd, none⟩ := by
  induction fds generalizing t with
  | nil => simp [send_fds]
  | cons fd fds ih => simp [send_fds, hfd, ih]

theorem send_request_small (environ executor_argv : List CStr) (k : SendAnswers)
    (hfd : ∀ fd, send_fd (k.sendmsg fd) = .sent)
    (hL : message_length environ executor_argv ≤ 2 ^ 32 - 1)
    (hib : k.ibyte_ok = true) (hmalloc : k.xmalloc_ok = true) :
    send_request environ executor_argv k
      = if k.fwrite_ok = false then
          ⟨[.write_ibyte, .send_fd 0, .send_fd 1, .send_fd 2,
              .write_message (htonl_bytes (message_length environ executor_argv) ++
                message_body environ executor_argv)],
            some (.fatal (diee "write request (buffer)"))⟩
        else if k.fflush_ok = false then
          ⟨[.write_ibyte, .send_fd 0, .send_fd 1, .send_fd 2,
              .write_message (htonl_bytes (message_length environ executor_argv) ++
                message_body environ executor_argv), .fflush],
            some (.fatal (diee "write request"))⟩
        else
          ⟨[.write_ibyte, .send_fd 0, .send_fd 1, .send_fd 2,
              .write_message (htonl_bytes (message_length environ executor_argv) ++
                message_body environ executor_argv), .fflush], none⟩ := by
  have hlen := message_body_length environ executor_argv
  have h4 : (htonl_bytes (message_length environ executor_argv)).length = 4 := rfl
  unfold send_request
  rw [hib, send_fds_sent k hfd, prepare_message_size, hmalloc]
  simp only [Bool.not_true, Bool.false_eq_true, ↓reduceIte, List.map_cons, List.map_nil,
    List.singleton_append]
  rw [if_neg (by unfold SIZE_MAX; omega)]
  simp only [Option.getD_some]
  have hpl : prepare_length ⟨none, some []⟩ (message_length environ executor_argv)
      = .ok ⟨none, some (htonl_bytes (message_length environ executor_argv))⟩ := by
    unfold prepare_length
    rw [if_neg (by unfold UINT32_MAX; omega)]
    rfl
  rw [hpl]
  simp only
  have hfill := prepare_message_fill environ executor_argv
    (htonl_bytes (message_length environ executor_argv))
  rw [hfill]
  simp only [Option.getD_some]
  have hm : (htonl_bytes (message_length environ executor_argv) ++
      (nul_terminated (environ.filter fun s => decide (ch_equals ∈ s)) ++
        0 :: nul_terminated executor_argv)).length
        = (message_length environ executor_argv + 4) % 2 ^ 64 := by
    rw [List.length_append, h4]
    have := hlen
    unfold message_body at this
    rw [this]
    omega
  rw [if_neg (by rw [hm]; simp)]
  cases k.fwrite_ok <;> cases k.fflush_ok <;> simp [message_body]

theorem send_request_large (environ executor_argv : List CStr) (k : SendAnswers)
    (hfd : ∀ fd, send_fd (k.sendmsg fd) = .sent)
    (hL : message_length environ executor_argv > 2 ^ 32 - 1) :
    ∃ t f, send_request environ executor_argv k = ⟨t, some (.fatal f)⟩ ∧ f.status = 127 ∧
      (t = [.write_ibyte] ∨ t = [.write_ibyte, .send_fd 0, .send_fd 1, .send_fd 2]) := by
  unfold send_request
  cases hib : k.ibyte_ok with
  | false => exact ⟨_, diee "write signalling byte", by simp, rfl, Or.inl rfl⟩
  | true =>
    rw [send_fds_sent k hfd, prepare_message_size]
    simp only [Bool.not_true, Bool.false_eq_true, ↓reduceIte, List.map_cons, List.map_nil,
      List.singleton_append]
    by_cases hbig : message_length environ executor_argv ≥ SIZE_MAX
    · rw [if_pos hbig]
      exact ⟨_, die_data_overflow, rfl, rfl, Or.inr rfl⟩
    · rw [if_neg hbig]
      simp only [Option.getD_some]
      cases hm : k.xmalloc_ok with
      | false => exact ⟨_, diee "malloc", by simp, rfl, Or.inr rfl⟩
      | true =>
        have hpl : prepare_length ⟨none, some []⟩ (message_length environ executor_argv)
            = .error die_data_overflow := by
          unfold prepare_length
          rw [if_pos (by unfold UINT32_MAX; omega)]
        rw [hpl]
        exact ⟨_, die_data_overflow, by simp, rfl, Or.inr rfl⟩

/-- C15: the length prefix and its overflow. Let `L` be the length of the
message body, the sum over the strings sent of `strlen + 1`, and let the
three descriptors have been passed. If `L <= 2^32 - 1` and the signalling
byte was written and `malloc` gave memory, `send_request` writes one
message, the four bytes of `L` in big-endian order followed by the `L`
bytes of the body, `L + 4` bytes in all, and returns if `fwrite` and
`fflush` succeed. If `L > 2^32 - 1` the client dies with status 127 and has
written no part of the message. -/
theorem send_request_length_and_body (environ executor_argv : List CStr) (k : SendAnswers)
    (hfd : ∀ fd, send_fd (k.sendmsg fd) = .sent) :
    (message_body environ executor_argv).length = message_length environ executor_argv ∧
    (message_length environ executor_argv ≤ 2 ^ 32 - 1 →
      k.ibyte_ok = true → k.xmalloc_ok = true →
      (∃ rest, (send_request environ executor_argv k).trace
          = [.write_ibyte, .send_fd 0, .send_fd 1, .send_fd 2,
              .write_message (htonl_bytes (message_length environ executor_argv) ++
                message_body environ executor_argv)] ++ rest ∧
          (rest = [] ∨ rest = [.fflush])) ∧
      (htonl_bytes (message_length environ executor_argv) ++
        message_body environ executor_argv).length
          = message_length environ executor_argv + 4 ∧
      (k.fwrite_ok = true → k.fflush_ok = true →
        (send_request environ executor_argv k).halted = none)) ∧
    (message_length environ executor_argv > 2 ^ 32 - 1 →
      (∀ m, .write_message m ∉ (send_request environ executor_argv k).trace) ∧
      ∃ f, (send_request environ executor_argv k).halted = some (.fatal f) ∧
        f.status = 127) := by
  refine ⟨message_body_length environ executor_argv, ?_, ?_⟩
  · intro hL hib hmalloc
    rw [send_request_small environ executor_argv k hfd hL hib hmalloc]
    refine ⟨?_, ?_, ?_⟩
    · cases k.fwrite_ok <;> cases k.fflush_ok <;> simp
    · rw [List.length_append, message_body_length]
      have h4 : (htonl_bytes (message_length environ executor_argv)).length = 4 := rfl
      omega
    · intro h1 h2
      simp [h1, h2]
  · intro hL
    obtain ⟨t, f, hrun, hst, ht⟩ := send_request_large environ executor_argv k hfd hL
    rw [hrun]
    refine ⟨?_, f, rfl, hst⟩
    intro m
    rcases ht with rfl | rfl <;> simp

/-- C15 at concrete inputs: with `A=1` and an entry without `'='` in the
environment and the arguments `p`, `/x`, `a`, the body has 12 bytes and the
message is 00 00 00 0c followed by the body, 16 bytes in all. -/
theorem send_request_length_and_body_witness :
    send_request [[65, 61, 49], [66]] [[112], [47, 120], [97]] sample_send_answers
      = ⟨[.write_ibyte, .send_fd 0, .send_fd 1, .send_fd 2,
          .write_message [0, 0, 0, 12, 65, 61, 49, 0, 0, 112, 0, 47, 120, 0, 97, 0], .fflush],
          none⟩ ∧
    (htonl_bytes (message_length [[65, 61, 49], [66]] [[112], [47, 120], [97]]) ++
      message_body [[65, 61, 49], [66]] [[112], [47, 120], [97]]).length
        = message_length [[65, 61, 49], [66]] [[112], [47, 120], [97]] + 4 :=
  ⟨by decide,
   ((send_request_length_and_body [[65, 61, 49], [66]] [[112], [47, 120], [97]]
      sample_send_answers (fun _ => rfl)).2.1 (by decide) rfl rfl).2.1⟩

/-! ## `connect_or_spawn` (prefork-interp.c) -/

theorem connect_or_spawn_fresh_append (little_endian : Bool) (ident : CStr) (lockfd : Nat)
    (a : SpawnAnswers) (t : List Event) :
    connect_or_spawn_fresh little_endian ident lockfd a t
      = ⟨t ++ (connect_or_spawn_fresh little_endian ident lockfd a []).trace,
          (connect_or_spawn_fresh little_endian ident lockfd a []).ending⟩ := by
  unfold connect_or_spawn_fresh
  repeat' split
  all_goals simp

theorem connect_existing_calls_mem (mode : Mode) (k : ConnectAnswers) (ev : Event)
    (h : ev ∈ connect_existing_calls mode k) : ev = .socket_client ∨ ev = .connect := by
  unfold connect_existing_calls at h
  split at h
  · simp at h
  · split at h <;> simp at h <;> tauto

theorem connect_existing_calls_of_ok (little_endian : Bool) (k : ConnectAnswers)
    (call_sock : Option OpenSock) (r : ConnectResult)
    (h : connect_existing little_endian .MODE_NORMAL call_sock k = .ok r) :
    connect_existing_calls .MODE_NORMAL k = [.socket_client, .connect] := by
  unfold connect_existing at h
  unfold connect_existing_calls
  simp only [ne_eq, not_true_eq_false, ↓reduceIte] at h ⊢
  split at h
  · cases h
  · rfl

theorem connect_existing_other_mode (little_endian : Bool) (mode : Mode)
    (hmode : mode ≠ .MODE_NORMAL) (k : ConnectAnswers) :
    connect_existing little_endian mode none k = .ok ⟨none, none, []⟩ ∧
      connect_existing_calls mode k = [] := by
  simp [connect_existing, connect_existing_calls, hmode]

/-- The runs of `connect_or_spawn` outside kill mode, by the place where
they end: before the lock is taken, with the first connection, in the second
`connect_existing`, with the second connection, or in the making of a fresh
server. `X` is what is done before the lock is taken. -/
theorem connect_or_spawn_cases (little_endian : Bool) (mode : Mode) (hmode : mode ≠ .MODE_KILL)
    (ident : CStr) (a : SpawnAnswers) :
    ∃ X, (∀ ev ∈ X, ev = .socket_client ∨ ev = .connect ∨ ev = .no_server ∨
        ∃ name, ev = .preclean_unlink name) ∧
      (((connect_or_spawn little_endian mode ident a).trace = X ∧
          (∀ cs, (connect_or_spawn little_endian mode ident a).ending ≠ .returned cs)) ∨
        (∃ cs, connect_or_spawn little_endian mode ident a = ⟨X ++ [.connected], .returned cs⟩) ∨
        (∃ lockfd, (connect_or_spawn little_endian mode ident a).trace
            = X ++ .lock lockfd :: connect_existing_calls mode a.second ∧
          (∀ cs, (connect_or_spawn little_endian mode ident a).ending ≠ .returned cs)) ∨
        (∃ lockfd cs r2, connect_existing little_endian mode none a.second = .ok r2 ∧
          r2.returned = some cs ∧
          connect_or_spawn little_endian mode ident a
            = ⟨X ++ .lock lockfd :: (connect_existing_calls mode a.second ++
                [.connected, .close_lockfd]), .returned cs⟩) ∨
        (∃ lockfd r2, connect_existing little_endian mode none a.second = .ok r2 ∧
          r2.returned = none ∧
          (flock_file a.lock_attempts).result = .returned lockfd ∧
          connect_or_spawn little_endian mode ident a
            = ⟨X ++ .lock lockfd :: (connect_existing_calls mode a.second ++
                .no_server :: (connect_or_spawn_fresh little_endian ident lockfd a []).trace),
              (connect_or_spawn_fresh little_endian ident lockfd a []).ending⟩)) := by
  have hcalls := connect_existing_calls_mem mode a.first
  unfold connect_or_spawn
  cases h1 : connect_existing little_endian mode none a.first with
  | error f =>
    exact ⟨_, fun ev h => by have := hcalls ev h; tauto, Or.inl ⟨rfl, by simp⟩⟩
  | ok r1 =>
    simp only
    cases hr1 : r1.returned with
    | some cs =>
      exact ⟨_, fun ev h => by have := hcalls ev h; tauto, Or.inr (Or.inl ⟨cs, rfl⟩)⟩
    | none =>
      have hX : ∀ ev ∈ connect_existing_calls mode a.first ++ [.no_server] ++
          (preclean a.world a.opendir).unlinked.map .preclean_unlink,
          ev = .socket_client ∨ ev = .connect ∨ ev = .no_server ∨
            ∃ name, ev = .preclean_unlink name := by
        intro ev h
        simp only [List.mem_append, List.mem_singleton, List.mem_map] at h
        rcases h with (h | h) | ⟨n, -, h⟩
        · have := hcalls ev h; tauto
        · exact Or.inr (Or.inr (Or.inl h))
        · exact Or.inr (Or.inr (Or.inr ⟨n, h.symm⟩))
      refine ⟨_, hX, ?_⟩
      simp only
      cases hsw : (preclean a.world a.opendir).halted with
      | some h =>
        cases h with
        | fatal f => exact Or.inl ⟨rfl, by simp⟩
        | pending => exact Or.inl ⟨rfl, by simp⟩
      | none =>
        simp only
        cases hl : (flock_file a.lock_attempts).result with
        | fatal f => exact Or.inl ⟨rfl, by simp⟩
        | pending => exact Or.inl ⟨rfl, by simp⟩
        | returned lockfd =>
          simp only [hmode, ↓reduceIte]
          cases h2 : connect_existing little_endian mode none a.second with
          | error f =>
            exact Or.inr (Or.inr (Or.inl ⟨lockfd, by simp, by simp⟩))
          | ok r2 =>
            simp only
            cases hr2 : r2.returned with
            | some cs =>
              exact Or.inr (Or.inr (Or.inr (Or.inl ⟨lockfd, cs, r2, rfl, hr2, by simp⟩)))
            | none =>
              refine Or.inr (Or.inr (Or.inr (Or.inr ⟨lockfd, r2, rfl, hr2, rfl, ?_⟩)))
              simp only
              rw [connect_or_spawn_fresh_append]
              simp

/-- Splitting a list at an event with the property `p`, when the list
starts with a part `A` that holds no such event. -/
theorem append_cons_of_not_mem_left {α : Type} (p : α → Prop) :
    ∀ (A pre : List α) (ev : α) (post F : List α),
      (∀ e ∈ A, ¬ p e) → p ev → pre ++ ev :: post = A ++ F →
      ∃ pre2, pre = A ++ pre2 ∧ F = pre2 ++ ev :: post
  | [], pre, ev, post, F, _, _, h => ⟨pre, rfl, by simpa using h.symm⟩
  | a :: A, [], ev, post, F, hA, hev, h => by
    simp only [List.nil_append, List.cons_append, List.cons.injEq] at h
    exact absurd (h.1 ▸ hev) (hA a (List.mem_cons_self a A))
  | a :: A, b :: pre, ev, post, F, hA, hev, h => by
    simp only [List.cons_append, List.cons.injEq] at h
    obtain ⟨pre2, h1, h2⟩ := append_cons_of_not_mem_left p A pre ev post F
      (fun e he => hA e (List.mem_cons_of_mem a he)) hev h.2
    exact ⟨pre2, by simp [h.1, h1], h2⟩

/-- The calls of the fresh stage: the `unlink` of the socket path comes
first, no other `unlink` is made, and there is no connection attempt, no lock
and no call of `preclean` among them. -/
theorem connect_or_spawn_fresh_trace (little_endian : Bool) (ident : CStr) (lockfd : Nat)
    (a : SpawnAnswers) :
    (connect_or_spawn_fresh little_endian ident lockfd a []).trace.head?
        = some (.unlink (ch_s :: ident)) ∧
      ∀ ev ∈ (connect_or_spawn_fresh little_endian ident lockfd a []).trace,
        ev ≠ .socket_client ∧ ev ≠ .connect ∧ ev ≠ .connected ∧ ev ≠ .no_server ∧
        (∀ l, ev ≠ .lock l) ∧ (∀ name, ev ≠ .preclean_unlink name) ∧
        (ev = .unlink (ch_s :: ident) ∨ ∀ name, ev ≠ .unlink name) := by
  generalize h : connect_or_spawn_fresh little_endian ident lockfd a [] = r
  unfold connect_or_spawn_fresh at h
  repeat' split at h
  all_goals (subst h; simp)

/-- In the fresh stage `close(lockfd)` is the last call, made when the
function returns, and made in no other case. -/
theorem connect_or_spawn_fresh_close (little_endian : Bool) (ident : CStr) (lockfd : Nat)
    (a : SpawnAnswers) :
    (Event.close_lockfd ∉ (connect_or_spawn_fresh little_endian ident lockfd a []).trace ∧
        ∀ cs, (connect_or_spawn_fresh little_endian ident lockfd a []).ending ≠ .returned cs) ∨
      ((connect_or_spawn_fresh little_endian ident lockfd a []).trace
          = (connect_or_spawn_fresh little_endian ident lockfd a []).trace.dropLast
              ++ [.close_lockfd] ∧
        Event.close_lockfd ∉
          (connect_or_spawn_fresh little_endian ident lockfd a []).trace.dropLast ∧
        ∃ cs, (connect_or_spawn_fresh little_endian ident lockfd a []).ending
          = .returned cs) := by
  generalize h : connect_or_spawn_fresh little_endian ident lockfd a [] = r
  unfold connect_or_spawn_fresh at h
  repeat' split at h
  all_goals (subst h; simp)

/-- The place of the `lock` event in a trace that has one before a part
without locks and after the calls made before the lock is taken. -/
theorem lock_split_unique (X T pre post : List Event) (l lockfd : Nat)
    (hX : ∀ ev ∈ X, ev = .socket_client ∨ ev = .connect ∨ ev = .no_server ∨
      ∃ name, ev = .preclean_unlink name)
    (hT : ∀ k, Event.lock k ∉ T) (h : X ++ .lock l :: T = pre ++ .lock lockfd :: post) :
    pre = X ∧ lockfd = l ∧ post = T := by
  obtain ⟨pre2, h1, h2⟩ := append_cons_of_not_mem_left (fun e => ∃ k, e = Event.lock k)
    X pre (.lock lockfd) post (.lock l :: T)
    (fun e he => by rcases hX e he with h | h | h | ⟨n, h⟩ <;> simp [h]) ⟨_, rfl⟩ h.symm
  cases pre2 with
  | nil =>
    simp only [List.nil_append, List.cons.injEq, Event.lock.injEq] at h2
    exact ⟨by simpa using h1, h2.1.symm, h2.2.symm⟩
  | cons b pre3 =>
    simp only [List.cons_append, List.cons.injEq] at h2
    exact absurd (h2.2 ▸ List.mem_append_right pre3 (List.mem_cons_self _ _)) (hT lockfd)

/-- The runs of `connect_or_spawn` outside kill mode that take the lock:
before the lock there are the first connection attempt and the calls of
`preclean`; after it the second connection attempt, and then the process
dies there, or returns the connection and closes the lock descriptor, or
goes through the fresh stage. -/
theorem connect_or_spawn_lock_split (little_endian : Bool) (mode : Mode)
    (hmode : mode ≠ .MODE_KILL) (ident : CStr) (a : SpawnAnswers) (pre post : List Event)
    (lockfd : Nat)
    (h : (connect_or_spawn little_endian mode ident a).trace = pre ++ .lock lockfd :: post) :
    (∀ ev ∈ pre, ev = .socket_client ∨ ev = .connect ∨ ev = .no_server ∨
        ∃ name, ev = .preclean_unlink name) ∧
      ((post = connect_existing_calls mode a.second ∧
          ∀ cs, (connect_or_spawn little_endian mode ident a).ending ≠ .returned cs) ∨
        (∃ cs r2, connect_existing little_endian mode none a.second = .ok r2 ∧
          r2.returned = some cs ∧
          post = connect_existing_calls mode a.second ++ [.connected, .close_lockfd] ∧
          (connect_or_spawn little_endian mode ident a).ending = .returned cs) ∨
        (∃ r2, connect_existing little_endian mode none a.second = .ok r2 ∧
          r2.returned = none ∧
          post = connect_existing_calls mode a.second ++
            .no_server :: (connect_or_spawn_fresh little_endian ident lockfd a []).trace ∧
          (connect_or_spawn little_endian mode ident a).ending
            = (connect_or_spawn_fresh little_endian ident lockfd a []).ending)) := by
  have hc2 : ∀ k, Event.lock k ∉ connect_existing_calls mode a.second := fun k hk => by
    rcases connect_existing_calls_mem mode a.second _ hk with h | h <;> cases h
  have hmem : Event.lock lockfd ∈ (connect_or_spawn little_endian mode ident a).trace :=
    h ▸ List.mem_append_right pre (List.mem_cons_self _ _)
  obtain ⟨X, hX, hcase⟩ := connect_or_spawn_cases little_endian mode hmode ident a
  have hXl : Event.lock lockfd ∉ X := fun hk => by
    rcases hX _ hk with h | h | h | ⟨n, h⟩ <;> cases h
  rcases hcase with ⟨ht, -⟩ | ⟨cs, hr⟩ | ⟨l, ht, hne⟩ | ⟨l, cs, r2, h2, hr2, hr⟩ | ⟨l, r2, h2, hr2, -, hr⟩
  · exact absurd (ht ▸ hmem) hXl
  · rw [hr] at hmem
    simp only [List.mem_append, List.mem_singleton] at hmem
    rcases hmem with h | h
    · exact absurd h hXl
    · cases h
  · obtain ⟨rfl, rfl, rfl⟩ := lock_split_unique X _ pre post l lockfd hX hc2 (ht.symm.trans h)
    exact ⟨hX, Or.inl ⟨rfl, hne⟩⟩
  · have ht : (connect_or_spawn little_endian mode ident a).trace = _ := congrArg Run.trace hr
    obtain ⟨rfl, rfl, rfl⟩ := lock_split_unique X _ pre post l lockfd hX
      (fun k hk => by
        simp only [List.mem_append, List.mem_cons, List.mem_singleton] at hk
        rcases hk with hk | hk | hk
        · exact hc2 k hk
        · cases hk
        · simp at hk)
      (ht.symm.trans h)
    exact ⟨hX, Or.inr (Or.inl ⟨cs, r2, h2, hr2, rfl, congrArg Run.ending hr⟩)⟩
  · have ht : (connect_or_spawn little_endian mode ident a).trace = _ := congrArg Run.trace hr
    obtain ⟨rfl, rfl, rfl⟩ := lock_split_unique X _ pre post l lockfd hX
      (fun k hk => by
        simp only [List.mem_append, List.mem_cons] at hk
        rcases hk with hk | hk | hk
        · exact hc2 k hk
        · cases hk
        · exact ((connect_or_spawn_fresh_trace little_endian ident l a).2 _ hk).2.2.2.2.1 k rfl)
      (ht.symm.trans h)
    exact ⟨hX, Or.inr (Or.inr ⟨r2, h2, hr2, rfl, by rw [hr]⟩)⟩

/-- The calls before the lock and the connection attempts are no `unlink`
outside `preclean`, no `socket` for a listener, no `bind` and no `listen`. -/
theorem creation_not_before (ev : Event)
    (hev : (∃ name, ev = .unlink name) ∨ ev = .socket_listener ∨ ev = .bind ∨ ev = .listen) :
    ¬ (ev = .socket_client ∨ ev = .connect ∨ ev = .no_server ∨
        ∃ name, ev = .preclean_unlink name) ∧
      ev ≠ .connected ∧ ev ≠ .close_lockfd ∧ ∀ l, ev ≠ .lock l := by
  rcases hev with ⟨n, h⟩ | h | h | h <;> subst h <;> simp

/-- Outside kill mode, an `unlink` that is not one of `preclean`, the
`socket` for the listener, `bind` and `listen` are called after the lock is
taken and the second `connect_existing` has returned 0, and before
`close(lockfd)`. -/
theorem connect_or_spawn_creation_under_lock (little_endian : Bool) (mode : Mode)
    (hmode : mode ≠ .MODE_KILL) (ident : CStr) (a : SpawnAnswers) (pre post : List Event)
    (ev : Event)
    (h : (connect_or_spawn little_endian mode ident a).trace = pre ++ ev :: post)
    (hev : (∃ name, ev = .unlink name) ∨ ev = .socket_listener ∨ ev = .bind ∨ ev = .listen) :
    (∃ lockfd pre1 pre2 r2, connect_existing little_endian mode none a.second = .ok r2 ∧
        r2.returned = none ∧
        pre = pre1 ++ .lock lockfd :: (connect_existing_calls mode a.second ++
          .no_server :: pre2) ∧ ∀ l, Event.lock l ∉ pre1) ∧
      Event.close_lockfd ∉ pre := by
  obtain ⟨hnb, hnc, hncl, hnl⟩ := creation_not_before ev hev
  have hnc2 : ev ∉ connect_existing_calls mode a.second := fun hk =>
    hnb (by rcases connect_existing_calls_mem mode a.second _ hk with h | h <;> simp [h])
  have hmem : ev ∈ (connect_or_spawn little_endian mode ident a).trace :=
    h ▸ List.mem_append_right pre (List.mem_cons_self _ _)
  obtain ⟨X, hX, hcase⟩ := connect_or_spawn_cases little_endian mode hmode ident a
  have hXe : ev ∉ X := fun hk => hnb (hX _ hk)
  rcases hcase with ⟨ht, -⟩ | ⟨cs, hr⟩ | ⟨l, ht, -⟩ | ⟨l, cs, r2, -, -, hr⟩ |
    ⟨l, r2, h2, hr2, -, hr⟩
  · exact absurd (ht ▸ hmem) hXe
  · rw [hr] at hmem
    simp only [List.mem_append, List.mem_singleton] at hmem
    rcases hmem with h | h
    · exact absurd h hXe
    · exact absurd h hnc
  · rw [ht] at hmem
    simp only [List.mem_append, List.mem_cons] at hmem
    rcases hmem with h | h | h
    · exact absurd h hXe
    · exact absurd h (hnl l)
    · exact absurd h hnc2
  · rw [hr] at hmem
    simp only [List.mem_append, List.mem_cons, List.mem_singleton] at hmem
    rcases hmem with h | h | h | h | h | h
    · exact absurd h hXe
    · exact absurd h (hnl l)
    · exact absurd h hnc2
    · exact absurd h hnc
    · exact absurd h hncl
    · simp at h
  · have ht : (connect_or_spawn little_endian mode ident a).trace
        = (X ++ .lock l :: (connect_existing_calls mode a.second ++ [.no_server])) ++
          (connect_or_spawn_fresh little_endian ident l a []).trace := by
      rw [hr]; simp
    obtain ⟨pre2, h1, h2f⟩ := append_cons_of_not_mem_left
      (fun e => (∃ name, e = Event.unlink name) ∨ e = .socket_listener ∨ e = .bind ∨
        e = .listen)
      _ pre ev post _
      (fun e he hp => by
        obtain ⟨hb, -, -, hl⟩ := creation_not_before e hp
        simp only [List.mem_append, List.mem_cons, List.mem_singleton] at he
        rcases he with he | he | he | he
        · exact hb (hX _ he)
        · exact hl l he
        · exact hb (by
            rcases connect_existing_calls_mem mode a.second _ he with h | h <;> simp [h])
        · simp at he
          exact hb (Or.inr (Or.inr (Or.inl he))))
      hev (h.symm.trans ht)
    have hXc : Event.close_lockfd ∉ X := fun hk => by
      rcases hX _ hk with h | h | h | ⟨n, h⟩ <;> cases h
    have hcc : Event.close_lockfd ∉ connect_existing_calls mode a.second := fun hk => by
      rcases connect_existing_calls_mem mode a.second _ hk with h | h <;> cases h
    have hp2 : Event.close_lockfd ∉ pre2 := by
      rcases connect_or_spawn_fresh_close little_endian ident l a with ⟨hno, -⟩ | ⟨-, hno, -⟩
      · exact fun hk => hno (h2f ▸ List.mem_append_left _ hk)
      · rw [h2f, List.dropLast_append_of_ne_nil _ (List.cons_ne_nil _ _)] at hno
        exact fun hk => hno (List.mem_append_left _ hk)
    refine ⟨⟨l, X, pre2, r2, h2, hr2, by rw [h1]; simp, fun k hk => ?_⟩, ?_⟩
    · rcases hX _ hk with h | h | h | ⟨n, h⟩ <;> cases h
    · rw [h1]
      simp only [List.mem_append, List.mem_cons, List.mem_singleton, not_or]
      exact ⟨⟨hXc, by simp, hcc, by simp⟩, hp2⟩

/-- Outside kill mode the only path given to `unlink` outside `preclean` is
the socket path. -/
theorem connect_or_spawn_unlink_name (little_endian : Bool) (mode : Mode)
    (hmode : mode ≠ .MODE_KILL) (ident : CStr) (a : SpawnAnswers) (name : CStr)
    (h : Event.unlink name ∈ (connect_or_spawn little_endian mode ident a).trace) :
    name = ch_s :: ident := by
  obtain ⟨pre, post, hsplit⟩ := List.append_of_mem h
  obtain ⟨⟨l, pre1, pre2, r2, -, -, hpre, -⟩, -⟩ :=
    connect_or_spawn_creation_under_lock little_endian mode hmode ident a pre post _ hsplit
      (Or.inl ⟨name, rfl⟩)
  have hc2 : Event.unlink name ∉ connect_existing_calls mode a.second := fun hk => by
    rcases connect_existing_calls_mem mode a.second _ hk with h | h <;> cases h
  have hsplit2 : (connect_or_spawn little_endian mode ident a).trace = pre1 ++ .lock l ::
      ((connect_existing_calls mode a.second ++ .no_server :: pre2) ++ .unlink name :: post) := by
    rw [hsplit, hpre]; simp
  have hin : Event.unlink name ∈
      (connect_existing_calls mode a.second ++ .no_server :: pre2) ++ .unlink name :: post :=
    List.mem_append_right _ (List.mem_cons_self _ _)
  rcases (connect_or_spawn_lock_split little_endian mode hmode ident a _ _ l hsplit2).2 with
    ⟨hp, -⟩ | ⟨cs, r, -, -, hp, -⟩ | ⟨r, -, -, hp, -⟩
  · exact absurd (hp ▸ hin) hc2
  · rw [hp] at hin
    simp only [List.mem_append, List.mem_cons, List.mem_singleton] at hin
    rcases hin with h | h | h | h
    · exact absurd h hc2
    · cases h
    · cases h
    · simp at h
  · rw [hp] at hin
    simp only [List.mem_append, List.mem_cons] at hin
    rcases hin with h | h | h
    · exact absurd h hc2
    · cases h
    · rcases ((connect_or_spawn_fresh_trace little_endian ident l a).2 _ h).2.2.2.2.2.2 with
        h | h
      · exact Event.unlink.inj h
      · exact absurd rfl (h name)

/-- Outside kill mode, a run in which the connection attempt made under the
lock gets a server does nothing more than to close the lock descriptor: it
returns the connection, and it has called no `unlink` outside `preclean`, no
`socket` for a listener, no `bind` and no `listen`. -/
theorem connect_or_spawn_second_connects (little_endian : Bool) (mode : Mode)
    (hmode : mode ≠ .MODE_KILL) (ident : CStr) (a : SpawnAnswers) (pre post : List Event)
    (lockfd : Nat)
    (h : (connect_or_spawn little_endian mode ident a).trace = pre ++ .lock lockfd :: post)
    (hc : Event.connected ∈ post) :
    post = connect_existing_calls mode a.second ++ [.connected, .close_lockfd] ∧
      (∃ cs, (connect_or_spawn little_endian mode ident a).ending = .returned cs) ∧
      ∀ ev ∈ (connect_or_spawn little_endian mode ident a).trace,
        (∀ name, ev ≠ .unlink name) ∧ ev ≠ .socket_listener ∧ ev ≠ .bind ∧ ev ≠ .listen := by
  have hc2 : Event.connected ∉ connect_existing_calls mode a.second := fun hk => by
    rcases connect_existing_calls_mem mode a.second _ hk with h | h <;> cases h
  obtain ⟨hpre, hcase⟩ := connect_or_spawn_lock_split little_endian mode hmode ident a _ _ _ h
  rcases hcase with ⟨hp, -⟩ | ⟨cs, r, -, -, hp, he⟩ | ⟨r, -, -, hp, -⟩
  · exact absurd (hp ▸ hc) hc2
  · refine ⟨hp, ⟨cs, he⟩, ?_⟩
    intro ev hev
    rw [h, hp] at hev
    simp only [List.mem_append, List.mem_cons, List.mem_singleton] at hev
    rcases hev with hev | hev | hev | hev | hev | hev
    · rcases hpre _ hev with h | h | h | ⟨n, h⟩ <;> subst h <;> simp
    · subst hev; simp
    · rcases connect_existing_calls_mem mode a.second _ hev with h | h <;> subst h <;> simp
    · subst hev; simp
    · subst hev; simp
    · simp at hev
  · rw [hp] at hc
    simp only [List.mem_append, List.mem_cons] at hc
    rcases hc with h | h | h
    · exact absurd h hc2
    · cases h
    · exact absurd rfl ((connect_or_spawn_fresh_trace little_endian ident lockfd a).2 _ h).2.2.1

/-- C16 (the claim as stated fails): the identity `1` in a run directory of
101 identities, its socket stale. `preclean`, which is called before
`acquire_lock`, unlinks the socket path `s<1>` (and the lock path `l<1>`):
the run starts with the refused `connect` and these two `unlink`s, no lock
of `connect_or_spawn` is held by then and no second connection attempt has
been made. The run goes on to bind a new listener and returns. -/
theorem connect_or_spawn_preclean_unlinks_socket :
    [Event.socket_client, .connect, .no_server, .preclean_unlink (ch_s :: [1]),
        .preclean_unlink (ch_l :: [1])]
      <+: (connect_or_spawn true .MODE_NORMAL [1] sample_spawn_evicted).trace ∧
    Event.bind ∈ (connect_or_spawn true .MODE_NORMAL [1] sample_spawn_evicted).trace ∧
    (connect_or_spawn true .MODE_NORMAL [1] sample_spawn_evicted).ending
      = .returned ⟨10, ⟨[0, 0, 0, 0], .eof⟩⟩ := by
  have hw : sample_spawn_evicted.world = quiet_world := rfl
  have ho : sample_spawn_evicted.opendir = .ok (sample_dir 101) := rfl
  unfold connect_or_spawn
  rw [hw, ho, preclean_sample_dir_101]
  decide

/-- C16 (amended): in every normal-mode run of `connect_or_spawn`, an
`unlink` made outside `preclean` (its path is the socket path), the `socket`
call for the new listener, `bind` and `listen` come after `acquire_lock` has
returned and the connection attempt made under the lock has reported "no
server", and before `close(lockfd)`. If the attempt under the lock connects,
the run makes none of these calls, closes the lock descriptor and returns the
connection. -/
theorem connect_or_spawn_lock_discipline (little_endian : Bool) (ident : CStr)
    (a : SpawnAnswers) :
    (∀ pre ev post,
        (connect_or_spawn little_endian .MODE_NORMAL ident a).trace = pre ++ ev :: post →
        ((∃ name, ev = .unlink name) ∨ ev = .socket_listener ∨ ev = .bind ∨ ev = .listen) →
        (∃ lockfd pre1 pre2,
          pre = pre1 ++ [.lock lockfd, .socket_client, .connect, .no_server] ++ pre2 ∧
          ∀ l, Event.lock l ∉ pre1) ∧
        Event.close_lockfd ∉ pre) ∧
    (∀ name, Event.unlink name ∈ (connect_or_spawn little_endian .MODE_NORMAL ident a).trace →
        name = ch_s :: ident) ∧
    (∀ pre lockfd post,
        (connect_or_spawn little_endian .MODE_NORMAL ident a).trace
          = pre ++ .lock lockfd :: post →
        Event.connected ∈ post →
        post = [.socket_client, .connect, .connected, .close_lockfd] ∧
        (∃ cs, (connect_or_spawn little_endian .MODE_NORMAL ident a).ending = .returned cs) ∧
        ∀ ev ∈ (connect_or_spawn little_endian .MODE_NORMAL ident a).trace,
          (∀ name, ev ≠ .unlink name) ∧ ev ≠ .socket_listener ∧ ev ≠ .bind ∧
            ev ≠ .listen) := by
  refine ⟨fun pre ev post h hev => ?_, fun name h =>
    connect_or_spawn_unlink_name little_endian .MODE_NORMAL (by decide) ident a name h,
    fun pre lockfd post h hc => ?_⟩
  · obtain ⟨⟨l, pre1, pre2, r2, h2, -, hpre, hl⟩, hclose⟩ :=
      connect_or_spawn_creation_under_lock little_endian .MODE_NORMAL (by decide) ident a
        pre post ev h hev
    rw [connect_existing_calls_of_ok little_endian a.second none r2 h2] at hpre
    exact ⟨⟨l, pre1, pre2, by rw [hpre]; simp, hl⟩, hclose⟩
  · obtain ⟨hp, he, hall⟩ :=
      connect_or_spawn_second_connects little_endian .MODE_NORMAL (by decide) ident a
        pre post lockfd h hc
    rcases (connect_or_spawn_lock_split little_endian .MODE_NORMAL (by decide) ident a
      _ _ _ h).2 with ⟨hq, -⟩ | ⟨cs, r, h2, -, -, -⟩ | ⟨r, -, -, hq, -⟩
    · rw [hq] at hc
      rcases connect_existing_calls_mem _ a.second _ hc with h | h <;> cases h
    · rw [connect_existing_calls_of_ok little_endian a.second none r h2] at hp
      exact ⟨by simpa using hp, he, hall⟩
    · rw [hq] at hp
      have hbad : Event.no_server ∈
          connect_existing_calls .MODE_NORMAL a.second ++ [.connected, .close_lockfd] :=
        hp ▸ List.mem_append_right _ (List.mem_cons_self _ _)
      simp only [List.mem_append, List.mem_cons, List.mem_singleton] at hbad
      rcases hbad with h | h | h | h
      · rcases connect_existing_calls_mem _ a.second _ h with h | h <;> cases h
      · cases h
      · cases h
      · simp at h

/-- C16 (witness): a run that finds a stale socket twice; the `bind` of the
new listener comes after the lock and the second refused `connect`, and
before the lock descriptor is closed. -/
theorem connect_or_spawn_lock_discipline_witness :
    (∃ lockfd pre1 pre2,
        [Event.socket_client, .connect, .no_server, .lock 4, .socket_client, .connect,
            .no_server, .unlink [ch_s, 1], .socket_listener]
          = pre1 ++ [.lock lockfd, .socket_client, .connect, .no_server] ++ pre2 ∧
        ∀ l, Event.lock l ∉ pre1) ∧
      Event.close_lockfd ∉
        [Event.socket_client, .connect, .no_server, .lock 4, .socket_client, .connect,
          .no_server, .unlink [ch_s, 1], .socket_listener] :=
  (connect_or_spawn_lock_discipline true [1] (sample_spawn_stale (sample_dir 3))).1
    [.socket_client, .connect, .no_server, .lock 4, .socket_client, .connect, .no_server,
      .unlink [ch_s, 1], .socket_listener]
    .bind
    [.stat_socket, .listen, .pipe, .pipe, .fork_watcher, .close 6, .close 9, .socketpair,
      .fork_setup, .close 11, .close 5, .waitpid, .read_greeting, .close_lockfd]
    (by decide) (Or.inr (Or.inr (Or.inl rfl)))

/-! ## Kill mode and force-fresh mode -/

/-- C17: with `--kill`, `connect_or_spawn` makes no connection attempt (both
calls of `connect_existing` return 0 at once), creates no listener and forks
nothing: what it does is a beginning of "`preclean`, take the lock, unlink
the socket path, unlink the lock path, `_exit(0)`", in this order. It never
returns, so `main` sends no request. When `preclean` and `acquire_lock`
return, the `unlink` of the socket succeeds or finds no file, and the
`unlink` of the lock succeeds, the process exits with status 0; another
failure of either `unlink` is fatal. -/
theorem connect_or_spawn_kill_mode (little_endian : Bool) (ident : CStr) (a : SpawnAnswers)
    (environ executor_argv : List CStr) (s : SendAnswers) (signals : SignalAnswers) :
    (∃ lockfd, (connect_or_spawn little_endian .MODE_KILL ident a).trace <+:
        [.no_server] ++ (preclean a.world a.opendir).unlinked.map .preclean_unlink ++
          [.lock lockfd, .unlink (ch_s :: ident), .unlink (ch_l :: ident), .exit 0]) ∧
    ((connect_or_spawn little_endian .MODE_KILL ident a).ending = .pending ∨
      ∃ e, (connect_or_spawn little_endian .MODE_KILL ident a).ending = .ended e) ∧
    client_main little_endian .MODE_KILL ident a environ executor_argv s signals
      = connect_or_spawn little_endian .MODE_KILL ident a ∧
    (∀ lockfd, (preclean a.world a.opendir).halted = none →
      (flock_file a.lock_attempts).result = .returned lockfd →
      ((a.unlink_socket = .ok () ∨ a.unlink_socket = .error .ENOENT) → a.unlink_lock = .ok () →
        connect_or_spawn little_endian .MODE_KILL ident a
          = ⟨[.no_server] ++ (preclean a.world a.opendir).unlinked.map .preclean_unlink ++
              [.lock lockfd, .unlink (ch_s :: ident), .unlink (ch_l :: ident), .exit 0],
            .ended (.exited 0)⟩) ∧
      ((∃ e, a.unlink_socket = .error e ∧ e ≠ .ENOENT) →
        ∃ f, (connect_or_spawn little_endian .MODE_KILL ident a).ending = .ended (.fatal f)) ∧
      ((∃ e, a.unlink_lock = .error e) →
        ∃ f, (connect_or_spawn little_endian .MODE_KILL ident a).ending
          = .ended (.fatal f))) := by
  have key : ∀ r, connect_or_spawn little_endian .MODE_KILL ident a = r →
      (∃ lockfd, r.trace <+:
        [.no_server] ++ (preclean a.world a.opendir).unlinked.map .preclean_unlink ++
          [.lock lockfd, .unlink (ch_s :: ident), .unlink (ch_l :: ident), .exit 0]) ∧
      (r.ending = .pending ∨ ∃ e, r.ending = .ended e) ∧
      (∀ lockfd, (preclean a.world a.opendir).halted = none →
        (flock_file a.lock_attempts).result = .returned lockfd →
        ((a.unlink_socket = .ok () ∨ a.unlink_socket = .error .ENOENT) →
          a.unlink_lock = .ok () →
          r = ⟨[.no_server] ++ (preclean a.world a.opendir).unlinked.map .preclean_unlink ++
              [.lock lockfd, .unlink (ch_s :: ident), .unlink (ch_l :: ident), .exit 0],
            .ended (.exited 0)⟩) ∧
        ((∃ e, a.unlink_socket = .error e ∧ e ≠ .ENOENT) → ∃ f, r.ending = .ended (.fatal f)) ∧
        ((∃ e, a.unlink_lock = .error e) → ∃ f, r.ending = .ended (.fatal f))) := by
    intro r hr
    simp only [connect_or_spawn, connect_existing, connect_existing_calls, ne_eq,
      reduceCtorEq, not_false_eq_true, ↓reduceIte, connect_or_spawn_kill] at hr
    rcases hus : a.unlink_socket with e | u
    · by_cases he : e = .ENOENT
      · subst he
        simp only [hus] at hr
        repeat' split at hr
        all_goals (subst hr; simp_all)
      · simp only [hus] at hr
        repeat' split at hr
        all_goals (subst hr; simp_all)
    · simp only [hus] at hr
      repeat' split at hr
      all_goals (subst hr; simp_all)
  obtain ⟨h1, h2, h3⟩ := key _ rfl
  refine ⟨h1, h2, ?_, h3⟩
  unfold client_main
  generalize connect_or_spawn little_endian .MODE_KILL ident a = r at h2
  cases r with
  | mk t e =>
    simp only at h2
    rcases h2 with h | ⟨e2, h⟩ <;> subst h <;> rfl

/-- C17 (witness): the run `prefork-interp --kill` for the identity `1` in
a run directory of three identities. -/
theorem connect_or_spawn_kill_mode_witness :
    (preclean (sample_spawn (sample_dir 3)).world (sample_spawn (sample_dir 3)).opendir).halted
        = none ∧
      (flock_file (sample_spawn (sample_dir 3)).lock_attempts).result = .returned 4 ∧
      connect_or_spawn true .MODE_KILL [1] (sample_spawn (sample_dir 3))
        = ⟨[.no_server, .lock 4, .unlink [ch_s, 1], .unlink [ch_l, 1], .exit 0],
            .ended (.exited 0)⟩ :=
  ⟨by decide, by decide,
    ((connect_or_spawn_kill_mode true [1] (sample_spawn (sample_dir 3)) [] []
      sample_send_answers usual_signals).2.2.2 4 (by decide) (by decide)).1 (Or.inl rfl) rfl⟩

/-- A fresh stage that returns has unlinked the socket path and made a new
listening socket, in the order of the source. -/
theorem connect_or_spawn_fresh_returned (little_endian : Bool) (ident : CStr) (lockfd : Nat)
    (a : SpawnAnswers) (cs : OpenSock)
    (h : (connect_or_spawn_fresh little_endian ident lockfd a []).ending = .returned cs) :
    [.unlink (ch_s :: ident), .socket_listener, .bind, .stat_socket, .listen, .pipe, .pipe,
        .fork_watcher]
      <+: (connect_or_spawn_fresh little_endian ident lockfd a []).trace ∧
    Event.fork_setup ∈ (connect_or_spawn_fresh little_endian ident lockfd a []).trace := by
  generalize hr : connect_or_spawn_fresh little_endian ident lockfd a [] = r at h
  unfold connect_or_spawn_fresh at hr
  repeat' split at hr
  all_goals (subst hr; simp at h ⊢)

/-- The fresh stage when the `unlink` of the socket path succeeds or finds
no file and `socket`, `bind`, `stat` and `listen` succeed: these calls are
made, in this order. -/
theorem connect_or_spawn_fresh_listener (little_endian : Bool) (ident : CStr) (lockfd : Nat)
    (a : SpawnAnswers) (hu : a.unlink_socket = .ok () ∨ a.unlink_socket = .error .ENOENT)
    (sfd : Nat) (hs : a.socket_res = .ok sfd) (hb : a.bind_res = .ok ())
    (stab : Stat) (hst : a.stat_res = .ok stab) (hl : a.listen_res = .ok ()) :
    [.unlink (ch_s :: ident), .socket_listener, .bind, .stat_socket, .listen]
      <+: (connect_or_spawn_fresh little_endian ident lockfd a []).trace := by
  generalize hr : connect_or_spawn_fresh little_endian ident lockfd a [] = r
  unfold connect_or_spawn_fresh at hr
  rcases hu with hu | hu
  all_goals
    simp only [hu, hs, hb, hst, hl] at hr
    repeat' split at hr
    all_goals (subst hr; simp)

/-- The runs of `connect_or_spawn` in force-fresh mode: both calls of
`connect_existing` return 0 at once, and once the lock is taken the fresh
stage follows. -/
theorem fresh_mode_runs (little_endian : Bool) (ident : CStr)
    (a : SpawnAnswers) :
    ((connect_or_spawn little_endian .MODE_FRESH ident a).trace
          = .no_server :: (preclean a.world a.opendir).unlinked.map .preclean_unlink ∧
        (∀ cs, (connect_or_spawn little_endian .MODE_FRESH ident a).ending ≠ .returned cs) ∧
        ((preclean a.world a.opendir).halted ≠ none ∨
          ∀ lockfd, (flock_file a.lock_attempts).result ≠ .returned lockfd)) ∨
      ∃ lockfd, (preclean a.world a.opendir).halted = none ∧
        (flock_file a.lock_attempts).result = .returned lockfd ∧
        connect_or_spawn little_endian .MODE_FRESH ident a
          = ⟨.no_server :: ((preclean a.world a.opendir).unlinked.map .preclean_unlink ++
                .lock lockfd :: .no_server ::
                  (connect_or_spawn_fresh little_endian ident lockfd a []).trace),
              (connect_or_spawn_fresh little_endian ident lockfd a []).ending⟩ := by
  simp only [connect_or_spawn, connect_existing, connect_existing_calls, ne_eq,
    reduceCtorEq, not_false_eq_true, ↓reduceIte]
  cases hsw : (preclean a.world a.opendir).halted with
  | some h => cases h <;> simp
  | none =>
    cases hl : (flock_file a.lock_attempts).result with
    | fatal f => simp
    | pending => simp
    | returned lockfd =>
      simp only
      rw [connect_or_spawn_fresh_append]
      simp

/-- C18: with `-f` the client makes no connection attempt, neither before
nor after it takes the lock (no `socket` for a client, no `connect`, and it
never has a connection to an existing server). Once `preclean` and
`acquire_lock` have returned it unlinks the socket path, and, when that
`unlink` succeeds or finds no file and `socket`, `bind`, `stat` and `listen`
succeed, it has made a new listening socket. These calls are made after the
lock is taken and before `close(lockfd)`, and every run that returns has
made them and has forked the watcher and the setup process. -/
theorem connect_or_spawn_fresh_mode (little_endian : Bool) (ident : CStr) (a : SpawnAnswers) :
    (∀ ev ∈ (connect_or_spawn little_endian .MODE_FRESH ident a).trace,
        ev ≠ .socket_client ∧ ev ≠ .connect ∧ ev ≠ .connected) ∧
    (∀ lockfd, (preclean a.world a.opendir).halted = none →
      (flock_file a.lock_attempts).result = .returned lockfd →
      ([.no_server] ++ (preclean a.world a.opendir).unlinked.map .preclean_unlink ++
          [.lock lockfd, .no_server, .unlink (ch_s :: ident)]
        <+: (connect_or_spawn little_endian .MODE_FRESH ident a).trace) ∧
      ((a.unlink_socket = .ok () ∨ a.unlink_socket = .error .ENOENT) →
        (∃ sfd, a.socket_res = .ok sfd) → a.bind_res = .ok () →
        (∃ stab, a.stat_res = .ok stab) → a.listen_res = .ok () →
        [.no_server] ++ (preclean a.world a.opendir).unlinked.map .preclean_unlink ++
            [.lock lockfd, .no_server, .unlink (ch_s :: ident), .socket_listener, .bind,
              .stat_socket, .listen]
          <+: (connect_or_spawn little_endian .MODE_FRESH ident a).trace)) ∧
    (∀ pre ev post,
      (connect_or_spawn little_endian .MODE_FRESH ident a).trace = pre ++ ev :: post →
      ((∃ name, ev = .unlink name) ∨ ev = .socket_listener ∨ ev = .bind ∨ ev = .listen) →
      (∃ lockfd, Event.lock lockfd ∈ pre) ∧ Event.close_lockfd ∉ pre) ∧
    (∀ cs, (connect_or_spawn little_endian .MODE_FRESH ident a).ending = .returned cs →
      ∃ lockfd,
        [.no_server] ++ (preclean a.world a.opendir).unlinked.map .preclean_unlink ++
            [.lock lockfd, .no_server, .unlink (ch_s :: ident), .socket_listener, .bind,
              .stat_socket, .listen, .pipe, .pipe, .fork_watcher]
          <+: (connect_or_spawn little_endian .MODE_FRESH ident a).trace ∧
        Event.fork_setup ∈ (connect_or_spawn little_endian .MODE_FRESH ident a).trace) := by
  refine ⟨?_, ?_, ?_, ?_⟩
  · intro ev hev
    rcases fresh_mode_runs little_endian ident a with
      ⟨ht, -, -⟩ | ⟨l, -, -, hr⟩
    · rw [ht] at hev
      simp only [List.mem_cons, List.mem_map] at hev
      rcases hev with h | ⟨n, -, h⟩ <;> subst h <;> simp
    · rw [hr] at hev
      simp only [List.mem_cons, List.mem_append, List.mem_map] at hev
      rcases hev with h | ⟨n, -, h⟩ | h | h | h
      · subst h; simp
      · subst h; simp
      · subst h; simp
      · subst h; simp
      · obtain ⟨h1, h2, h3, -⟩ := (connect_or_spawn_fresh_trace little_endian ident l a).2 _ h
        exact ⟨h1, h2, h3⟩
  · intro lockfd hsw hl
    rcases fresh_mode_runs little_endian ident a with
      ⟨-, -, h | h⟩ | ⟨l, -, hl2, hr⟩
    · exact absurd hsw h
    · exact absurd hl (h lockfd)
    · obtain rfl : l = lockfd := by rw [hl] at hl2; exact (LockResult.returned.inj hl2).symm
      constructor
      · have hh := (connect_or_spawn_fresh_trace little_endian ident l a).1
        obtain ⟨G, hG⟩ : ∃ G, (connect_or_spawn_fresh little_endian ident l a []).trace
            = .unlink (ch_s :: ident) :: G := by
          cases hF : (connect_or_spawn_fresh little_endian ident l a []).trace with
          | nil => rw [hF] at hh; simp at hh
          | cons x G => rw [hF] at hh; simp at hh; exact ⟨G, by rw [hh]⟩
        rw [hr, hG]
        exact ⟨G, by simp⟩
      · rintro hu ⟨sfd, hs⟩ hb ⟨stab, hst⟩ hli
        obtain ⟨G, hG⟩ := connect_or_spawn_fresh_listener little_endian ident l a hu sfd hs
          hb stab hst hli
        rw [hr, ← hG]
        exact ⟨G, by simp⟩
  · intro pre ev post h hev
    obtain ⟨⟨l, pre1, pre2, -, -, -, hpre, -⟩, hclose⟩ :=
      connect_or_spawn_creation_under_lock little_endian .MODE_FRESH (by decide) ident a
        pre post ev h hev
    exact ⟨⟨l, by rw [hpre]; simp⟩, hclose⟩
  · intro cs hcs
    rcases fresh_mode_runs little_endian ident a with
      ⟨-, hne, -⟩ | ⟨l, -, -, hr⟩
    · exact absurd hcs (hne cs)
    · rw [hr] at hcs
      obtain ⟨⟨G, hG⟩, hfs⟩ := connect_or_spawn_fresh_returned little_endian ident l a cs hcs
      refine ⟨l, ?_, ?_⟩
      · rw [hr, ← hG]
        exact ⟨G, by simp⟩
      · rw [hr]
        simp [hfs]

/-- C18 (witness): the run `prefork-interp -f` for the identity `1` in a
run directory of three identities, where a server listens on the old socket:
no connection is attempted, the socket path is unlinked and a new listener is
made under the lock. -/
theorem connect_or_spawn_fresh_mode_witness :
    (preclean (sample_spawn (sample_dir 3)).world (sample_spawn (sample_dir 3)).opendir).halted
        = none ∧
      (flock_file (sample_spawn (sample_dir 3)).lock_attempts).result = .returned 4 ∧
      [Event.no_server, .lock 4, .no_server, .unlink [ch_s, 1], .socket_listener, .bind,
          .stat_socket, .listen]
        <+: (connect_or_spawn true .MODE_FRESH [1] (sample_spawn (sample_dir 3))).trace :=
  ⟨by decide, by decide,
    ((connect_or_spawn_fresh_mode true [1] (sample_spawn (sample_dir 3))).2.1 4 (by decide)
      (by decide)).2 (Or.inl rfl) ⟨5, rfl⟩ rfl ⟨_, rfl⟩ rfl⟩

/-! ## The release of the lock -/

/-- The calls of `tidy_garbage`: it takes the lock, unlinks at most the
socket path, and closes the lock descriptor as its last call; when it
returns it has closed it. -/
theorem tidy_garbage_trace (ident : CStr) (k : TidyAnswers) :
    (∀ ev ∈ (tidy_garbage ident k).trace,
        (∃ lockfd, ev = .lock lockfd) ∨ ev = .unlink (ch_s :: ident) ∨ ev = .close_lockfd) ∧
      ((tidy_garbage ident k).halted = none →
        ∃ lockfd mid, (tidy_garbage ident k).trace = .lock lockfd :: mid ++ [.close_lockfd] ∧
          Event.close_lockfd ∉ mid) := by
  generalize hr : tidy_garbage ident k = r
  unfold tidy_garbage at hr
  repeat' split at hr
  all_goals subst hr
  all_goals first
    | (refine ⟨by simp, fun h => ?_⟩; simp at h; done)
    | exact ⟨by simp, fun _ => ⟨_, [.unlink (ch_s :: ident)], rfl, by simp⟩⟩
    | exact ⟨by simp, fun _ => ⟨_, [], rfl, by simp⟩⟩

/-- C19 (the claim as stated fails): three releases of the lock that leave
the lock path alone. The client of the identity `1` finds a server at its
second attempt, under the lock; or it finds none, makes a new server and
reads its greeting; or `tidy_garbage` removes a socket that is out of date.
Each time the lock descriptor is closed and no `unlink` of the lock path
`l<1>` is made, inside `preclean` or outside. -/
theorem lock_release_keeps_lock_path :
    connect_or_spawn true .MODE_NORMAL [1] (sample_spawn (sample_dir 3))
      = ⟨[.socket_client, .connect, .no_server, .lock 4, .socket_client, .connect, .connected,
            .close_lockfd],
          .returned ⟨3, ⟨[0, 0, 0, 0], .eof⟩⟩⟩ ∧
    (connect_or_spawn true .MODE_NORMAL [1] (sample_spawn_stale (sample_dir 3))).trace
      = [.socket_client, .connect, .no_server, .lock 4, .socket_client, .connect, .no_server,
          .unlink [ch_s, 1], .socket_listener, .bind, .stat_socket, .listen, .pipe, .pipe,
          .fork_watcher, .close 6, .close 9, .socketpair, .fork_setup, .close 11, .close 5,
          .waitpid, .read_greeting, .close_lockfd] ∧
    tidy_garbage [1] sample_tidy = ⟨[.lock 4, .unlink [ch_s, 1], .close_lockfd], none⟩ ∧
    Event.unlink [ch_l, 1] ∉
      (connect_or_spawn true .MODE_NORMAL [1] (sample_spawn (sample_dir 3))).trace ∧
    Event.preclean_unlink [ch_l, 1] ∉
      (connect_or_spawn true .MODE_NORMAL [1] (sample_spawn (sample_dir 3))).trace := by
  decide

/-- C19 (amended): the client releases the identity lock by `close(lockfd)`
and leaves the lock path in place. Outside kill mode `connect_or_spawn` calls
no `unlink` for the lock path, and after it has taken the lock no call of
`preclean` follows; a run that returns after it took the lock (with the
connection made under the lock, or with the greeting of the new server) has
closed the lock descriptor as its last call. `tidy_garbage` calls no `unlink`
for the lock path either, and when it returns it has closed the lock
descriptor as its last call. -/
theorem lock_release_is_close (little_endian : Bool) (mode : Mode) (hmode : mode ≠ .MODE_KILL)
    (ident : CStr) (a : SpawnAnswers) (k : TidyAnswers) :
    Event.unlink (ch_l :: ident) ∉ (connect_or_spawn little_endian mode ident a).trace ∧
    (∀ pre lockfd post,
      (connect_or_spawn little_endian mode ident a).trace = pre ++ .lock lockfd :: post →
      (∀ name, Event.preclean_unlink name ∉ post) ∧
      ∀ cs, (connect_or_spawn little_endian mode ident a).ending = .returned cs →
        ∃ mid, post = mid ++ [.close_lockfd] ∧ Event.close_lockfd ∉ mid) ∧
    Event.unlink (ch_l :: ident) ∉ (tidy_garbage ident k).trace ∧
    (∀ name, Event.preclean_unlink name ∉ (tidy_garbage ident k).trace) ∧
    ((tidy_garbage ident k).halted = none →
      ∃ lockfd mid, (tidy_garbage ident k).trace = .lock lockfd :: mid ++ [.close_lockfd] ∧
        Event.close_lockfd ∉ mid) := by
  have hls : ch_l :: ident ≠ ch_s :: ident := by simp [ch_l, ch_s]
  have hc2 : ∀ ev ∈ connect_existing_calls mode a.second,
      ev ≠ .close_lockfd ∧ ∀ name, ev ≠ .preclean_unlink name := fun ev hk => by
    rcases connect_existing_calls_mem mode a.second _ hk with h | h <;> subst h <;> simp
  refine ⟨fun h => hls (connect_or_spawn_unlink_name little_endian mode hmode ident a _ h),
    fun pre lockfd post h => ?_, fun h => ?_, fun name h => ?_,
    (tidy_garbage_trace ident k).2⟩
  · rcases (connect_or_spawn_lock_split little_endian mode hmode ident a _ _ _ h).2 with
      ⟨hp, hne⟩ | ⟨cs, r, -, -, hp, he⟩ | ⟨r, -, -, hp, he⟩
    · exact ⟨fun name hk => (hc2 _ (hp ▸ hk)).2 name rfl, fun cs hcs => absurd hcs (hne cs)⟩
    · refine ⟨fun name hk => ?_, fun _ _ =>
        ⟨connect_existing_calls mode a.second ++ [.connected], by rw [hp]; simp, fun hk => ?_⟩⟩
      · rw [hp] at hk
        simp only [List.mem_append, List.mem_cons, List.mem_singleton] at hk
        rcases hk with hk | hk | hk | hk
        · exact (hc2 _ hk).2 name rfl
        · cases hk
        · cases hk
        · simp at hk
      · simp only [List.mem_append, List.mem_singleton] at hk
        rcases hk with hk | hk
        · exact (hc2 _ hk).1 rfl
        · cases hk
    · refine ⟨fun name hk => ?_, fun cs hcs => ?_⟩
      · rw [hp] at hk
        simp only [List.mem_append, List.mem_cons] at hk
        rcases hk with hk | hk | hk
        · exact (hc2 _ hk).2 name rfl
        · cases hk
        · exact ((connect_or_spawn_fresh_trace little_endian ident lockfd a).2 _
            hk).2.2.2.2.2.1 name rfl
      · rw [he] at hcs
        rcases connect_or_spawn_fresh_close little_endian ident lockfd a with
          ⟨-, hne⟩ | ⟨hlast, hno, -⟩
        · exact absurd hcs (hne cs)
        · refine ⟨connect_existing_calls mode a.second ++ .no_server ::
            (connect_or_spawn_fresh little_endian ident lockfd a []).trace.dropLast, ?_, ?_⟩
          · rw [hp]
            conv_lhs => rw [hlast]
            simp
          · simp only [List.mem_append, List.mem_cons, not_or]
            exact ⟨fun hk => (hc2 _ hk).1 rfl, by simp, hno⟩
  · rcases (tidy_garbage_trace ident k).1 _ h with ⟨l, h⟩ | h | h
    · cases h
    · exact hls (Event.unlink.inj h)
    · cases h
  · rcases (tidy_garbage_trace ident k).1 _ h with ⟨l, h⟩ | h | h <;> cases h

/-- C19 (witness): the client of the identity `1` that finds a server at
its second attempt; after the lock it connects and closes the lock
descriptor. -/
theorem lock_release_is_close_witness :
    Mode.MODE_NORMAL ≠ .MODE_KILL ∧
      ∃ mid, [Event.socket_client, .connect, .connected, .close_lockfd]
          = mid ++ [.close_lockfd] ∧ Event.close_lockfd ∉ mid :=
  ⟨by decide,
    ((lock_release_is_close true .MODE_NORMAL (by decide) [1] (sample_spawn (sample_dir 3))
      sample_tidy).2.1 [.socket_client, .connect, .no_server] 4
      [.socket_client, .connect, .connected, .close_lockfd] (by decide)).2
      ⟨3, ⟨[0, 0, 0, 0], .eof⟩⟩ (by decide)⟩

/-! ## The base directory (prefork.c) -/

/-- The result of `find_run_base_var_run` by cases: a directory owned by
`us` without group or other permission bits is chosen; the four tolerated
`lstat` failures and a failed check give 0; another `lstat` failure is
fatal. -/
theorem find_run_base_var_run_cases (our_name : CStr) (us : Nat)
    (lstat_res : Except Errno Stat) :
    ((∃ stab, lstat_res = .ok stab ∧ S_ISDIR stab.st_mode = true ∧ stab.st_uid = us ∧
          stab.st_mode &&& 0o077 = 0) ∧
        find_run_base_var_run our_name us lstat_res
          = .ok (some (ascii "/var/run/user" ++ [ch_slash] ++ decimal us ++ [ch_slash] ++
              our_name))) ∨
      ((lstat_res = .error .ENOENT ∨ lstat_res = .error .ENOTDIR ∨
          lstat_res = .error .EACCES ∨ lstat_res = .error .EPERM ∨
          ∃ stab, lstat_res = .ok stab ∧
            ¬ (S_ISDIR stab.st_mode = true ∧ stab.st_uid = us ∧ stab.st_mode &&& 0o077 = 0)) ∧
        find_run_base_var_run our_name us lstat_res = .ok none) ∨
      ((∃ e, lstat_res = .error e ∧ e ≠ .ENOENT ∧ e ≠ .ENOTDIR ∧ e ≠ .EACCES ∧ e ≠ .EPERM) ∧
        find_run_base_var_run our_name us lstat_res
          = .error (diee "stat /var/run/user/UID")) := by
  unfold find_run_base_var_run
  rcases lstat_res with e | stab
  · cases e <;> simp
  · by_cases h1 : S_ISDIR stab.st_mode = true
    · by_cases h2 : stab.st_uid = us
      · by_cases h3 : stab.st_mode &&& 0o077 = 0
        · exact Or.inl ⟨⟨stab, rfl, h1, h2, h3⟩, by simp [h1, h2, h3]⟩
        · exact Or.inr (Or.inl ⟨by simp [h3], by simp [h1, h2, h3]⟩)
      · exact Or.inr (Or.inl ⟨by simp [h2], by simp [h1, h2]⟩)
    · exact Or.inr (Or.inl ⟨by simp [h1], by simp [h1]⟩)

/-- C21: the choice of the base directory. `find_run_base_var_run` selects
`/var/run/user/<uid>/<our_name>` if and only if `lstat` of
`/var/run/user/<uid>` succeeds and shows a directory, owned by the calling
uid, with none of the bits `0077` set in its mode. When `lstat` fails with
ENOENT, ENOTDIR, EACCES or EPERM, or one of the checks fails, the function
returns 0 and `find_run_base_home` decides: the directory is
`<home>/.<our_name>/<node>`, the node name cut at its first dot and after 32
characters (a failure of `getpwuid` or `uname` is fatal there). Any other
failure of `lstat` is fatal, with status 127. -/
theorem find_run_base_selection (our_name : CStr) (us : Nat) (hus : us ≠ 2 ^ 32 - 1)
    (lstat_res : Except Errno Stat) (pw_dir : Option CStr) (uname_res : Except Errno CStr) :
    ((∃ rb, find_run_base_var_run our_name us lstat_res = .ok (some rb)) ↔
      ∃ stab, lstat_res = .ok stab ∧ S_ISDIR stab.st_mode = true ∧ stab.st_uid = us ∧
        stab.st_mode &&& 0o077 = 0) ∧
    (∀ rb, find_run_base_var_run our_name us lstat_res = .ok (some rb) →
      rb = ascii "/var/run/user" ++ [ch_slash] ++ decimal us ++ [ch_slash] ++ our_name ∧
      find_run_base our_name us lstat_res pw_dir uname_res = .ok ⟨rb, none⟩) ∧
    ((lstat_res = .error .ENOENT ∨ lstat_res = .error .ENOTDIR ∨
        lstat_res = .error .EACCES ∨ lstat_res = .error .EPERM ∨
        ∃ stab, lstat_res = .ok stab ∧
          ¬ (S_ISDIR stab.st_mode = true ∧ stab.st_uid = us ∧ stab.st_mode &&& 0o077 = 0)) →
      find_run_base_var_run our_name us lstat_res = .ok none ∧
      find_run_base our_name us lstat_res pw_dir uname_res
        = find_run_base_home our_name pw_dir uname_res ∧
      ∀ dir nodename, pw_dir = some dir → uname_res = .ok nodename →
        find_run_base our_name us lstat_res pw_dir uname_res
          = .ok ⟨dir ++ [ch_slash, ch_dot] ++ our_name ++ [ch_slash] ++
                (nodename.takeWhile (· ≠ ch_dot)).take 32,
              some (dir ++ [ch_slash, ch_dot] ++ our_name)⟩) ∧
    (∀ e, lstat_res = .error e → e ≠ .ENOENT → e ≠ .ENOTDIR → e ≠ .EACCES → e ≠ .EPERM →
      ∃ f, f.status = 127 ∧ find_run_base_var_run our_name us lstat_res = .error f ∧
        find_run_base our_name us lstat_res pw_dir uname_res = .error f) := by
  have hb : find_run_base our_name us lstat_res pw_dir uname_res
      = match find_run_base_var_run our_name us lstat_res with
        | .error f => .error f
        | .ok (some run_base) => .ok ⟨run_base, none⟩
        | .ok none => find_run_base_home our_name pw_dir uname_res := by
    unfold find_run_base
    rw [if_neg hus]
  rcases find_run_base_var_run_cases our_name us lstat_res with
    ⟨⟨stab, hl, hd, hu, hm⟩, hr⟩ | ⟨hc, hr⟩ | ⟨⟨e, hl, h1, h2, h3, h4⟩, hr⟩
  · refine ⟨⟨fun _ => ⟨stab, hl, hd, hu, hm⟩, fun _ => ⟨_, hr⟩⟩, ?_, ?_, ?_⟩
    · intro rb hrb
      rw [hr] at hrb
      cases hrb
      exact ⟨rfl, by rw [hb, hr]⟩
    · rintro (h | h | h | h | ⟨stab2, h, hn⟩)
      · rw [hl] at h; cases h
      · rw [hl] at h; cases h
      · rw [hl] at h; cases h
      · rw [hl] at h; cases h
      · rw [hl] at h; cases h
        exact absurd ⟨hd, hu, hm⟩ hn
    · intro e he
      rw [hl] at he; cases he
  · refine ⟨⟨?_, ?_⟩, ?_, ?_, ?_⟩
    · rintro ⟨rb, h⟩
      rw [hr] at h; cases h
    · rintro ⟨stab, hl, hd, hu, hm⟩
      rcases hc with h | h | h | h | ⟨stab2, h, hn⟩
      · rw [hl] at h; cases h
      · rw [hl] at h; cases h
      · rw [hl] at h; cases h
      · rw [hl] at h; cases h
      · rw [hl] at h; cases h
        exact absurd ⟨hd, hu, hm⟩ hn
    · intro rb hrb
      rw [hr] at hrb; cases hrb
    · intro _
      have hb2 : find_run_base our_name us lstat_res pw_dir uname_res
          = find_run_base_home our_name pw_dir uname_res := by
        rw [hb, hr]
      refine ⟨hr, hb2, fun dir nodename hp hn => ?_⟩
      rw [hb2, hp, hn]
      rfl
    · intro e he h1 h2 h3 h4
      rcases hc with h | h | h | h | ⟨stab2, h, -⟩ <;> rw [he] at h <;> cases h <;>
        contradiction
  · refine ⟨⟨?_, ?_⟩, ?_, ?_, ?_⟩
    · rintro ⟨rb, h⟩
      rw [hr] at h; cases h
    · rintro ⟨stab, hl2, -⟩
      rw [hl] at hl2; cases hl2
    · intro rb hrb
      rw [hr] at hrb; cases hrb
    · rintro (h | h | h | h | ⟨stab2, h, -⟩) <;> rw [hl] at h <;> cases h <;> contradiction
    · intro e2 _ _ _ _ _
      exact ⟨_, rfl, hr, by rw [hb, hr]⟩

/-- C21 (witness): uid 1000 and a directory `/var/run/user/1000` with mode
0750: the group bits make the client fall back to the home directory on the
host `host.example.org`. -/
theorem find_run_base_selection_witness :
    (1000 : Nat) ≠ 2 ^ 32 - 1 ∧
      find_run_base (ascii "cgi-fcgi-interp") 1000 (.ok ⟨1, 2, 0o040750, 1000, 0, ⟨0, 0⟩⟩)
          (some (ascii "/home/u")) (.ok (ascii "host.example.org"))
        = .ok ⟨ascii "/home/u/.cgi-fcgi-interp/host", some (ascii "/home/u/.cgi-fcgi-interp")⟩ :=
  ⟨by decide,
    ((find_run_base_selection (ascii "cgi-fcgi-interp") 1000 (by decide)
      (.ok ⟨1, 2, 0o040750, 1000, 0, ⟨0, 0⟩⟩) (some (ascii "/home/u"))
      (.ok (ascii "host.example.org"))).2.2.1
      (Or.inr (Or.inr (Or.inr (Or.inr ⟨_, rfl, by decide⟩))))).2.2 _ _ rfl rfl⟩

/-! ## The variable PREFORK_INTERP (prefork-interp.c, `become_setup`) -/

theorem of_decimal_concat (ds : List Nat) (d : Nat) :
    of_decimal (ds ++ [d]) = of_decimal ds * 10 + (d - 48) := by
  simp [of_decimal, List.foldl_append]

theorem of_decimal_zero_pad (w : Nat) (ds : List Nat) :
    of_decimal (zero_pad w ds) = of_decimal ds := by
  unfold zero_pad of_decimal
  rw [List.foldl_append]
  congr 1
  generalize w - ds.length = k
  induction k with
  | zero => rfl
  | succ k ih => simpa [List.replicate_succ] using ih

/-- The digits that `decimal_aux` puts in front of `acc`, when the fuel
suffices: they are decimal digits, not empty, they read back as `n`, and a
number below `10 ^ k` has at most `k` of them. -/
theorem decimal_aux_spec : ∀ (fuel n : Nat) (acc : List Nat), n < fuel →
    ∃ ds, decimal_aux fuel n acc = ds ++ acc ∧ ds ≠ [] ∧ (∀ d ∈ ds, 48 ≤ d ∧ d ≤ 57) ∧
      of_decimal ds = n ∧ ∀ k, 1 ≤ k → n < 10 ^ k → ds.length ≤ k
  | 0, n, acc, h => absurd h (Nat.not_lt_zero n)
  | fuel + 1, n, acc, h => by
    unfold decimal_aux
    by_cases hn : n < 10
    · rw [if_pos hn]
      refine ⟨[48 + n], rfl, by simp, ?_, ?_, ?_⟩
      · intro d hd
        simp only [List.mem_singleton] at hd
        omega
      · simp [of_decimal]
      · intro k hk _
        simpa using hk
    · rw [if_neg hn]
      obtain ⟨ds, h1, -, h3, h4, h5⟩ := decimal_aux_spec fuel (n / 10) ((48 + n % 10) :: acc)
        (by omega)
      refine ⟨ds ++ [48 + n % 10], by rw [h1]; simp, by simp, ?_, ?_, ?_⟩
      · intro d hd
        simp only [List.mem_append, List.mem_singleton] at hd
        rcases hd with hd | hd
        · exact h3 d hd
        · omega
      · rw [of_decimal_concat, h4]
        omega
      · intro k hk hlt
        obtain ⟨j, rfl⟩ : ∃ j, k = j + 1 := ⟨k - 1, by omega⟩
        have hj : 1 ≤ j := by
          rcases j with _ | j
          · simp at hlt; omega
          · omega
        have := h5 j hj (by rw [pow_succ] at hlt; omega)
        simp only [List.length_append, List.length_singleton]
        omega

/-- The text of an unsigned number: decimal digits that read back as the
number. -/
theorem decimal_spec (n : Nat) :
    decimal n ≠ [] ∧ (∀ d ∈ decimal n, 48 ≤ d ∧ d ≤ 57) ∧ of_decimal (decimal n) = n ∧
      ∀ k, 1 ≤ k → n < 10 ^ k → (decimal n).length ≤ k := by
  obtain ⟨ds, h1, h2, h3, h4, h5⟩ := decimal_aux_spec (n + 1) n [] (Nat.lt_succ_self n)
  have : decimal n = ds := by simpa [decimal] using h1
  rw [this]
  exact ⟨h2, h3, h4, h5⟩

/-- The text of `%d` holds neither a space nor a comma nor a dot. -/
theorem printf_d_chars (x : Int) (c : Nat) (hc : c = ch_space ∨ c = ch_comma ∨ c = ch_dot) :
    c ∉ printf_d x := by
  intro h
  have hd := (decimal_spec x.natAbs).2.1
  unfold printf_d at h
  have hc2 : c = 32 ∨ c = 44 ∨ c = 46 := hc
  split at h
  · simp only [List.mem_cons, ch_minus] at h
    rcases h with h | h
    · omega
    · have := hd c h; omega
  · have := hd c h; omega

/-- The text of `%09ld` for a nanosecond value in 0 .. 999999999: exactly
nine decimal digits that read back as the value. -/
theorem printf_09ld_nine (x : Int) (h0 : 0 ≤ x) (h1 : x ≤ 999999999) :
    (printf_09ld x).length = 9 ∧ (∀ d ∈ printf_09ld x, 48 ≤ d ∧ d ≤ 57) ∧
      (of_decimal (printf_09ld x) : Int) = x := by
  obtain ⟨-, hd, hv, hl⟩ := decimal_spec x.natAbs
  have hlen := hl 9 (by decide) (by omega)
  unfold printf_09ld
  rw [if_neg (by omega)]
  refine ⟨?_, ?_, ?_⟩
  · simp only [zero_pad, List.length_append, List.length_replicate]
    omega
  · intro d hdm
    simp only [zero_pad, List.mem_append, List.mem_replicate] at hdm
    rcases hdm with ⟨-, rfl⟩ | hdm
    · omega
    · exact hd d hdm
  · rw [of_decimal_zero_pad, hv]
    omega

theorem split_on_not_mem (sep : Nat) : ∀ (w : List Nat), sep ∉ w → split_on sep w = [w]
  | [], _ => rfl
  | b :: w, h => by
    simp only [List.mem_cons, not_or] at h
    rw [split_on, if_neg (fun hb => h.1 hb.symm), split_on_not_mem sep w h.2]

theorem split_on_append (sep : Nat) (rest : List Nat) : ∀ (w : List Nat), sep ∉ w →
    split_on sep (w ++ sep :: rest) = w :: split_on sep rest
  | [], _ => by simp [split_on]
  | b :: w, h => by
    simp only [List.mem_cons, not_or] at h
    rw [List.cons_append, split_on, if_neg (fun hb => h.1 hb.symm),
      split_on_append sep rest w h.2]

theorem printf_d_nat (n : Nat) : printf_d (n : Int) = decimal n := by
  unfold printf_d
  rw [if_neg (by omega)]
  simp

theorem decimal_chars (n c : Nat) (hc : c = ch_space ∨ c = ch_comma ∨ c = ch_dot) :
    c ∉ decimal n := by
  rw [← printf_d_nat]
  exact printf_d_chars _ c hc

/-- The string that `become_setup` gives to `putenv`, read as the protocol
comment says: after `PREFORK_INTERP=` come two words divided by a space; the
first is `v1`, a comma, the seconds, a dot and nine digits of nanoseconds;
the second is four numbers divided by commas. -/
theorem become_setup_env_words (sfd call_fd watcher_stdin watcher_stderr : Nat)
    (initial_stab : Stat) (h0 : 0 ≤ initial_stab.st_mtim.tv_nsec)
    (h1 : initial_stab.st_mtim.tv_nsec ≤ 999999999) :
    ∃ word1 word2 nsecs,
      become_setup_env sfd call_fd watcher_stdin watcher_stderr initial_stab
        = ascii "PREFORK_INTERP=" ++ (word1 ++ ch_space :: word2) ∧
      split_on ch_space (word1 ++ ch_space :: word2) = [word1, word2] ∧
      split_on ch_comma word1
        = [ascii "v1", printf_d initial_stab.st_mtim.tv_sec ++ ch_dot :: nsecs] ∧
      split_on ch_dot (printf_d initial_stab.st_mtim.tv_sec ++ ch_dot :: nsecs)
        = [printf_d initial_stab.st_mtim.tv_sec, nsecs] ∧
      nsecs.length = 9 ∧ (∀ d ∈ nsecs, 48 ≤ d ∧ d ≤ 57) ∧
      (of_decimal nsecs : Int) = initial_stab.st_mtim.tv_nsec ∧
      split_on ch_comma word2
        = [decimal sfd, decimal call_fd, decimal watcher_stdin, decimal watcher_stderr] := by
  obtain ⟨hlen, hdig, hval⟩ := printf_09ld_nine _ h0 h1
  have hns : ∀ c, c = ch_space ∨ c = ch_comma ∨ c = ch_dot →
      c ∉ printf_09ld initial_stab.st_mtim.tv_nsec := fun c hc hm => by
    have := hdig c hm
    have hc2 : c = 32 ∨ c = 44 ∨ c = 46 := hc
    omega
  have hv1s : ch_space ∉ ascii "v1" := by decide
  have hv1c : ch_comma ∉ ascii "v1" := by decide
  refine ⟨ascii "v1" ++ ch_comma :: (printf_d initial_stab.st_mtim.tv_sec ++
      ch_dot :: printf_09ld initial_stab.st_mtim.tv_nsec),
    decimal sfd ++ ch_comma :: (decimal call_fd ++ ch_comma ::
      (decimal watcher_stdin ++ ch_comma :: decimal watcher_stderr)),
    printf_09ld initial_stab.st_mtim.tv_nsec, ?_, ?_, ?_, ?_, hlen, hdig, hval, ?_⟩
  · have hp : ascii "PREFORK_INTERP=v1," = ascii "PREFORK_INTERP=" ++ (ascii "v1" ++ [ch_comma]) := by
      decide
    simp only [become_setup_env, hp, printf_d_nat, List.append_assoc, List.singleton_append,
      List.cons_append, List.nil_append]
  · rw [split_on_append, split_on_not_mem]
    · simp only [List.mem_append, List.mem_cons, not_or]
      exact ⟨decimal_chars _ _ (Or.inl rfl), by decide, decimal_chars _ _ (Or.inl rfl),
        by decide, decimal_chars _ _ (Or.inl rfl), by decide, decimal_chars _ _ (Or.inl rfl)⟩
    · simp only [List.mem_append, List.mem_cons, not_or]
      exact ⟨hv1s, by decide, printf_d_chars _ _ (Or.inl rfl), by decide,
        hns _ (Or.inl rfl)⟩
  · rw [split_on_append _ _ _ hv1c, split_on_not_mem]
    simp only [List.mem_append, List.mem_cons, not_or]
    exact ⟨printf_d_chars _ _ (Or.inr (Or.inl rfl)), by decide, hns _ (Or.inr (Or.inl rfl))⟩
  · rw [split_on_append _ _ _ (printf_d_chars _ _ (Or.inr (Or.inr rfl))),
      split_on_not_mem _ _ (hns _ (Or.inr (Or.inr rfl)))]
  · rw [split_on_append _ _ _ (decimal_chars _ _ (Or.inr (Or.inl rfl))),
      split_on_append _ _ _ (decimal_chars _ _ (Or.inr (Or.inl rfl))),
      split_on_append _ _ _ (decimal_chars _ _ (Or.inr (Or.inl rfl))),
      split_on_not_mem _ _ (decimal_chars _ _ (Or.inr (Or.inl rfl)))]

/-- The arguments with which the setup child calls `become_setup`: the
listener, the lock descriptor, the socket pair, the write end of the pipe
that is the watcher's stdin, the read end of the pipe that is the watcher's
stderr, and the `stat` of the socket just bound. -/
theorem setup_child_args (little_endian : Bool) (ident : CStr) (lockfd : Nat)
    (a : SpawnAnswers) (executor_argv : List CStr) (k : SetupAnswers) (r : SetupRun)
    (hr : setup_child little_endian ident lockfd a executor_argv k = some r) :
    ∃ sfd fake_pair watcher_stdin watcher_stderr initial_stab,
      a.socket_res = .ok sfd ∧ a.socketpair_res = .ok fake_pair ∧
      a.pipe_stdin = .ok watcher_stdin ∧ a.pipe_stderr = .ok watcher_stderr ∧
      a.stat_res = .ok initial_stab ∧ a.fork_setup = .ok 0 ∧
      r = become_setup executor_argv sfd lockfd fake_pair.1 fake_pair.2 watcher_stdin.2
        watcher_stderr.1 initial_stab k := by
  unfold setup_child at hr
  generalize hF : connect_or_spawn_fresh little_endian ident lockfd a [] = F at hr
  unfold connect_or_spawn_fresh at hF
  repeat' split at hF
  all_goals (subst hF; simp at hr)
  subst hr
  exact ⟨_, _, _, _, _, by assumption, by assumption, by assumption, by assumption,
    by assumption, by assumption, rfl⟩

/-- The string given to `putenv` by a run of `become_setup` that gets as
far. -/
theorem become_setup_putenv (executor_argv : List CStr)
    (sfd lockfd fake0 fake1 watcher_stdin watcher_stderr : Nat) (initial_stab : Stat)
    (k : SetupAnswers) (env : CStr)
    (h : (become_setup executor_argv sfd lockfd fake0 fake1 watcher_stdin watcher_stderr
      initial_stab k).putenv = some env) :
    env = become_setup_env sfd fake1 watcher_stdin watcher_stderr initial_stab := by
  unfold become_setup at h
  repeat' split at h
  all_goals simp at h
  all_goals exact h.symm

/-- C22: the value of PREFORK_INTERP. The string that the setup child gives
to `putenv` is `PREFORK_INTERP=` followed by two words divided by a space.
The first word is `v1`, a comma, and `<secs>.<nsecs>`, the modification time
of the socket as `stat` gave it after `bind`; `<nsecs>` is exactly nine
decimal digits (and reads back as the value) for every nanosecond value in
0 .. 999999999. The second word is four decimal numbers divided by commas:
the listener `sfd`, the call socket `fake_pair[1]` (the end of the server),
the write end `watcher_stdin[1]` of the pipe that is the watcher's stdin, and
the read end `watcher_stderr[0]` of the pipe that is the watcher's stderr, in
this order. -/
theorem prefork_interp_env_format (little_endian : Bool) (ident : CStr) (lockfd : Nat)
    (a : SpawnAnswers) (executor_argv : List CStr) (k : SetupAnswers) (r : SetupRun)
    (env : CStr)
    (hr : setup_child little_endian ident lockfd a executor_argv k = some r)
    (he : r.putenv = some env) :
    ∃ sfd fake_pair watcher_stdin watcher_stderr initial_stab,
      a.socket_res = .ok sfd ∧ a.socketpair_res = .ok fake_pair ∧
      a.pipe_stdin = .ok watcher_stdin ∧ a.pipe_stderr = .ok watcher_stderr ∧
      a.stat_res = .ok initial_stab ∧
      (0 ≤ initial_stab.st_mtim.tv_nsec → initial_stab.st_mtim.tv_nsec ≤ 999999999 →
        ∃ word1 word2 nsecs,
          env = ascii "PREFORK_INTERP=" ++ (word1 ++ ch_space :: word2) ∧
          split_on ch_space (word1 ++ ch_space :: word2) = [word1, word2] ∧
          split_on ch_comma word1
            = [ascii "v1", printf_d initial_stab.st_mtim.tv_sec ++ ch_dot :: nsecs] ∧
          split_on ch_dot (printf_d initial_stab.st_mtim.tv_sec ++ ch_dot :: nsecs)
            = [printf_d initial_stab.st_mtim.tv_sec, nsecs] ∧
          nsecs.length = 9 ∧ (∀ d ∈ nsecs, 48 ≤ d ∧ d ≤ 57) ∧
          (of_decimal nsecs : Int) = initial_stab.st_mtim.tv_nsec ∧
          split_on ch_comma word2
            = [decimal sfd, decimal fake_pair.2, decimal watcher_stdin.2,
                decimal watcher_stderr.1] ∧
          of_decimal (decimal sfd) = sfd ∧ of_decimal (decimal fake_pair.2) = fake_pair.2 ∧
          of_decimal (decimal watcher_stdin.2) = watcher_stdin.2 ∧
          of_decimal (decimal watcher_stderr.1) = watcher_stderr.1) := by
  obtain ⟨sfd, fake_pair, wi, we, stab, h1, h2, h3, h4, h5, -, hrun⟩ :=
    setup_child_args little_endian ident lockfd a executor_argv k r hr
  rw [hrun] at he
  have henv := become_setup_putenv _ _ _ _ _ _ _ _ _ _ he
  refine ⟨sfd, fake_pair, wi, we, stab, h1, h2, h3, h4, h5, fun h0 h9 => ?_⟩
  obtain ⟨word1, word2, nsecs, e1, e2, e3, e4, e5, e6, e7, e8⟩ :=
    become_setup_env_words sfd fake_pair.2 wi.2 we.1 stab h0 h9
  exact ⟨word1, word2, nsecs, henv.trans e1, e2, e3, e4, e5, e6, e7, e8,
    (decimal_spec _).2.2.1, (decimal_spec _).2.2.1, (decimal_spec _).2.2.1,
    (decimal_spec _).2.2.1⟩

/-- C22 (witness): the setup child of a client that makes a new server:
listener 5, socket pair 10 and 11, pipes 6, 7 and 8, 9, socket modified at
time 100. -/
theorem prefork_interp_env_format_witness :
    setup_child true [1] 4 (sample_spawn_child (sample_dir 3)) [ascii "perl", ascii "/x"]
        sample_setup
      = some ⟨[4, 10, 12], some (ascii "PREFORK_INTERP=v1,100.000000000 5,11,7,8"),
          .executed [ascii "perl", ascii "/x"]⟩ ∧
    ∃ sfd fake_pair watcher_stdin watcher_stderr initial_stab,
      (sample_spawn_child (sample_dir 3)).socket_res = .ok sfd ∧
      (sample_spawn_child (sample_dir 3)).socketpair_res = .ok fake_pair ∧
      (sample_spawn_child (sample_dir 3)).pipe_stdin = .ok watcher_stdin ∧
      (sample_spawn_child (sample_dir 3)).pipe_stderr = .ok watcher_stderr ∧
      (sample_spawn_child (sample_dir 3)).stat_res = .ok initial_stab ∧
      (0 ≤ initial_stab.st_mtim.tv_nsec → initial_stab.st_mtim.tv_nsec ≤ 999999999 →
        ∃ word1 word2 nsecs,
          ascii "PREFORK_INTERP=v1,100.000000000 5,11,7,8"
            = ascii "PREFORK_INTERP=" ++ (word1 ++ ch_space :: word2) ∧
          split_on ch_space (word1 ++ ch_space :: word2) = [word1, word2] ∧
          split_on ch_comma word1
            = [ascii "v1", printf_d initial_stab.st_mtim.tv_sec ++ ch_dot :: nsecs] ∧
          split_on ch_dot (printf_d initial_stab.st_mtim.tv_sec ++ ch_dot :: nsecs)
            = [printf_d initial_stab.st_mtim.tv_sec, nsecs] ∧
          nsecs.length = 9 ∧ (∀ d ∈ nsecs, 48 ≤ d ∧ d ≤ 57) ∧
          (of_decimal nsecs : Int) = initial_stab.st_mtim.tv_nsec ∧
          split_on ch_comma word2
            = [decimal sfd, decimal fake_pair.2, decimal watcher_stdin.2,
                decimal watcher_stderr.1] ∧
          of_decimal (decimal sfd) = sfd ∧ of_decimal (decimal fake_pair.2) = fake_pair.2 ∧
          of_decimal (decimal watcher_stdin.2) = watcher_stdin.2 ∧
          of_decimal (decimal watcher_stderr.1) = watcher_stderr.1) :=
  ⟨by decide,
    prefork_interp_env_format true [1] 4 (sample_spawn_child (sample_dir 3))
      [ascii "perl", ascii "/x"] sample_setup
      ⟨[4, 10, 12], some (ascii "PREFORK_INTERP=v1,100.000000000 5,11,7,8"),
        .executed [ascii "perl", ascii "/x"]⟩
      (ascii "PREFORK_INTERP=v1,100.000000000 5,11,7,8") (by decide) rfl⟩

/-- C23 (the code at the failing input): a client makes a new server; the
pipe that is the watcher's stdin has the ends 6 (read) and 7 (write), the
pipe that is the watcher's stderr has the ends 8 (read) and 9 (write). The
setup child sets `PREFORK_INTERP=v1,100.000000000 5,11,7,8`: the third item
of the second word is 7, the write end of the watcher's stdin pipe (the
liveness sentinel, WATCHI), and the fourth is 8, the descriptor from which
the watcher's stderr is read (WATCHE), where the protocol comment gives the
order LISTEN,CALL,WATCHE,WATCHI. -/
theorem prefork_interp_env_watcher_order :
    (sample_spawn_child (sample_dir 3)).pipe_stdin = .ok (6, 7) ∧
    (sample_spawn_child (sample_dir 3)).pipe_stderr = .ok (8, 9) ∧
    (setup_child true [1] 4 (sample_spawn_child (sample_dir 3)) [ascii "perl", ascii "/x"]
        sample_setup).map (fun r => r.putenv)
      = some (some (ascii "PREFORK_INTERP=v1,100.000000000 5,11,7,8")) ∧
    split_on ch_space (ascii "v1,100.000000000 5,11,7,8")
      = [ascii "v1,100.000000000", ascii "5,11,7,8"] ∧
    split_on ch_comma (ascii "5,11,7,8") = [ascii "5", ascii "11", ascii "7", ascii "8"] := by
  decide

/-! ## The staleness timer (cgi-fcgi-interp.c, `alarm_handler`) -/

/-- The outcomes of a sequence of expiries whose looks at the script all
succeed, from a clear flag: as long as the script is found fresh the alarm
is queued again; the first stale finding sets the flag and queues the alarm;
the expiry after that exits with status 0, whatever the script looks like
then. -/
theorem alarm_expiries_fresh_then_stale (check_interval : Int) (baseline_time : Stat) :
    ∀ (pre : List ScriptLook),
      (∀ l ∈ pre, check_garbage_vs l.script_lstat l.script_stat baseline_time = .ok false) →
      (alarm_expiries check_interval baseline_time false pre
          = pre.map fun _ => .queue_alarm (check_interval % 2 ^ 32).toNat false) ∧
      ∀ (s : ScriptLook) (rest : List ScriptLook),
        check_garbage_vs s.script_lstat s.script_stat baseline_time = .ok true →
        alarm_expiries check_interval baseline_time false (pre ++ s :: rest)
          = (pre.map fun _ => .queue_alarm (check_interval % 2 ^ 32).toNat false) ++
              .queue_alarm (check_interval % 2 ^ 32).toNat true ::
                (if rest = [] then [] else [.exited 0])
  | [], _ => by
    refine ⟨rfl, fun s rest hs => ?_⟩
    cases rest with
    | nil => simp [alarm_expiries, alarm_handler, hs]
    | cons r rest => simp [alarm_expiries, alarm_handler, hs]
  | l :: pre, h => by
    have hl := h l (List.mem_cons_self _ _)
    obtain ⟨ih1, ih2⟩ := alarm_expiries_fresh_then_stale check_interval baseline_time pre
      (fun x hx => h x (List.mem_cons_of_mem _ hx))
    refine ⟨?_, fun s rest hs => ?_⟩
    · simp [alarm_expiries, alarm_handler, hl, ih1]
    · simp [alarm_expiries, alarm_handler, hl, ih2 s rest hs]

/-- C24 (the claim as stated fails): the server started at the time 100;
at the first expiry the script is found modified at the time 200 (stale), at
the second expiry it is modified at the time 50 (it would be found fresh).
The handler exits at the second expiry without looking at the script: the
server exits after a single stale observation. -/
theorem alarm_exit_after_single_stale_look :
    check_garbage_vs (sample_look 200).script_lstat (sample_look 200).script_stat
        sample_baseline = .ok true ∧
    check_garbage_vs (sample_look 50).script_lstat (sample_look 50).script_stat
        sample_baseline = .ok false ∧
    alarm_expiries 300 sample_baseline false [sample_look 200, sample_look 50]
      = [.queue_alarm 300 true, .exited 0] := by
  decide

/-- C24 (amended): the staleness timer of stage 2. An expiry with the flag
`out_of_date` clear looks at the script: when it finds it fresh it calls
`alarm(check_interval)` again and does not exit; when it finds it stale it
only sets the flag and calls `alarm(check_interval)` again, and never exits
at that expiry. An expiry with the flag set exits with status 0 without
looking at the script. So in a sequence of expiries the server exits exactly
at the expiry that follows the first stale finding. -/
theorem alarm_two_strikes (check_interval : Int) (baseline_time : Stat) :
    (∀ look stale,
      check_garbage_vs look.script_lstat look.script_stat baseline_time = .ok stale →
      alarm_handler check_interval baseline_time false look
        = .queue_alarm (check_interval % 2 ^ 32).toNat stale) ∧
    (∀ look, alarm_handler check_interval baseline_time true look = .exited 0) ∧
    (∀ look status, alarm_handler check_interval baseline_time false look ≠ .exited status) ∧
    (∀ pre : List ScriptLook,
      (∀ l ∈ pre, check_garbage_vs l.script_lstat l.script_stat baseline_time = .ok false) →
      (alarm_expiries check_interval baseline_time false pre
          = pre.map fun _ => .queue_alarm (check_interval % 2 ^ 32).toNat false) ∧
      ∀ (s : ScriptLook) (rest : List ScriptLook),
        check_garbage_vs s.script_lstat s.script_stat baseline_time = .ok true →
        alarm_expiries check_interval baseline_time false (pre ++ s :: rest)
          = (pre.map fun _ => .queue_alarm (check_interval % 2 ^ 32).toNat false) ++
              .queue_alarm (check_interval % 2 ^ 32).toNat true ::
                (if rest = [] then [] else [.exited 0])) := by
  refine ⟨fun look stale h => by simp [alarm_handler, h], fun look => by simp [alarm_handler],
    fun look status => ?_, alarm_expiries_fresh_then_stale check_interval baseline_time⟩
  unfold alarm_handler
  simp only [Bool.false_eq_true, ↓reduceIte]
  split <;> simp

/-- C24 (witness): two fresh findings, a stale one, and one more expiry. -/
theorem alarm_two_strikes_witness :
    alarm_expiries 300 sample_baseline false
        ([sample_look 50, sample_look 60] ++ sample_look 200 :: [sample_look 200])
      = [.queue_alarm 300 false, .queue_alarm 300 false, .queue_alarm 300 true, .exited 0] :=
  ((alarm_two_strikes 300 sample_baseline).2.2.2 [sample_look 50, sample_look 60]
    (by decide)).2 (sample_look 200) [sample_look 200] (by decide)

/-! ## `-E` and `-G` (prefork.c) -/

/-- C25 (the code on every input): what `-E` and `-G` give to the hash. The
option `-E name` adds the key byte `'E'`, the name and a NUL, and then the
key byte `'v'`, the value and a NUL, or a single byte 0 when the variable is
unset; the option `-G string` adds the key byte `'G'`, the string and a NUL.
So the byte string given to SHA-256 for an invocation with `-E name` differs
from the one for the same invocation with any `-G string` in its place, in
particular with `-G name=value` and with `-G name`. -/
theorem ident_env_option_differs (init : List Nat) (getenv : CStr → Option CStr)
    (pre post : List IdentOpt) (name string : CStr) (interp : CStr) (script : Option CStr) :
    off_ident_addenv getenv init name
      = init ++ ch_E :: (name ++ [0]) ++
          (match getenv name with
           | some value => ch_v :: (value ++ [0])
           | none => [0]) ∧
    off_ident_addstring init string = init ++ ch_G :: (string ++ [0]) ∧
    ident_input init getenv (pre ++ .E name :: post) interp script
      ≠ ident_input init getenv (pre ++ .G string :: post) interp script := by
  refine ⟨?_, ?_, ?_⟩
  · cases h : getenv name <;>
      simp [off_ident_addenv, ident_addstring, ident_add_key_byte, h]
  · simp [off_ident_addstring, ident_addstring, ident_add_key_byte]
  · intro h
    rw [ident_input_bytes, ident_input_bytes] at h
    have h1 := List.append_cancel_left h
    simp only [List.map_append, List.map_cons, IdentOpt.fragment] at h1
    have hfb : ∀ (l1 l2 : List IdentFragment),
        fragments_bytes (l1 ++ l2) = fragments_bytes l1 ++ fragments_bytes l2 := by
      intro l1 l2
      induction l1 with
      | nil => simp [fragments_bytes]
      | cons f l1 ih => simp [fragments_bytes, ih]
    rw [hfb, hfb, List.append_assoc, List.append_assoc] at h1
    have h2 := List.append_cancel_left h1
    cases hv : getenv name <;>
      simp [fragments_bytes, IdentFragment.bytes, hv, ch_E, ch_G] at h2

/-! ## The watcher (prefork-interp.c, `watcher_cb_sockpath`) -/

/-- As long as `stat` finds the socket path with the device and inode of
`initial_stab`, the loop of the callback goes on. -/
theorem watcher_cb_sockpath_loop_same (initial_stab : Stat) :
    ∀ (stats : List (Except Errno Stat)),
      (∀ r ∈ stats, ∃ now_stab, r = .ok now_stab ∧
        stabs_same_inode now_stab initial_stab = true) →
      watcher_cb_sockpath_loop initial_stab stats = .pending
  | [], _ => rfl
  | r :: stats, h => by
    obtain ⟨now_stab, rfl, hs⟩ := h r (List.mem_cons_self _ _)
    simp only [watcher_cb_sockpath_loop, hs, Bool.not_true, Bool.false_eq_true, ↓reduceIte]
    exact watcher_cb_sockpath_loop_same initial_stab stats
      (fun x hx => h x (List.mem_cons_of_mem _ hx))

theorem watcher_cb_sockpath_loop_never_returns (initial_stab : Stat) :
    ∀ (stats : List (Except Errno Stat)),
      watcher_cb_sockpath_loop initial_stab stats ≠ .returned
  | [] => by simp [watcher_cb_sockpath_loop]
  | .error e :: stats => by
    cases e <;> simp [watcher_cb_sockpath_loop]
    exact watcher_cb_sockpath_loop_never_returns initial_stab stats
  | .ok now_stab :: stats => by
    simp only [watcher_cb_sockpath_loop]
    split
    · simp
    · exact watcher_cb_sockpath_loop_never_returns initial_stab stats

/-- C28 (the code at the failing input): the event loop calls the callback
with status 0 after a change of the socket path that leaves its device and
inode as they were. However many times `stat` answers with the device and
inode of `initial_stab`, the callback is still in its loop and calls `stat`
again; on no sequence of `stat` results does it return to the event loop. A
missing path (ENOENT) and another inode make the process exit with status
0. -/
theorem watcher_cb_sockpath_spins (initial_stab : Stat) (n : Nat)
    (stats : List (Except Errno Stat)) :
    watcher_cb_sockpath 0 initial_stab (List.replicate n (.ok initial_stab)) = .pending ∧
    watcher_cb_sockpath 0 initial_stab stats ≠ .returned ∧
    watcher_cb_sockpath 0 initial_stab
        (List.replicate n (.ok initial_stab) ++ .error .ENOENT :: stats) = .exited 0 ∧
    watcher_cb_sockpath 0 initial_stab
        (List.replicate n (.ok initial_stab) ++
          .ok { initial_stab with st_ino := initial_stab.st_ino + 1 } :: stats)
      = .exited 0 := by
  have hsame : stabs_same_inode initial_stab initial_stab = true := by
    simp [stabs_same_inode]
  have hskip : ∀ (m : Nat) (tail : List (Except Errno Stat)),
      watcher_cb_sockpath_loop initial_stab (List.replicate m (.ok initial_stab) ++ tail)
        = watcher_cb_sockpath_loop initial_stab tail := by
    intro m tail
    induction m with
    | zero => rfl
    | succ m ih => simp [List.replicate_succ, watcher_cb_sockpath_loop, hsame, ih]
  refine ⟨?_, ?_, ?_, ?_⟩
  · simp only [watcher_cb_sockpath, neg_zero, ne_eq, not_true_eq_false, ↓reduceIte]
    exact watcher_cb_sockpath_loop_same initial_stab _ (fun r hr => by
      rw [List.eq_of_mem_replicate hr]; exact ⟨_, rfl, hsame⟩)
  · simp only [watcher_cb_sockpath, neg_zero, ne_eq, not_true_eq_false, ↓reduceIte]
    exact watcher_cb_sockpath_loop_never_returns initial_stab stats
  · simp [watcher_cb_sockpath, hskip, watcher_cb_sockpath_loop]
  · simp [watcher_cb_sockpath, hskip, watcher_cb_sockpath_loop, stabs_same_inode]

/-! ## The two passes of `prepare_message` (prefork-interp.c, `send_request`) -/

/-- The filling pass after `prepare_length`: the buffer holds the four bytes
of the length and the message body, `len + 4` bytes. -/
theorem fill_pass_length (environ executor_argv : List CStr)
    (hL : message_length environ executor_argv ≤ UINT32_MAX) :
    ∃ st1 m, prepare_length ⟨none, some []⟩ (message_length environ executor_argv) = .ok st1 ∧
      prepare_message st1 environ executor_argv = .ok ⟨none, some m⟩ ∧
      m = htonl_bytes (message_length environ executor_argv) ++
        message_body environ executor_argv ∧
      m.length = message_length environ executor_argv + 4 ∧
      m.length = (message_length environ executor_argv + 4) % 2 ^ 64 := by
  have hlen : (htonl_bytes (message_length environ executor_argv) ++
      message_body environ executor_argv).length
        = message_length environ executor_argv + 4 := by
    simp [htonl_bytes, message_body_length]
  refine ⟨⟨none, some (htonl_bytes (message_length environ executor_argv))⟩, _, ?_, ?_, rfl,
    hlen, ?_⟩
  · unfold prepare_length
    rw [if_neg (by omega)]
    rfl
  · rw [prepare_message_fill]
    rfl
  · rw [hlen]
    have : message_length environ executor_argv ≤ 2 ^ 32 - 1 := hL
    omega

/-- The ways in which a call of `send_fd` can stop the process. -/
theorem send_fd_fatal : ∀ (l : List (Except Errno Nat)) (f : Fatal), send_fd l = .fatal f →
    f = diee "send fd" ∨ f = assert_failed "r == 1"
  | [], f, h => by simp [send_fd] at h
  | .error e :: l, f, h => by
    cases e <;> simp only [send_fd, SendFdResult.fatal.injEq] at h <;>
      first
        | exact send_fd_fatal l f h
        | exact Or.inl h.symm
  | .ok r :: l, f, h => by
    simp only [send_fd] at h
    split at h
    · cases h
    · exact Or.inr (SendFdResult.fatal.inj h).symm

/-- The ways in which the calls of `send_fd` can stop the process. -/
theorem send_fds_halted (k : SendAnswers) :
    ∀ (fds : List Nat) (t : List Event) (h : Halt), (send_fds k fds t).halted = some h →
      h = .pending ∨ h = .fatal (diee "send fd") ∨ h = .fatal (assert_failed "r == 1")
  | [], t, h, hh => by simp [send_fds] at hh
  | fd :: fds, t, h, hh => by
    unfold send_fds at hh
    split at hh
    · exact send_fds_halted k fds _ h hh
    · rename_i f hf
      simp only [Option.some.injEq] at hh
      subst hh
      rcases send_fd_fatal _ f hf with h | h <;> simp [h]
    · simp only [Option.some.injEq] at hh
      exact Or.inl hh.symm

/-- The assertion `p == m + tlen` of `send_request` never fails. -/
theorem send_request_assert_holds (environ executor_argv : List CStr) (k : SendAnswers) :
    (send_request environ executor_argv k).halted
      ≠ some (.fatal (assert_failed "p == m + tlen")) := by
  unfold send_request
  split
  · simp [diee, assert_failed]
  · have hfds := send_fds_halted k [0, 1, 2] [.write_ibyte]
    generalize send_fds k [0, 1, 2] [.write_ibyte] = fds at hfds
    simp only
    split
    · rename_i h hh
      rcases hfds h hh with h1 | h1 | h1 <;> simp [h1, diee, assert_failed]
    · rw [prepare_message_size]
      by_cases hbig : message_length environ executor_argv ≥ SIZE_MAX
      · rw [if_pos hbig]
        simp [die_data_overflow, die, assert_failed]
      · rw [if_neg hbig]
        simp only [Option.getD_some]
        split
        · simp [diee, assert_failed]
        · by_cases hL : message_length environ executor_argv ≤ UINT32_MAX
          · obtain ⟨st1, m, h1, h2, -, -, h5⟩ := fill_pass_length environ executor_argv hL
            rw [h1]
            simp only [h2, Option.getD_some, h5, ne_eq, not_true_eq_false, ↓reduceIte]
            split
            · simp [diee, assert_failed]
            · split <;> simp [diee, assert_failed]
          · have : prepare_length ⟨none, some []⟩ (message_length environ executor_argv)
                = .error die_data_overflow := by
              unfold prepare_length
              rw [if_pos (by omega)]
            rw [this]
            simp [die_data_overflow, die, assert_failed]

/-- C30: the two passes of `prepare_message` agree. When the sizing pass
`prepare_message(&len, 0)` returns, `len` is the sum over the strings sent of
`strlen + 1`, and a filling pass over the same vectors stores exactly `len`
bytes. In `send_request`, where the buffer has `tlen = len + 4` bytes and the
filling pass follows the four bytes of `prepare_length`, the bytes stored are
exactly `len + 4` (with no wrap of `size_t`), so that `p == m + tlen` holds;
the assertion fails in no run of `send_request`. -/
theorem two_pass_consistency (environ executor_argv : List CStr) (k : SendAnswers)
    (sized : PrepState)
    (h : prepare_message ⟨some 0, none⟩ environ executor_argv = .ok sized) :
    sized.len = some (message_length environ executor_argv) ∧
    (∀ b, ∃ m, prepare_message ⟨none, some b⟩ environ executor_argv = .ok ⟨none, some m⟩ ∧
      m.length = b.length + message_length environ executor_argv) ∧
    (message_length environ executor_argv ≤ UINT32_MAX →
      ∃ st1 m, prepare_length ⟨none, some []⟩ (message_length environ executor_argv)
          = .ok st1 ∧
        prepare_message st1 environ executor_argv = .ok ⟨none, some m⟩ ∧
        m.length = message_length environ executor_argv + 4 ∧
        m.length = (message_length environ executor_argv + 4) % 2 ^ 64) ∧
    (send_request environ executor_argv k).halted
      ≠ some (.fatal (assert_failed "p == m + tlen")) := by
  rw [prepare_message_size] at h
  refine ⟨?_, fun b => ⟨_, prepare_message_fill environ executor_argv b, ?_⟩, fun hL => ?_,
    send_request_assert_holds environ executor_argv k⟩
  · split at h
    · cases h
    · cases h; rfl
  · rw [List.length_append]
    exact congrArg _ (message_body_length environ executor_argv)
  · obtain ⟨st1, m, h1, h2, -, h4, h5⟩ := fill_pass_length environ executor_argv hL
    exact ⟨st1, m, h1, h2, h4, h5⟩

/-- C30 (witness): the environment `A=1`, `B` and the vector `p`, `/x`,
`a`: the sizing pass gives 12 and the filling pass stores 12 bytes. -/
theorem two_pass_consistency_witness :
    prepare_message ⟨some 0, none⟩ [[65, 61, 49], [66]] [[112], [47, 120], [97]]
        = .ok ⟨some 12, none⟩ ∧
      ∃ m, prepare_message ⟨none, some []⟩ [[65, 61, 49], [66]] [[112], [47, 120], [97]]
          = .ok ⟨none, some m⟩ ∧
        m.length = ([] : List Nat).length +
          message_length [[65, 61, 49], [66]] [[112], [47, 120], [97]] :=
  ⟨by decide,
    (two_pass_consistency [[65, 61, 49], [66]] [[112], [47, 120], [97]] sample_send_answers
      ⟨some 12, none⟩ (by decide)).2.1 []⟩

/-! ## The combined argument (prefork.c, `process_opts`) -/

theorem findIdx_not_mem (c : Nat) : ∀ (l : List Nat), c ∉ l → l.findIdx? (· == c) = none
  | [], _ => rfl
  | b :: l, h => by
    simp only [List.mem_cons, not_or] at h
    have hb : (b == c) = false := by simpa using fun hbc => h.1 hbc.symm
    simp [List.findIdx?_cons, hb, findIdx_not_mem c l h.2]

theorem findIdx_append_sep (c : Nat) (R : List Nat) : ∀ (l : List Nat), c ∉ l →
    (l ++ c :: R).findIdx? (· == c) = some l.length
  | [], _ => by simp [List.findIdx?_cons]
  | b :: l, h => by
    simp only [List.mem_cons, not_or] at h
    have hb : (b == c) = false := by simpa using fun hbc => h.1 hbc.symm
    simp [List.findIdx?_cons, hb, findIdx_append_sep c R l h.2]

/-- The delimiter that `process_opts` finds after a token without space and
comma: the separator, when that is a space, or a comma with no space after
it in the argument. -/
theorem find_delim_token (tok R : CStr) (sep : Nat) (hns : ch_space ∉ tok)
    (hnc : ch_comma ∉ tok) (hsep : sep = ch_space ∨ (sep = ch_comma ∧ ch_space ∉ R)) :
    find_delim (tok ++ sep :: R) = some tok.length := by
  unfold find_delim
  rcases hsep with rfl | ⟨rfl, hR⟩
  · rw [findIdx_append_sep _ _ _ hns]
  · have : ch_space ∉ tok ++ ch_comma :: R := by
      simp only [List.mem_append, List.mem_cons, not_or]
      exact ⟨hns, by decide, hR⟩
    rw [findIdx_not_mem _ _ this, findIdx_append_sep _ _ _ hnc]

/-- One iteration of the loop over the combined argument, at a token that
is followed by a separator. -/
theorem split_loop_step (fuel : Nat) (split_args : List (Option CStr)) (split_argc : Nat)
    (tok R : CStr) (sep : Nat) (hargc : split_argc < MAX_OPTS)
    (hlen : split_argc < split_args.length) (htok : tok.head? = some ch_minus)
    (hns : ch_space ∉ tok) (hnc : ch_comma ∉ tok)
    (hsep : sep = ch_space ∨ (sep = ch_comma ∧ ch_space ∉ R)) :
    split_loop (fuel + 1) split_args split_argc (tok ++ sep :: R)
      = split_loop fuel (split_args.set split_argc (some tok)) (split_argc + 1) R := by
  have hhead : (tok ++ sep :: R).head? = some ch_minus := by
    cases tok with
    | nil => simp at htok
    | cons c t => simpa using htok
  rw [split_loop, if_neg (by omega), if_neg (by simp [hhead]),
    find_delim_token tok R sep hns hnc hsep]
  simp [store_arg, hlen]

theorem join_tokens_append (sep : Nat) (last : CStr) : ∀ (a b : List CStr),
    join_tokens sep (a ++ b) last = join_tokens sep a (join_tokens sep b last)
  | [], _ => rfl
  | t :: a, b => by simp [join_tokens, join_tokens_append sep last a b]

theorem space_not_mem_join (last : CStr) (hl : ch_space ∉ last) : ∀ (toks : List CStr),
    (∀ t ∈ toks, option_token t) → ch_space ∉ join_tokens ch_comma toks last
  | [], _ => hl
  | t :: toks, h => by
    simp only [join_tokens, List.mem_append, List.mem_cons, not_or]
    exact ⟨(h t (List.mem_cons_self _ _)).2.1, by decide,
      space_not_mem_join last hl toks (fun x hx => h x (List.mem_cons_of_mem _ hx))⟩

/-- The iterations of the loop over the option tokens of a combined
argument: each token is stored in the next slot of `split_args`. -/
theorem split_loop_tokens (sep : Nat) (last : CStr) (hd : Option CStr)
    (hsep : sep = ch_space ∨ (sep = ch_comma ∧ ch_space ∉ last)) :
    ∀ (toks stored : List CStr) (free : List (Option CStr)) (fuel : Nat),
      (∀ t ∈ toks, option_token t) → stored.length + toks.length < MAX_OPTS →
      toks.length ≤ free.length →
      split_loop (fuel + toks.length) (hd :: (stored.map some ++ free)) (1 + stored.length)
          (join_tokens sep toks last)
        = split_loop fuel (hd :: ((stored ++ toks).map some ++ free.drop toks.length))
            (1 + stored.length + toks.length) last
  | [], stored, free, fuel, _, _, _ => by simp [join_tokens]
  | t :: toks, stored, free, fuel, htoks, hargc, hfree => by
    obtain ⟨htok, hns, hnc⟩ := htoks t (List.mem_cons_self _ _)
    have htoks' : ∀ x ∈ toks, option_token x := fun x hx => htoks x (List.mem_cons_of_mem _ hx)
    simp only [List.length_cons] at hargc hfree
    obtain ⟨f, free', rfl⟩ : ∃ f free', free = f :: free' := by
      cases free with
      | nil => simp at hfree
      | cons f free' => exact ⟨f, free', rfl⟩
    have hsep' : sep = ch_space ∨ (sep = ch_comma ∧ ch_space ∉ join_tokens sep toks last) := by
      rcases hsep with h | ⟨h, hl⟩
      · exact Or.inl h
      · subst h
        exact Or.inr ⟨rfl, space_not_mem_join last hl toks htoks'⟩
    have hset : (hd :: (stored.map some ++ f :: free')).set (1 + stored.length) (some t)
        = hd :: ((stored ++ [t]).map some ++ free') := by
      rw [Nat.add_comm, List.set_cons_succ]
      have : stored.length = (stored.map some).length := by simp
      rw [this, List.set_append_right _ _ (Nat.le_refl _)]
      simp
    have hstep := split_loop_step (fuel + toks.length) (hd :: (stored.map some ++ f :: free'))
      (1 + stored.length) t (join_tokens sep toks last) sep (by omega)
      (by simp; omega) htok hns hnc hsep'
    have hih := split_loop_tokens sep last hd hsep toks (stored ++ [t]) free' fuel htoks'
      (by simp; omega) (by simpa using hfree)
    simp only [join_tokens, List.length_cons]
    rw [show fuel + (toks.length + 1) = fuel + toks.length + 1 by omega, hstep, hset]
    simp only [List.length_append, List.length_singleton] at hih
    rw [show 1 + stored.length + 1 = 1 + (stored.length + 1) by omega, hih]
    simp [Nat.add_assoc, Nat.add_comm]

theorem split_loop_last (fuel : Nat) (split_args : List (Option CStr)) (split_argc : Nat)
    (last : CStr) (hargc : split_argc < MAX_OPTS) (hlen : split_argc < split_args.length)
    (hlast : last.head? ≠ some ch_minus) :
    split_loop (fuel + 1) split_args split_argc last
      = some (.ok (split_args.set split_argc (some last), split_argc + 1)) := by
  rw [split_loop, if_neg (by omega), if_pos hlast]
  simp [store_arg, hlen]

theorem split_loop_too_many (fuel : Nat) (split_args : List (Option CStr)) (split_argc : Nat)
    (smashedopt : CStr) (hargc : MAX_OPTS ≤ split_argc) :
    split_loop (fuel + 1) split_args split_argc smashedopt
      = some (.error (die "too many options in combined arg")) := by
  rw [split_loop, if_pos hargc]

theorem split_loop_lacks (fuel : Nat) (split_args : List (Option CStr)) (split_argc : Nat)
    (last : CStr) (hargc : split_argc < MAX_OPTS) (hlen : split_argc < split_args.length)
    (hlast : option_token last) :
    split_loop (fuel + 1) split_args split_argc last
      = some (.error (badusage "combined arg lacks <interpreter>")) := by
  have hd : find_delim last = none := by
    unfold find_delim
    rw [findIdx_not_mem _ _ hlast.2.1, findIdx_not_mem _ _ hlast.2.2]
  rw [split_loop, if_neg (by omega), if_neg (by simp [hlast.1]), hd]
  simp [store_arg, hlen]

/-- The loop over the combined argument, for any argument: with the array of
`MAX_OPTS + 1` slots no store falls outside it, the loop ends within
`MAX_OPTS + 1 - split_argc` iterations, and when it is left by `break` the
assertion `split_argc <= MAX_OPTS` holds. -/
theorem split_loop_bounds : ∀ (fuel : Nat) (split_args : List (Option CStr))
    (split_argc : Nat) (smashedopt : CStr),
    split_args.length = MAX_OPTS + 1 → MAX_OPTS < fuel + 1 + split_argc →
    ∃ r, split_loop (fuel + 1) split_args split_argc smashedopt = some r ∧
      r ≠ .error buffer_overrun ∧
      ∀ args argc, r = .ok (args, argc) → argc ≤ MAX_OPTS ∧ args.length = MAX_OPTS + 1
  | fuel, split_args, split_argc, smashedopt, hlen, hfuel => by
    rw [split_loop]
    by_cases hargc : split_argc ≥ MAX_OPTS
    · rw [if_pos hargc]
      exact ⟨_, rfl, by decide, fun args argc h => by cases h⟩
    · rw [if_neg hargc]
      have hin : split_argc < split_args.length := by rw [hlen]; omega
      by_cases hhead : smashedopt.head? ≠ some ch_minus
      · rw [if_pos hhead]
        simp only [store_arg, hin, ↓reduceIte]
        refine ⟨_, rfl, by simp, fun args argc h => ?_⟩
        simp only [Except.ok.injEq, Prod.mk.injEq] at h
        obtain ⟨rfl, rfl⟩ := h
        exact ⟨by omega, by simpa using hlen⟩
      · rw [if_neg hhead]
        cases hd : find_delim smashedopt with
        | none =>
          simp only [store_arg, hin, ↓reduceIte]
          exact ⟨_, rfl, by decide, fun args argc h => by cases h⟩
        | some delim =>
          simp only [store_arg, hin, ↓reduceIte]
          cases fuel with
          | zero => omega
          | succ fuel =>
            exact split_loop_bounds fuel _ (split_argc + 1) _ (by simpa using hlen) (by omega)

/-- The loop over a combined argument of at most three option tokens and an
interpreter: the tokens and the interpreter are stored in the slots 1, 2,
... of `split_args`, in order. -/
theorem split_loop_combined (sep : Nat) (toks : List CStr) (interp : CStr) (hd : Option CStr)
    (hk : toks.length ≤ 3) (htoks : ∀ t ∈ toks, option_token t)
    (hinterp : interp.head? ≠ some ch_minus)
    (hsep : sep = ch_space ∨ (sep = ch_comma ∧ ch_space ∉ interp)) :
    split_loop (MAX_OPTS + 1) (hd :: List.replicate MAX_OPTS none) 1
        (join_tokens sep toks interp)
      = some (.ok (hd :: ((toks ++ [interp]).map some ++
          List.replicate (MAX_OPTS - 1 - toks.length) none), toks.length + 2)) := by
  have h1 := split_loop_tokens sep interp hd hsep toks [] (List.replicate MAX_OPTS none)
    (MAX_OPTS + 1 - toks.length) htoks (by simp [MAX_OPTS]; omega) (by simp [MAX_OPTS]; omega)
  rw [show MAX_OPTS + 1 - toks.length + toks.length = MAX_OPTS + 1 by simp [MAX_OPTS]; omega]
    at h1
  simp only [List.map_nil, List.nil_append, List.length_nil, Nat.add_zero] at h1
  rw [h1, show MAX_OPTS + 1 - toks.length = (MAX_OPTS - toks.length) + 1 by
    simp [MAX_OPTS]; omega]
  rw [split_loop_last _ _ _ _ (by simp [MAX_OPTS]; omega) (by simp [MAX_OPTS]; omega) hinterp]
  rcases toks with _ | ⟨t1, _ | ⟨t2, _ | ⟨t3, _ | ⟨t4, toks⟩⟩⟩⟩
  · simp [MAX_OPTS]
  · simp [MAX_OPTS]
  · simp [MAX_OPTS]
  · simp [MAX_OPTS]
  · simp at hk

/-- The loop over a combined argument of four or more option tokens that
are followed by more text: the fifth iteration finds `split_argc >=
MAX_OPTS`. -/
theorem split_loop_four_tokens (sep : Nat) (toks : List CStr) (tail : CStr)
    (hd : Option CStr) (hk : 4 ≤ toks.length) (htoks : ∀ t ∈ toks, option_token t)
    (hsep : sep = ch_space ∨ (sep = ch_comma ∧ ch_space ∉ tail)) :
    split_loop (MAX_OPTS + 1) (hd :: List.replicate MAX_OPTS none) 1
        (join_tokens sep toks tail)
      = some (.error (die "too many options in combined arg")) := by
  have hsplit : toks = toks.take 4 ++ toks.drop 4 := (List.take_append_drop 4 toks).symm
  have hlen4 : (toks.take 4).length = 4 := by simp; omega
  have hsep' : sep = ch_space ∨
      (sep = ch_comma ∧ ch_space ∉ join_tokens sep (toks.drop 4) tail) := by
    rcases hsep with h | ⟨h, hl⟩
    · exact Or.inl h
    · subst h
      exact Or.inr ⟨rfl, space_not_mem_join tail hl _
        (fun x hx => htoks x (List.mem_of_mem_drop hx))⟩
  have h1 := split_loop_tokens sep (join_tokens sep (toks.drop 4) tail) hd hsep' (toks.take 4)
    [] (List.replicate MAX_OPTS none) 2 (fun x hx => htoks x (List.mem_of_mem_take hx))
    (by rw [hlen4]; decide) (by rw [hlen4]; decide)
  rw [hlen4] at h1
  simp only [List.map_nil, List.nil_append, List.length_nil, Nat.add_zero] at h1
  rw [hsplit, join_tokens_append]
  rw [show MAX_OPTS + 1 = 2 + 4 by rfl, h1]
  exact split_loop_too_many 1 _ _ _ (by decide)

/-- The loop over a combined argument of at most four option tokens and
nothing else: the last token has no delimiter after it. -/
theorem split_loop_no_interp (sep : Nat) (toks : List CStr) (last : CStr) (hd : Option CStr)
    (hk : toks.length ≤ 3) (htoks : ∀ t ∈ toks, option_token t) (hlast : option_token last)
    (hsep : sep = ch_space ∨ sep = ch_comma) :
    split_loop (MAX_OPTS + 1) (hd :: List.replicate MAX_OPTS none) 1
        (join_tokens sep toks last)
      = some (.error (badusage "combined arg lacks <interpreter>")) := by
  have hsep' : sep = ch_space ∨ (sep = ch_comma ∧ ch_space ∉ last) := by
    rcases hsep with h | h
    · exact Or.inl h
    · exact Or.inr ⟨h, hlast.2.1⟩
  have h1 := split_loop_tokens sep last hd hsep' toks [] (List.replicate MAX_OPTS none)
    (MAX_OPTS + 1 - toks.length) htoks (by simp [MAX_OPTS]; omega) (by simp [MAX_OPTS]; omega)
  rw [show MAX_OPTS + 1 - toks.length + toks.length = MAX_OPTS + 1 by simp [MAX_OPTS]; omega]
    at h1
  simp only [List.map_nil, List.nil_append, List.length_nil, Nat.add_zero] at h1
  rw [h1, show MAX_OPTS + 1 - toks.length = (MAX_OPTS - toks.length) + 1 by
    simp [MAX_OPTS]; omega]
  exact split_loop_lacks _ _ _ _ (by simp [MAX_OPTS]; omega) (by simp [MAX_OPTS]; omega) hlast

/-- The iterations given to the loop over the combined argument suffice:
`process_opts` gives a result for every vector. -/
theorem process_opts_total {σ : Type} (cmdinfos : List (cmdinfo σ)) (st : σ)
    (argv : List CStr) : process_opts cmdinfos st argv ≠ none := by
  unfold process_opts
  split
  · split
    · rename_i argv0 smashedopt rest hc
      simp only [store_arg, List.length_replicate, Nat.zero_lt_succ, ↓reduceIte]
      obtain ⟨r, hr, -, -⟩ := split_loop_bounds MAX_OPTS
        ((List.replicate (MAX_OPTS + 1) none).set 0 rest.head?) 1 smashedopt (by simp)
        (by omega)
      rw [hr]
      rcases r with f | ⟨args, argc⟩
      · simp
      · simp only
        split
        · simp
        · split
          · simp
          · split
            · simp
            · split <;> simp
    · split <;> simp
  · split <;> simp

/-- The arguments that follow the place where `myopt` stops do not matter
to it: when the loop returns with arguments left, it returns in the same way
with more arguments after them. -/
theorem myopt_loop_append {σ : Type} (cmdinfos : List (cmdinfo σ)) (more : List CStr) :
    ∀ (args : List CStr) (st : σ) (pending : Option (cmdinfo σ × String)) (st1 : σ)
      (left : List CStr), left ≠ [] →
      myopt_loop cmdinfos st pending args = .ok (st1, left) →
      myopt_loop cmdinfos st pending (args ++ more) = .ok (st1, left ++ more)
  | [], st, none, st1, left, hne, h => by
    simp only [myopt_loop, Except.ok.injEq, Prod.mk.injEq] at h
    exact absurd h.2.symm hne
  | [], st, some (cip, msg), st1, left, hne, h => by
    simp [myopt_loop] at h
  | value :: args, st, some (cip, msg), st1, left, hne, h => by
    simp only [myopt_loop, List.cons_append] at h ⊢
    cases he : cip.effect (some value) st with
    | error f => rw [he] at h; cases h
    | ok st2 =>
      rw [he] at h
      simp only at h ⊢
      exact myopt_loop_append cmdinfos more args st2 none st1 left hne h
  | p :: args, st, none, st1, left, hne, h => by
    rw [List.cons_append]
    rw [myopt_loop] at h ⊢
    by_cases h1 : p.head? ≠ some ch_minus
    · rw [if_pos h1] at h ⊢
      cases h
      rfl
    · rw [if_neg h1] at h ⊢
      by_cases h2 : p = [ch_minus, ch_minus]
      · rw [if_pos h2] at h ⊢
        cases h
        rfl
      · rw [if_neg h2] at h ⊢
        by_cases h3 : p.tail.head? = some ch_minus
        · rw [if_pos h3] at h ⊢
          cases hfl : find_long (cmdinfo_entries cmdinfos) (p.drop 2) with
          | none => rw [hfl] at h; cases h
          | some cv =>
            obtain ⟨cip, value⟩ := cv
            simp only [hfl] at h ⊢
            by_cases h4 : cip.takesvalue ≠ 0
            · rw [if_pos h4] at h ⊢
              cases value with
              | none => exact myopt_loop_append cmdinfos more args st _ st1 left hne h
              | some v =>
                simp only at h ⊢
                cases he : cip.effect (some v) st with
                | error f => rw [he] at h; cases h
                | ok st2 =>
                  simp only [he] at h ⊢
                  exact myopt_loop_append cmdinfos more args st2 none st1 left hne h
            · rw [if_neg h4] at h ⊢
              cases value with
              | some v => cases h
              | none =>
                simp only at h ⊢
                cases he : cip.effect none st with
                | error f => rw [he] at h; cases h
                | ok st2 =>
                  simp only [he] at h ⊢
                  exact myopt_loop_append cmdinfos more args st2 none st1 left hne h
        · rw [if_neg h3] at h ⊢
          cases hs : myopt_short cmdinfos st p.tail with
          | error f => rw [hs] at h; cases h
          | ok sp =>
            obtain ⟨st2, pending⟩ := sp
            simp only [hs] at h ⊢
            exact myopt_loop_append cmdinfos more args st2 pending st1 left hne h

theorem join_tokens_combined (sep : Nat) (toks : List CStr) (last : CStr) (hk : toks ≠ [])
    (htoks : ∀ t ∈ toks, option_token t) (hsep : sep = ch_space ∨ sep = ch_comma) :
    (join_tokens sep toks last).head? = some ch_minus ∧
      (ch_space ∈ join_tokens sep toks last ∨ ch_comma ∈ join_tokens sep toks last) := by
  cases toks with
  | nil => exact absurd rfl hk
  | cons t toks =>
    obtain ⟨ht, -, -⟩ := htoks t (List.mem_cons_self _ _)
    cases t with
    | nil => simp at ht
    | cons c t =>
      refine ⟨by simpa [join_tokens] using ht, ?_⟩
      rcases hsep with rfl | rfl
      · exact Or.inl (by simp [join_tokens])
      · exact Or.inr (by simp [join_tokens])

/-- The function `process_opts` on a combined argument of one to three
option tokens and an interpreter: the tokens and the interpreter are given to
`shbang_opts`, and the script is the argument after the combined one. -/
theorem process_opts_combined {σ : Type} (cmdinfos : List (cmdinfo σ)) (st : σ)
    (argv0 : CStr) (sep : Nat) (toks : List CStr) (interp : CStr) (rest : List CStr)
    (hk1 : toks ≠ []) (hk3 : toks.length ≤ 3) (htoks : ∀ t ∈ toks, option_token t)
    (hinterp : interp.head? ≠ some ch_minus)
    (hsep : sep = ch_space ∨ (sep = ch_comma ∧ ch_space ∉ interp)) :
    process_opts cmdinfos st (argv0 :: join_tokens sep toks interp :: rest)
      = match shbang_opts cmdinfos st ([] :: (toks ++ [interp])) with
        | .error f => some (.error f)
        | .ok (st1, i, _) =>
          match rest with
          | [] =>
            some (.error (badusage "no script argument (expected after combined #! options)"))
          | script :: rest1 => some (.ok ⟨st1, i, some script, rest1⟩) := by
  have hcond := join_tokens_combined sep toks interp hk1 htoks
    (by rcases hsep with h | ⟨h, -⟩ <;> simp [h])
  have hstore : store_arg (List.replicate (MAX_OPTS + 1) none) 0 rest.head?
      = some (rest.head? :: List.replicate MAX_OPTS none) := by
    simp [store_arg, List.replicate_succ]
  have hloop := split_loop_combined sep toks interp rest.head? hk3 htoks hinterp hsep
  unfold process_opts
  simp only [hcond, and_self, ↓reduceIte, hstore, hloop]
  rcases toks with _ | ⟨t1, _ | ⟨t2, _ | ⟨t3, _ | ⟨t4, toks⟩⟩⟩⟩
  · exact absurd rfl hk1
  · simp [MAX_OPTS, store_arg]
  · simp [MAX_OPTS, store_arg]
  · simp [MAX_OPTS, store_arg]
  · simp at hk3

/-- The function `process_opts` on separate arguments: options whose first
one holds neither a space nor a comma, then the interpreter, the script and
the rest. -/
theorem process_opts_separate {σ : Type} (cmdinfos : List (cmdinfo σ)) (st : σ)
    (argv0 : CStr) (toks : List CStr) (interp : CStr) (rest : List CStr)
    (hk1 : toks ≠ []) (htoks : ∀ t ∈ toks, option_token t) :
    process_opts cmdinfos st (argv0 :: (toks ++ interp :: rest))
      = match shbang_opts cmdinfos st (argv0 :: (toks ++ interp :: rest)) with
        | .error f => some (.error f)
        | .ok (st1, i, rest1) => some (.ok (take_script st1 i rest1)) := by
  cases toks with
  | nil => exact absurd rfl hk1
  | cons t toks =>
    obtain ⟨-, hns, hnc⟩ := htoks t (List.mem_cons_self _ _)
    simp only [List.cons_append, process_opts, hns, hnc, or_self, and_false, ↓reduceIte]

/-- Combined and separate arguments are parsed alike, when `myopt` stops at
the interpreter token. -/
theorem process_opts_combined_eq_separate {σ : Type} (cmdinfos : List (cmdinfo σ)) (st : σ)
    (argv0 : CStr) (sep : Nat) (toks : List CStr) (interp script : CStr) (rest : List CStr)
    (hk1 : toks ≠ []) (hk3 : toks.length ≤ 3) (htoks : ∀ t ∈ toks, option_token t)
    (hinterp : interp.head? ≠ some ch_minus)
    (hsep : sep = ch_space ∨ (sep = ch_comma ∧ ch_space ∉ interp))
    (st1 : σ) (hstop : myopt_loop cmdinfos st none (toks ++ [interp]) = .ok (st1, [interp])) :
    process_opts cmdinfos st (argv0 :: join_tokens sep toks interp :: script :: rest)
        = some (.ok ⟨st1, interp, some script, rest⟩) ∧
      process_opts cmdinfos st (argv0 :: (toks ++ interp :: script :: rest))
        = some (.ok ⟨st1, interp, some script, rest⟩) := by
  constructor
  · rw [process_opts_combined cmdinfos st argv0 sep toks interp _ hk1 hk3 htoks hinterp hsep]
    simp [shbang_opts, myopt, hstop]
  · rw [process_opts_separate cmdinfos st argv0 toks interp _ hk1 htoks]
    have := myopt_loop_append cmdinfos (script :: rest) (toks ++ [interp]) st none st1
      [interp] (by simp) hstop
    simp only [List.append_assoc, List.singleton_append] at this
    simp [shbang_opts, myopt, this, take_script]

/-- The function `process_opts` on a combined argument of two to four option
tokens and nothing else. -/
theorem process_opts_no_interp {σ : Type} (cmdinfos : List (cmdinfo σ)) (st : σ)
    (argv0 : CStr) (sep : Nat) (toks : List CStr) (last : CStr) (rest : List CStr)
    (hk1 : toks ≠ []) (hk3 : toks.length ≤ 3) (htoks : ∀ t ∈ toks, option_token t)
    (hlast : option_token last) (hsep : sep = ch_space ∨ sep = ch_comma) :
    process_opts cmdinfos st (argv0 :: join_tokens sep toks last :: rest)
      = some (.error (badusage "combined arg lacks <interpreter>")) := by
  have hcond := join_tokens_combined sep toks last hk1 htoks hsep
  have hstore : store_arg (List.replicate (MAX_OPTS + 1) none) 0 rest.head?
      = some (rest.head? :: List.replicate MAX_OPTS none) := by
    simp [store_arg, List.replicate_succ]
  have hloop := split_loop_no_interp sep toks last rest.head? hk3 htoks hlast hsep
  unfold process_opts
  simp only [hcond, and_self, ↓reduceIte, hstore, hloop]

theorem find_delim_take_head (smashedopt : CStr) (delim : Nat)
    (hhead : smashedopt.head? = some ch_minus) (hd : find_delim smashedopt = some delim) :
    (smashedopt.take delim).head? = some ch_minus := by
  cases smashedopt with
  | nil => simp at hhead
  | cons c s =>
    simp only [List.head?_cons, Option.some.injEq] at hhead
    subst hhead
    cases delim with
    | zero =>
      exfalso
      unfold find_delim at hd
      simp [List.findIdx?_cons, ch_minus, ch_space, ch_comma] at hd
      split at hd <;> simp_all
    | succ j => simp

/-- What the loop over the combined argument leaves when it is left by
`break`: `split_argc` has grown, by at most up to `MAX_OPTS`; the slots below
the starting index are untouched; every slot from the starting index on
holds a token, and all these tokens begin with `'-'` but the last one, which
does not. -/
theorem split_loop_accepted : ∀ (fuel : Nat) (split_args : List (Option CStr))
    (split_argc : Nat) (smashedopt : CStr) (args : List (Option CStr)) (argc : Nat),
    split_loop fuel split_args split_argc smashedopt = some (.ok (args, argc)) →
    split_argc < argc ∧ argc ≤ MAX_OPTS ∧ args.length = split_args.length ∧
    (∀ i, i < split_argc → args[i]? = split_args[i]?) ∧
    (∀ i, split_argc ≤ i → i < argc →
      ∃ t, args[i]? = some (some t) ∧ (t.head? = some ch_minus ↔ i + 1 < argc))
  | 0, _, _, _, _, _, h => by simp [split_loop] at h
  | fuel + 1, split_args, split_argc, smashedopt, args, argc, h => by
    rw [split_loop] at h
    by_cases hargc : split_argc ≥ MAX_OPTS
    · rw [if_pos hargc] at h
      simp at h
    · rw [if_neg hargc] at h
      by_cases hin : split_argc < split_args.length
      · by_cases hhead : smashedopt.head? ≠ some ch_minus
        · rw [if_pos hhead] at h
          simp only [store_arg, hin, ↓reduceIte, Option.some.injEq, Except.ok.injEq,
            Prod.mk.injEq] at h
          obtain ⟨rfl, rfl⟩ := h
          refine ⟨by omega, by omega, by simp, fun i hi => ?_, fun i h1 h2 => ?_⟩
          · rw [List.getElem?_set_ne (by omega)]
          · have : i = split_argc := by omega
            subst this
            refine ⟨smashedopt, by simp [hin], ?_⟩
            simp [hhead]
        · rw [if_neg hhead] at h
          have hhead' : smashedopt.head? = some ch_minus := by simpa using hhead
          cases hd : find_delim smashedopt with
          | none =>
            simp only [hd, store_arg, hin, ↓reduceIte] at h
            simp at h
          | some delim =>
            simp only [hd, store_arg, hin, ↓reduceIte] at h
            obtain ⟨h1, h2, h3, h4, h5⟩ := split_loop_accepted fuel _ _ _ _ _ h
            refine ⟨by omega, h2, by simpa using h3, fun i hi => ?_, fun i hi1 hi2 => ?_⟩
            · rw [h4 i (by omega), List.getElem?_set_ne (by omega)]
            · by_cases hie : i = split_argc
              · subst hie
                refine ⟨smashedopt.take delim, ?_, ?_⟩
                · rw [h4 i (by omega)]
                  simp [hin]
                · simp [find_delim_take_head smashedopt delim hhead' hd]
                  omega
              · exact h5 i (by omega) hi2
      · simp only [store_arg, hin, ↓reduceIte] at h
        repeat' split at h
        all_goals simp at h

/-- The function `process_opts` on a combined argument of four or more
option tokens that are followed by more text. -/
theorem process_opts_too_many {σ : Type} (cmdinfos : List (cmdinfo σ)) (st : σ)
    (argv0 : CStr) (sep : Nat) (toks : List CStr) (tail : CStr) (rest : List CStr)
    (hk : 4 ≤ toks.length) (htoks : ∀ t ∈ toks, option_token t)
    (hsep : sep = ch_space ∨ (sep = ch_comma ∧ ch_space ∉ tail)) :
    process_opts cmdinfos st (argv0 :: join_tokens sep toks tail :: rest)
      = some (.error (die "too many options in combined arg")) := by
  have hcond := join_tokens_combined sep toks tail
    (by rintro rfl; simp at hk) htoks (by rcases hsep with h | ⟨h, -⟩ <;> simp [h])
  have hstore : store_arg (List.replicate (MAX_OPTS + 1) none) 0 rest.head?
      = some (rest.head? :: List.replicate MAX_OPTS none) := by
    simp [store_arg, List.replicate_succ]
  have hloop := split_loop_four_tokens sep toks tail rest.head? hk htoks hsep
  unfold process_opts
  simp only [hcond, and_self, ↓reduceIte, hstore, hloop]

/-- C29 (the claim as stated fails): the combined argument `-U -f -Ga -Gb`
of prefork-interp, four option tokens with nothing after them (and the same
joined by commas). The loop stores the fourth token in slot 4 and finds no
delimiter after it, so that the argument is rejected with the usage error
"combined arg lacks <interpreter>" (status 255): the check that gives the
fatal error "too many options in combined arg" (status 127) stands at the top
of a fifth iteration, which is not reached. -/
theorem combined_arg_four_options_alone :
    split_loop (MAX_OPTS + 1) (some (ascii "/x") :: List.replicate MAX_OPTS none) 1
        (ascii "-U -f -Ga -Gb")
      = some (.error (badusage "combined arg lacks <interpreter>")) ∧
    process_opts (prefork_interp_cmdinfos fun _ => none) (prefork_opts_initial [1])
        [ascii "prefork-interp", ascii "-U -f -Ga -Gb", ascii "/x"]
      = some (.error (badusage "combined arg lacks <interpreter>")) ∧
    process_opts (prefork_interp_cmdinfos fun _ => none) (prefork_opts_initial [1])
        [ascii "prefork-interp", ascii "-U,-f,-Ga,-Gb", ascii "/x"]
      = some (.error (badusage "combined arg lacks <interpreter>")) ∧
    process_opts (prefork_interp_cmdinfos fun _ => none) (prefork_opts_initial [1])
        [ascii "prefork-interp", ascii "-U -f -Ga -Gb", ascii "/x"]
      ≠ some (.error (die "too many options in combined arg")) ∧
    badusage "combined arg lacks <interpreter>" = ⟨255, "combined arg lacks <interpreter>"⟩ ∧
    die "too many options in combined arg" = ⟨127, "too many options in combined arg"⟩ := by
  decide

/-- C29 (amended): the bounds of the array `split_args` and the limit on the
tokens of a combined argument. For every combined argument (and every script
argument, null or not): the store into slot 0 and every store of the loop
fall inside the array of `MAX_OPTS + 1 = 6` slots, the loop ends, and when
it is left by `break` the assertion `split_argc <= MAX_OPTS` holds, the store
of the terminating null pointer falls inside the array too, and the slots
1 .. `split_argc - 1` hold the tokens, of which the last (the interpreter)
does not begin with `'-'` and the ones before it (at most 3) do. For option
tokens joined all by single spaces, or all by single commas with no space in
what follows them: four or more option tokens that are followed by more text
are rejected with the fatal error "too many options in combined arg", by the
loop and so by `process_opts`; at most three option tokens before an
interpreter pass the loop; at most four option tokens with nothing after them
are rejected with the usage error "combined arg lacks <interpreter>". -/
theorem combined_arg_bounds {σ : Type} (cmdinfos : List (cmdinfo σ)) (st : σ)
    (argv0 : CStr) (rest : List CStr) (smashedopt : CStr) (script : Option CStr) (sep : Nat)
    (toks : List CStr) (tail : CStr) :
    (List.replicate (MAX_OPTS + 1) (none : Option CStr)).length = 6 ∧
    (∃ split_args0, store_arg (List.replicate (MAX_OPTS + 1) none) 0 script = some split_args0 ∧
      ∃ r, split_loop (MAX_OPTS + 1) split_args0 1 smashedopt = some r ∧
        r ≠ .error buffer_overrun ∧
        ∀ args argc, r = .ok (args, argc) →
          argc ≤ MAX_OPTS ∧ (store_arg args argc none).isSome = true ∧
          ∀ i, 1 ≤ i → i < argc →
            ∃ t, args[i]? = some (some t) ∧ (t.head? = some ch_minus ↔ i + 1 < argc)) ∧
    ((∀ t ∈ toks, option_token t) → (sep = ch_space ∨ (sep = ch_comma ∧ ch_space ∉ tail)) →
      (4 ≤ toks.length →
        split_loop (MAX_OPTS + 1) (script :: List.replicate MAX_OPTS none) 1
            (join_tokens sep toks tail)
          = some (.error (die "too many options in combined arg")) ∧
        process_opts cmdinfos st (argv0 :: join_tokens sep toks tail :: rest)
          = some (.error (die "too many options in combined arg"))) ∧
      (toks.length ≤ 3 → tail.head? ≠ some ch_minus →
        split_loop (MAX_OPTS + 1) (script :: List.replicate MAX_OPTS none) 1
            (join_tokens sep toks tail)
          = some (.ok (script :: ((toks ++ [tail]).map some ++
              List.replicate (MAX_OPTS - 1 - toks.length) none), toks.length + 2))) ∧
      (toks.length ≤ 3 → option_token tail →
        split_loop (MAX_OPTS + 1) (script :: List.replicate MAX_OPTS none) 1
            (join_tokens sep toks tail)
          = some (.error (badusage "combined arg lacks <interpreter>")) ∧
        (toks ≠ [] →
          process_opts cmdinfos st (argv0 :: join_tokens sep toks tail :: rest)
            = some (.error (badusage "combined arg lacks <interpreter>"))))) := by
  refine ⟨by simp [MAX_OPTS], ?_, fun htoks hsep => ⟨fun hk => ⟨?_, ?_⟩, fun hk hl => ?_,
    fun hk hl => ⟨?_, fun hne => ?_⟩⟩⟩
  · refine ⟨(List.replicate (MAX_OPTS + 1) none).set 0 script, by simp [store_arg], ?_⟩
    obtain ⟨r, hr, hnb, hok⟩ := split_loop_bounds MAX_OPTS
      ((List.replicate (MAX_OPTS + 1) none).set 0 script) 1 smashedopt (by simp) (by omega)
    refine ⟨r, hr, hnb, fun args argc h => ?_⟩
    obtain ⟨h1, h2⟩ := hok args argc h
    subst h
    exact ⟨h1, by simp [store_arg, h2]; omega,
      (split_loop_accepted _ _ _ _ _ _ hr).2.2.2.2⟩
  · exact split_loop_four_tokens sep toks tail script hk htoks hsep
  · exact process_opts_too_many cmdinfos st argv0 sep toks tail rest hk htoks hsep
  · exact split_loop_combined sep toks tail script hk htoks hl hsep
  · exact split_loop_no_interp sep toks tail script hk htoks hl
      (by rcases hsep with h | ⟨h, -⟩ <;> simp [h])
  · exact process_opts_no_interp cmdinfos st argv0 sep toks tail rest hne hk htoks hl
      (by rcases hsep with h | ⟨h, -⟩ <;> simp [h])

/-- C29 (witness): four option tokens before the interpreter `perl`, given to
prefork-interp. -/
theorem combined_arg_bounds_witness :
    split_loop (MAX_OPTS + 1) (some (ascii "/x") :: List.replicate MAX_OPTS none) 1
        (join_tokens ch_space [ascii "-U", ascii "-f", ascii "-Ga", ascii "-Gb"]
          (ascii "perl"))
      = some (.error (die "too many options in combined arg")) ∧
    process_opts (prefork_interp_cmdinfos fun _ => none) (prefork_opts_initial [1])
        (ascii "prefork-interp" ::
          join_tokens ch_space [ascii "-U", ascii "-f", ascii "-Ga", ascii "-Gb"]
            (ascii "perl") :: [ascii "/x"])
      = some (.error (die "too many options in combined arg")) :=
  ((combined_arg_bounds (prefork_interp_cmdinfos fun _ => none) (prefork_opts_initial [1])
    (ascii "prefork-interp") [ascii "/x"] [] (some (ascii "/x")) ch_space
    [ascii "-U", ascii "-f", ascii "-Ga", ascii "-Gb"] (ascii "perl")).2.2 (by decide)
    (Or.inl rfl)).1 (by decide)

/-- C26 (the claim as stated fails): three invocations of prefork-interp.
With the tokens `-U`, `-Gab` joined by commas to the interpreter
`my interp`, the first delimiter found is the space inside the interpreter,
so that the argument is cut into `-U,-Gab,my` and `interp` and rejected, where
the separate arguments are accepted. With the token `-g` and the interpreter
`perl`, `myopt` takes `perl` as the value of `-g`: the combined argument is
rejected for want of an interpreter, where the separate arguments make the
script the interpreter. A combined argument of five option tokens and nothing
else is rejected with "too many options in combined arg", not as lacking
the interpreter. -/
theorem process_opts_combined_differs :
    process_opts (prefork_interp_cmdinfos fun _ => none) (prefork_opts_initial [1])
        [ascii "prefork-interp", ascii "-U,-Gab,my interp", ascii "/x"]
      = some (.error (badusage "unknown option -%c")) ∧
    process_opts (prefork_interp_cmdinfos fun _ => none) (prefork_opts_initial [1])
        [ascii "prefork-interp", ascii "-U", ascii "-Gab", ascii "my interp", ascii "/x"]
      = some (.ok ⟨⟨none, [1, 71, 97, 98, 0], .MEDIATION_UNLAUNDERED, .MODE_NORMAL⟩,
          ascii "my interp", some (ascii "/x"), []⟩) ∧
    process_opts (prefork_interp_cmdinfos fun _ => none) (prefork_opts_initial [1])
        [ascii "prefork-interp", ascii "-g perl", ascii "/x"]
      = some (.error (badusage "need interpreter argument")) ∧
    process_opts (prefork_interp_cmdinfos fun _ => none) (prefork_opts_initial [1])
        [ascii "prefork-interp", ascii "-g", ascii "perl", ascii "/x"]
      = some (.ok ⟨⟨some (ascii "perl"), [1], .MEDIATION_UNSPECIFIED, .MODE_NORMAL⟩,
          ascii "/x", none, []⟩) ∧
    process_opts (prefork_interp_cmdinfos fun _ => none) (prefork_opts_initial [1])
        [ascii "prefork-interp", ascii "-U -f -Ga -Gb -Gc", ascii "/x"]
      = some (.error (die "too many options in combined arg")) := by
  decide

/-- C26 (amended): a combined argument made of k option tokens (1 <= k <= 3,
each beginning with `'-'` and holding neither space nor comma) and an
interpreter that does not begin with `'-'`, joined all by single spaces, or
all by single commas with no space in the interpreter. The loop of
`process_opts` cuts it into exactly these k + 1 tokens, in order, and
`shbang_opts` gets them as its vector. When `myopt` stops at the interpreter
token (no option takes it as its value, and no `--` comes before another
option token), the combined argument followed by the script gives the same
options, interpreter, script and remaining arguments as the separate
arguments. A combined argument of two to four option tokens and nothing else
is rejected as lacking the interpreter. -/
theorem process_opts_combined_argument {σ : Type} (cmdinfos : List (cmdinfo σ)) (st : σ)
    (argv0 : CStr) (sep : Nat) (toks : List CStr) (interp : CStr) (rest : List CStr)
    (hk1 : toks ≠ []) (hk3 : toks.length ≤ 3) (htoks : ∀ t ∈ toks, option_token t) :
    (interp.head? ≠ some ch_minus → (sep = ch_space ∨ (sep = ch_comma ∧ ch_space ∉ interp)) →
      split_loop (MAX_OPTS + 1) (rest.head? :: List.replicate MAX_OPTS none) 1
          (join_tokens sep toks interp)
        = some (.ok (rest.head? :: ((toks ++ [interp]).map some ++
            List.replicate (MAX_OPTS - 1 - toks.length) none), toks.length + 2)) ∧
      process_opts cmdinfos st (argv0 :: join_tokens sep toks interp :: rest)
        = (match shbang_opts cmdinfos st ([] :: (toks ++ [interp])) with
          | .error f => some (.error f)
          | .ok (st1, i, _) =>
            match rest with
            | [] =>
              some (.error (badusage
                "no script argument (expected after combined #! options)"))
            | script :: rest1 => some (.ok ⟨st1, i, some script, rest1⟩)) ∧
      ∀ st1 script rest1, rest = script :: rest1 →
        myopt_loop cmdinfos st none (toks ++ [interp]) = .ok (st1, [interp]) →
        process_opts cmdinfos st (argv0 :: join_tokens sep toks interp :: script :: rest1)
            = some (.ok ⟨st1, interp, some script, rest1⟩) ∧
          process_opts cmdinfos st (argv0 :: (toks ++ interp :: script :: rest1))
            = some (.ok ⟨st1, interp, some script, rest1⟩)) ∧
    (option_token interp → (sep = ch_space ∨ sep = ch_comma) →
      process_opts cmdinfos st (argv0 :: join_tokens sep toks interp :: rest)
        = some (.error (badusage "combined arg lacks <interpreter>"))) := by
  refine ⟨fun hinterp hsep => ⟨?_, ?_, fun st1 script rest1 _ hstop => ?_⟩,
    fun hlast hsep => ?_⟩
  · exact split_loop_combined sep toks interp rest.head? hk3 htoks hinterp hsep
  · exact process_opts_combined cmdinfos st argv0 sep toks interp rest hk1 hk3 htoks hinterp
      hsep
  · exact process_opts_combined_eq_separate cmdinfos st argv0 sep toks interp script rest1 hk1
      hk3 htoks hinterp hsep st1 hstop
  · exact process_opts_no_interp cmdinfos st argv0 sep toks interp rest hk1 hk3 htoks hlast
      hsep

/-- C26 (witness): `prefork-interp '-U -f perl' /x a` and
`prefork-interp -U -f perl /x a`. -/
theorem process_opts_combined_argument_witness :
    process_opts (prefork_interp_cmdinfos fun _ => none) (prefork_opts_initial [1])
        (ascii "prefork-interp" :: join_tokens ch_space [ascii "-U", ascii "-f"] (ascii "perl")
          :: ascii "/x" :: [ascii "a"])
      = some (.ok ⟨⟨none, [1], .MEDIATION_UNLAUNDERED, .MODE_FRESH⟩, ascii "perl",
          some (ascii "/x"), [ascii "a"]⟩) ∧
    process_opts (prefork_interp_cmdinfos fun _ => none) (prefork_opts_initial [1])
        (ascii "prefork-interp" :: ([ascii "-U", ascii "-f"] ++
          ascii "perl" :: ascii "/x" :: [ascii "a"]))
      = some (.ok ⟨⟨none, [1], .MEDIATION_UNLAUNDERED, .MODE_FRESH⟩, ascii "perl",
          some (ascii "/x"), [ascii "a"]⟩) :=
  ((process_opts_combined_argument (prefork_interp_cmdinfos fun _ => none)
    (prefork_opts_initial [1]) (ascii "prefork-interp") ch_space [ascii "-U", ascii "-f"]
    (ascii "perl") [ascii "/x", ascii "a"] (by decide) (by decide) (by decide)).1 (by decide)
    (Or.inl rfl)).2.2 ⟨none, [1], .MEDIATION_UNLAUNDERED, .MODE_FRESH⟩ (ascii "/x") [ascii "a"]
    rfl (by decide)

/-! ## The stderr of the script (cgi-fcgi-interp.c, `errpipe_readable`) -/

set_option maxRecDepth 100000 in
/-- C27 (the code at the failing input): the buffer is empty and `read`
returns the six bytes `ab\ncd\n`, two lines. The first line is logged and
`eaten` becomes 3. For the second line `eat` is 6, the place of its newline
plus one counted from the start of the buffer, and `eaten += eat` makes
`eaten` 9: at the top of the third iteration `eaten = scanned = 9` and
`pending = 6`, so `eaten <= scanned <= pending` does not hold, and `memchr`
is called at `buf+9` with the count `(size_t)-3` and reads outside the array.
A chunk with one newline (`ab\ncd`) is handled as the comment in the source
says: `ab` is logged and `cd` is left pending. -/
theorem errpipe_two_lines_in_chunk :
    (errpipe_chunk errpipe_initial (ascii "ab\ncd\n")).logged = [ascii "ab", ascii "cd"] ∧
    (errpipe_chunk errpipe_initial (ascii "ab\ncd\n")).iterations
      = [⟨0, 0, 6⟩, ⟨3, 3, 6⟩, ⟨9, 9, 6⟩] ∧
    (errpipe_chunk errpipe_initial (ascii "ab\ncd\n")).ending = .outside ∧
    memchr_newline (ascii "ab\ncd\n" ++ List.replicate 1018 0) 9 6 = .outside ∧
    (errpipe_chunk errpipe_initial (ascii "ab\ncd")).logged = [ascii "ab"] ∧
    (errpipe_chunk errpipe_initial (ascii "ab\ncd")).iterations = [⟨0, 0, 5⟩, ⟨3, 3, 5⟩] ∧
    (errpipe_chunk errpipe_initial (ascii "ab\ncd")).ending = .moved ∧
    (errpipe_chunk errpipe_initial (ascii "ab\ncd")).after.pending = 2 ∧
    (errpipe_chunk errpipe_initial (ascii "ab\ncd")).after.buf.take 2 = ascii "cd" := by
  decide

end Prefork
